import Mathlib

/-!
Verification of the EpiFAI named-range formula compiler and tag codec.

Strings from the TypeScript source are modelled as `List Char`; each Lean
definition is a direct transcription of the function of the same name in
the repository (`src/client/src/lib/excel-names.ts`,
`src/client/src/components/NameEditor.tsx`,
`src/client/src/components/RangePicker.tsx`).  JavaScript `number` values
that the code only ever uses as non-negative integers are modelled as `Nat`
(with `Int` where a subtraction can genuinely go negative in the source).

The file is laid out as: all definitions first, then all lemmas and
theorems.
-/

/-- Characters of a string literal, the representation used throughout. -/
def chars (s : String) : List Char := s.data

/-- Decimal digit character for `d < 10`. -/
def digitCh (d : Nat) : Char := Char.ofNat (48 + d)

/-- Fuelled digit expansion: the fuel strictly dominates the argument at
every call, so the zero-fuel branch is unreachable. -/
def natDigitsAux : Nat → Nat → List Char
  | 0, _ => []
  | fuel + 1, n =>
    if n < 10 then [digitCh n]
    else natDigitsAux fuel (n / 10) ++ [digitCh (n % 10)]

/-- Decimal representation of a natural number, modelling JavaScript
`String(n)` / template interpolation of a non-negative integer. -/
def natDigits (n : Nat) : List Char := natDigitsAux (n + 1) n

/-- Numeric value of a list of decimal digit characters (the reading that
`parseInt(s, 10)` performs on an all-digit string). -/
def parseNat (s : List Char) : Nat :=
  s.foldl (fun a c => a * 10 + (c.toNat - 48)) 0

/-- Decimal digit test (`0`–`9`), as in the regex class `\d`. -/
def isDigitCh (c : Char) : Bool := 48 ≤ c.toNat && c.toNat ≤ 57

/-- Uppercase-letter test `A`–`Z`. -/
def isUpperCh (c : Char) : Bool := 65 ≤ c.toNat && c.toNat ≤ 90

/-- Letter test `A`–`Z` or `a`–`z`, as in the regex class `[A-Za-z]`. -/
def isLetterCh (c : Char) : Bool :=
  (65 ≤ c.toNat && c.toNat ≤ 90) || (97 ≤ c.toNat && c.toNat ≤ 122)

/-- `colToNum` from the source (identical copies live in `excel-names.ts`,
`NameEditor.tsx` and `RangePicker.tsx`):
`num = num * 26 + (col.charCodeAt(i) - 64)` over the characters.  All call
sites pass letter characters, whose codes exceed 64, so the `Nat`
subtraction agrees with the JavaScript arithmetic there. -/
def colToNum (col : List Char) : Nat :=
  col.foldl (fun num c => num * 26 + (c.toNat - 64)) 0

/-- `numToCol` from the source: repeatedly prepend
`String.fromCharCode(65 + (num-1) % 26)` and divide; the loop body runs
while `num > 0`. -/
def numToCol (num : Nat) : List Char :=
  if num = 0 then []
  else numToCol ((num - 1) / 26) ++ [Char.ofNat (65 + (num - 1) % 26)]
  decreasing_by
    exact Nat.lt_of_le_of_lt (Nat.div_le_self _ _) (by omega)

/-- JavaScript `s.toUpperCase()` restricted to its ASCII action, which is
all the source ever feeds it (column letters and formula text). -/
def toUpperList (s : List Char) : List Char := s.map Char.toUpper

/-- JavaScript whitespace for `trim()`: the common WhiteSpace and
LineTerminator code points (space, tab, LF, VT, FF, CR, NBSP, BOM, LS,
PS).  The remaining Unicode `Zs` characters never appear in the data the
source trims. -/
def isJsWs (c : Char) : Bool :=
  c = ' ' || c = '\t' || c = '\n' || c = '\r' ||
  c.toNat = 11 || c.toNat = 12 || c.toNat = 160 || c.toNat = 65279 ||
  c.toNat = 8232 || c.toNat = 8233

/-- JavaScript `s.trim()`. -/
def trimList (s : List Char) : List Char :=
  ((s.dropWhile isJsWs).reverse.dropWhile isJsWs).reverse

/-- `s.replace(/^=/, "")` — drop a single leading `=`. -/
def dropLeadingEq (s : List Char) : List Char :=
  match s with
  | '=' :: t => t
  | t => t

/-- Optional `\$?` in the range regexes — consume one `$` if present. -/
def dropDollar (s : List Char) : List Char :=
  match s with
  | '$' :: t => t
  | t => t

/-- JavaScript `parseInt(s, 10)`: the value of the leading digit run,
`none` for NaN (no leading digit).  The source only ever applies it to
regex captures of `\d+` or to codec payloads that are digit runs, so the
leading-whitespace/sign cases of the host function cannot arise. -/
def parseIntJS (s : List Char) : Option Nat :=
  let ds := s.takeWhile isDigitCh
  if ds = [] then none else some (parseNat ds)

/-- `(parseIntJS s).getD 0` — used where the source immediately consumes
the parsed number and the input is a guaranteed digit capture. -/
def rowNumOf (s : List Char) : Nat := (parseIntJS s).getD 0

/-- Result of `parseRangeRef` in `NameEditor.tsx`: the five captures of
`^(?:'?([^'!]+)'?!)?(\$?)([A-Za-z]+)(\$?)(\d+):(\$?)([A-Za-z]+)(\$?)(\d+)$`
(sheet may be empty; column letters are upper-cased by the source; rows
are kept as their digit captures, exactly as the source keeps strings). -/
structure ParsedRange where
  sheet : List Char
  startCol : List Char
  startRow : List Char
  endCol : List Char
  endRow : List Char
deriving DecidableEq

/-- The `(\$?)([A-Za-z]+)(\$?)(\d+):(\$?)([A-Za-z]+)(\$?)(\d+)$` part of
the `parseRangeRef` regex, matched against the text after the sheet
prefix.  Greedy runs followed by mandatory distinct delimiters make the
regex deterministic, so maximal-munch scanning is a faithful model. -/
def parseCellPart (s : List Char) :
    Option (List Char × List Char × List Char × List Char) :=
  let s1 := dropDollar s
  let letters1 := s1.takeWhile isLetterCh
  if letters1 = [] then none else
  let r1 := dropDollar (s1.drop letters1.length)
  let digits1 := r1.takeWhile isDigitCh
  if digits1 = [] then none else
  match r1.drop digits1.length with
  | ':' :: r2 =>
    let s2 := dropDollar r2
    let letters2 := s2.takeWhile isLetterCh
    if letters2 = [] then none else
    let r3 := dropDollar (s2.drop letters2.length)
    let digits2 := r3.takeWhile isDigitCh
    if digits2 = [] then none else
    if r3.drop digits2.length = [] then some (letters1, digits1, letters2, digits2)
    else none
  | _ => none

/-- The optional `'?([^'!]+)'?!` sheet group, matched against the text
before the first `!` (the capture group cannot contain `!`). -/
def parseSheetPart (before : List Char) : Option (List Char) :=
  let s1 := match before with
    | '\'' :: t => t
    | t => t
  let run := s1.takeWhile (fun c => c ≠ '\'')
  if run = [] then none else
  match s1.drop run.length with
  | [] => some run
  | ['\''] => some run
  | _ => none

/-- `parseRangeRef` from `NameEditor.tsx` (lines 26–37): strip a leading
`=`, trim, and match the anchored range regex; `null` on failure. -/
def parseRangeRef (ref : List Char) : Option ParsedRange :=
  let clean := trimList (dropLeadingEq ref)
  let pre := clean.takeWhile (fun c => c ≠ '!')
  if pre.length = clean.length then
    -- no `!`: the optional sheet group cannot match, parse the whole text
    match parseCellPart clean with
    | some (l1, d1, l2, d2) =>
      some ⟨[], toUpperList l1, d1, toUpperList l2, d2⟩
    | none => none
  else
    match parseSheetPart pre, parseCellPart (clean.drop (pre.length + 1)) with
    | some sheet, some (l1, d1, l2, d2) =>
      some ⟨sheet, toUpperList l1, d1, toUpperList l2, d2⟩
    | _, _ => none

/-- `DynamicOptions` of `NameEditor.tsx`. -/
structure DynamicOptions where
  skipRows : Nat
  skipCols : Nat
deriving DecidableEq

/-- `HybridOptions` of `NameEditor.tsx`. -/
structure HybridOptions where
  fixedCols : Nat
  skipRows : Nat
deriving DecidableEq

/-- `clampedSkipCols` of `buildDynamicFormula`:
`Math.min(skipCols, Math.max(0, endColNum - startColNum))`.  Truncated
`Nat` subtraction coincides with `Math.max(0, e - s)`. -/
def dynClampedSkipCols (p : ParsedRange) (skipCols : Nat) : Nat :=
  min skipCols (colToNum p.endCol - colToNum p.startCol)

/-- `startColNum + clampedSkipCols` — the column index of the start
anchor emitted by `buildDynamicFormula`. -/
def dynAdjStartColNum (p : ParsedRange) (o : DynamicOptions) : Nat :=
  colToNum p.startCol + dynClampedSkipCols p o.skipCols

/-- `clampedSkipRows` of `buildDynamicFormula`. -/
def dynClampedSkipRows (p : ParsedRange) (skipRows : Nat) : Nat :=
  min skipRows (rowNumOf p.endRow - rowNumOf p.startRow)

/-- `startRowNum + clampedSkipRows` — the row index of the start anchor
emitted by `buildDynamicFormula`. -/
def dynAdjStartRowNum (p : ParsedRange) (o : DynamicOptions) : Nat :=
  rowNumOf p.startRow + dynClampedSkipRows p o.skipRows

/-- Body of `buildDynamicFormula` for a successfully parsed range: the
`OFFSET(anchor,0,0,COUNTA(rowWindow),COUNTA(colWindow))` synthesis of
`NameEditor.tsx` lines 48–74. -/
def dynFormulaBody (p : ParsedRange) (o : DynamicOptions) : List Char :=
  let sheetPrefix := if p.sheet = [] then [] else p.sheet ++ ['!']
  let adjustedStartCol := numToCol (dynAdjStartColNum p o)
  let adjustedStartRow := dynAdjStartRowNum p o
  let bufferCol := numToCol (min (colToNum p.endCol + 20) 16384)
  let bufferRowNum := min (rowNumOf p.endRow + 20) 1048576
  let anchorCell :=
    sheetPrefix ++ '$' :: adjustedStartCol ++ '$' :: natDigits adjustedStartRow
  let rowCountRange :=
    sheetPrefix ++ '$' :: adjustedStartCol ++ '$' :: natDigits adjustedStartRow ++
    ':' :: '$' :: adjustedStartCol ++ '$' :: natDigits bufferRowNum
  let colCountRange :=
    sheetPrefix ++ '$' :: adjustedStartCol ++ '$' :: natDigits adjustedStartRow ++
    ':' :: '$' :: bufferCol ++ '$' :: natDigits adjustedStartRow
  chars "=OFFSET(" ++ anchorCell ++ chars ",0,0,COUNTA(" ++ rowCountRange ++
    chars "),COUNTA(" ++ colCountRange ++ chars "))"

/-- `buildDynamicFormula` from `NameEditor.tsx` (lines 44–75). -/
def buildDynamicFormula (ref : List Char) (o : DynamicOptions) : List Char :=
  match parseRangeRef ref with
  | none => '=' :: dropLeadingEq ref
  | some p => dynFormulaBody p o

/-- `buildHybridFormula` from `NameEditor.tsx` (lines 82–116).  The guard
`fixedCols >= totalCols` is expressed with `Nat` subtraction: for
`endColNum < startColNum` the JavaScript `totalCols` is `≤ 0` and the
guard also fires (since `fixedCols ≥ 1`), exactly as
`endColNum - startColNum + 1 = 1 ≤ fixedCols` fires here. -/
def buildHybridFormula (ref : List Char) (o : HybridOptions) : List Char :=
  match parseRangeRef ref with
  | none => '=' :: dropLeadingEq ref
  | some p =>
    let sheetPrefix := if p.sheet = [] then [] else p.sheet ++ ['!']
    let fixedCols := max 1 o.fixedCols
    let startColNum := colToNum p.startCol
    let endColNum := colToNum p.endCol
    let totalCols := endColNum - startColNum + 1
    if totalCols ≤ fixedCols then '=' :: dropLeadingEq ref
    else
      let startRowNum := rowNumOf p.startRow
      let endRowNum := rowNumOf p.endRow
      let adjustedStartRow := startRowNum + o.skipRows
      let fixedEndCol := numToCol (startColNum + fixedCols - 1)
      -- `fixedPart` interpolates the *captured* `startCol`/`endRow` text
      let fixedPart :=
        sheetPrefix ++ '$' :: p.startCol ++ '$' :: natDigits adjustedStartRow ++
        ':' :: '$' :: fixedEndCol ++ '$' :: p.endRow
      let dynStartCol := numToCol (startColNum + fixedCols)
      let bufferCol := numToCol (min (endColNum + 20) 16384)
      let bufferRowNum := min (endRowNum + 20) 1048576
      let dynAnchor :=
        sheetPrefix ++ '$' :: dynStartCol ++ '$' :: natDigits adjustedStartRow
      let rowCountRange :=
        sheetPrefix ++ '$' :: dynStartCol ++ '$' :: natDigits adjustedStartRow ++
        ':' :: '$' :: dynStartCol ++ '$' :: natDigits bufferRowNum
      let colCountRange :=
        sheetPrefix ++ '$' :: dynStartCol ++ '$' :: natDigits adjustedStartRow ++
        ':' :: '$' :: bufferCol ++ '$' :: natDigits adjustedStartRow
      chars "=(" ++ fixedPart ++ chars ",OFFSET(" ++ dynAnchor ++
        chars ",0,0,COUNTA(" ++ rowCountRange ++ chars "),COUNTA(" ++
        colCountRange ++ chars ")))"

/-! ### Tag-codec scanning primitives

JavaScript `String.match` with a non-global, non-anchored regex finds the
leftmost position at which the whole pattern matches; `String.replace`
removes that match; `String.includes` tests occurrence.  `firstMatch`
scans positions left to right with a position matcher, `replaceOnce`
deletes the first match (the matcher returns the matched length). -/

def firstMatch {α : Type} (m : List Char → Option α) : List Char → Option α
  | [] => m []
  | c :: t =>
    match m (c :: t) with
    | some v => some v
    | none => firstMatch m t

def replaceOnce (m : List Char → Option Nat) : List Char → List Char
  | [] =>
    match m [] with
    | some n => List.drop n []
    | none => []
  | c :: t =>
    match m (c :: t) with
    | some n => List.drop n (c :: t)
    | none => c :: replaceOnce m t

/-- Matcher for a literal pattern at the current position. -/
def litM (pat : List Char) (s : List Char) : Option Nat :=
  if pat <+: s then some pat.length else none

/-- JavaScript `s.includes(pat)`. -/
def containsSub (pat s : List Char) : Bool := (firstMatch (litM pat) s).isSome

/-- Matcher for `open([^\]]+)\]` at the current position: the literal
opener, a non-empty run of non-`]` characters, a closing `]`.  Returns
the capture and the total matched length. -/
def payloadM (openL : List Char) (s : List Char) : Option (List Char × Nat) :=
  if openL <+: s then
    let rest := s.drop openL.length
    let payload := rest.takeWhile (fun c => c ≠ ']')
    if payload = [] then none
    else
      match rest.drop payload.length with
      | ']' :: _ => some (payload, openL.length + payload.length + 1)
      | _ => none
  else none

/-- Matcher for `\[skip:(\d+),(\d+)\]` at the current position. -/
def skipM (s : List Char) : Option ((Nat × Nat) × Nat) :=
  if chars "[skip:" <+: s then
    let r1 := s.drop 6
    let d1 := r1.takeWhile isDigitCh
    if d1 = [] then none else
    match r1.drop d1.length with
    | ',' :: r2 =>
      let d2 := r2.takeWhile isDigitCh
      if d2 = [] then none else
      match r2.drop d2.length with
      | ']' :: _ => some ((parseNat d1, parseNat d2), 6 + d1.length + 1 + d2.length + 1)
      | _ => none
    | _ => none
  else none

/-- Length-only views of the matchers, for `replace`. -/
def payloadLenM (openL : List Char) (s : List Char) : Option Nat :=
  (payloadM openL s).map (fun v => v.2)

def skipLenM (s : List Char) : Option Nat := (skipM s).map (fun v => v.2)

/-! ### Tag constants (excel-names.ts lines 3–15) -/

def EPIFAI_TAG : List Char := chars "[Epifai]"
def fixrefOpen : List Char := chars "[fixref:"
def dynrefOpen : List Char := chars "[dynref:"
def origrangeOpen : List Char := chars "[origrange:"
def skipcidxOpen : List Char := chars "[skipcidx:"
def skipridxOpen : List Char := chars "[skipridx:"
def coloverflowOpen : List Char := chars "[coloverflow:"
def rowoverflowOpen : List Char := chars "[rowoverflow:"
def lastcolTag : List Char := chars "[lastcol]"
def lastrowTag : List Char := chars "[lastrow]"
def expandrowsTag : List Char := chars "[expandrows]"
def expandcolsTag : List Char := chars "[expandcols]"

/-! ### String.split / join / lastIndexOf models -/

/-- JavaScript `s.split(sep)` for a single-character separator. -/
def splitChar (sep : Char) : List Char → List (List Char)
  | [] => [[]]
  | c :: t =>
    match splitChar sep t with
    | [] => [[]]
    | h :: r => if c = sep then [] :: h :: r else (c :: h) :: r

/-- `parts.join(sep)` for a single-character separator. -/
def joinChar (sep : Char) : List (List Char) → List Char
  | [] => []
  | [p] => p
  | p :: ps => p ++ sep :: joinChar sep ps

/-- `parts.join(" ")`, the assembly used for comments. -/
def joinSp (ps : List (List Char)) : List Char := joinChar ' ' ps

/-- JavaScript `s.lastIndexOf(c)` (as `Option`; `none` is `-1`). -/
def lastIdxOf (c : Char) : List Char → Option Nat
  | [] => none
  | x :: t =>
    match lastIdxOf c t with
    | some i => some (i + 1)
    | none => if x = c then some 0 else none

/-- JavaScript `Number(s)` on codec payload pieces: `""` is `0`, a digit
run is its value, anything else is NaN (`none`).  Sign/float/hex forms
never occur in the codec's own payloads. -/
def jsNumber (s : List Char) : Option Nat :=
  if s = [] then some 0
  else if s.all isDigitCh then some (parseNat s) else none

/-! ### Overflow-map codec (excel-names.ts lines 96–158)

`Record<K, number>` values are modelled as association lists in the
host's enumeration order (ascending numeric order for integer-like keys,
insertion order for string keys), with distinct keys. -/

def encodeOverflow (entries : List (List Char × Nat)) : List Char :=
  match entries with
  | [] => []
  | e :: rest =>
    -- `vals.every(v => v === vals[0])`
    if (e :: rest).all (fun kv => kv.2 = e.2) then
      joinChar ',' ((e :: rest).map (fun kv => kv.1)) ++ '=' :: natDigits e.2
    else
      joinChar ',' ((e :: rest).map (fun kv => kv.1 ++ ':' :: natDigits kv.2))

/-- The `s.split(",").map(p => { const [k, v] = p.split(":"); ... })`
branch of `decodeOverflow`.  A piece with no `:` gives
`parseInt(undefined) = NaN`, modelled as 0 (never reached by
codec-produced payloads). -/
def decodeOverflowPieces (s : List Char) : List (List Char × Nat) :=
  (splitChar ',' s).map (fun p =>
    let ps := splitChar ':' p
    (ps.headD [], (parseIntJS (ps.getD 1 [])).getD 0))

def decodeOverflow (s : List Char) : List (List Char × Nat) :=
  if s = [] then []
  else
    match lastIdxOf '=' s with
    | some i =>
      if 0 < i then
        if (s.take i).any (fun c => c = ':') then decodeOverflowPieces s
        else
          (splitChar ',' (s.take i)).map
            (fun k => (k, (parseIntJS (s.drop (i + 1))).getD 0))
      else decodeOverflowPieces s
    | none => decodeOverflowPieces s

/-! ### Legacy JSON branch of the overflow parsers

`parse*OverflowTag` accept a historical `{"k":v,...}` payload via
`JSON.parse` inside `try/catch`.  The codec's own encoder never emits
this form.  `jsonFlat` models `JSON.parse` on exactly the flat
string-key/integer-value objects that format stored; any other input is
`none`, which the source's `catch` turns into the empty map. -/

def lbraceCh : Char := Char.ofNat 123
def rbraceCh : Char := Char.ofNat 125

def jsonStringLit (s : List Char) : Option (List Char × List Char) :=
  match s with
  | '"' :: t =>
    let content := t.takeWhile (fun c => c ≠ '"')
    match t.drop content.length with
    | '"' :: r => some (content, r)
    | _ => none
  | _ => none

def jsonPairsAux (fuel : Nat) (s : List Char) :
    Option (List (List Char × Nat) × List Char) :=
  match fuel with
  | 0 => none
  | fuel + 1 =>
    match jsonStringLit s with
    | none => none
    | some (k, r1) =>
      match r1 with
      | ':' :: r2 =>
        let ds := r2.takeWhile isDigitCh
        if ds = [] then none else
        match r2.drop ds.length with
        | ',' :: r3 =>
          match jsonPairsAux fuel r3 with
          | some (ps, rest) => some ((k, parseNat ds) :: ps, rest)
          | none => none
        | r3 => some ([(k, parseNat ds)], r3)
      | _ => none

def jsonFlat (s : List Char) : Option (List (List Char × Nat)) :=
  match s with
  | c :: t =>
    if c = lbraceCh then
      if t = [rbraceCh] then some []
      else
        match jsonPairsAux t.length t with
        | some (ps, r) => if r = [rbraceCh] then some ps else none
        | none => none
    else none
  | [] => none

/-! ### Tag parsers and builders (excel-names.ts lines 17–158) -/

def parseSkipTag (comment : List Char) : Nat × Nat :=
  match firstMatch skipM comment with
  | some (v, _) => v
  | none => (0, 0)

def parsePayloadTag (openL : List Char) (comment : List Char) : List Char :=
  match firstMatch (payloadM openL) comment with
  | some (p, _) => p
  | none => []

def parseFixedRefTag (c : List Char) : List Char := parsePayloadTag fixrefOpen c
def parseDynamicRefTag (c : List Char) : List Char := parsePayloadTag dynrefOpen c
def parseOrigRangeTag (c : List Char) : List Char := parsePayloadTag origrangeOpen c

def parseLastColTag (c : List Char) : Bool := containsSub lastcolTag c
def parseLastRowTag (c : List Char) : Bool := containsSub lastrowTag c
def parseExpandRowsTag (c : List Char) : Bool := containsSub expandrowsTag c
def parseExpandColsTag (c : List Char) : Bool := containsSub expandcolsTag c

/-- `m[1].split(",").map(Number)`; `Number` NaN (impossible for payloads
the codec itself wrote) is modelled as 0. -/
def parseSkipColIndicesTag (c : List Char) : List Nat :=
  match firstMatch (payloadM skipcidxOpen) c with
  | some (p, _) => (splitChar ',' p).map (fun q => (jsNumber q).getD 0)
  | none => []

def parseSkipRowIndicesTag (c : List Char) : List Nat :=
  match firstMatch (payloadM skipridxOpen) c with
  | some (p, _) => (splitChar ',' p).map (fun q => (jsNumber q).getD 0)
  | none => []

/-- `parseColOverflowTag`: the legacy-JSON branch fires when the payload
starts with `{` (`m[1].startsWith("{")`, i.e. `head? = some '{'`; the
payload capture is never empty); a `JSON.parse` failure is the `catch`
returning the empty map.  Keys are coerced by `Number(k)`. -/
def parseColOverflowTag (c : List Char) : List (Nat × Nat) :=
  match firstMatch (payloadM coloverflowOpen) c with
  | none => []
  | some (p, _) =>
    if p.head? = some lbraceCh then
      ((jsonFlat p).getD []).map (fun kv => ((jsNumber kv.1).getD 0, kv.2))
    else (decodeOverflow p).map (fun kv => ((jsNumber kv.1).getD 0, kv.2))

def parseRowOverflowTag (c : List Char) : List (List Char × Nat) :=
  match firstMatch (payloadM rowoverflowOpen) c with
  | none => []
  | some (p, _) =>
    if p.head? = some lbraceCh then (jsonFlat p).getD []
    else decodeOverflow p

def buildSkipTag (skipRows skipCols : Nat) : List Char :=
  if skipRows = 0 ∧ skipCols = 0 then []
  else chars "[skip:" ++ natDigits skipRows ++ ',' :: natDigits skipCols ++ [']']

def buildFixedRefTag (ref : List Char) : List Char :=
  if ref = [] then [] else fixrefOpen ++ ref ++ [']']

def buildDynamicRefTag (ref : List Char) : List Char :=
  if ref = [] then [] else dynrefOpen ++ ref ++ [']']

def buildOrigRangeTag (address : List Char) : List Char :=
  if address = [] then [] else origrangeOpen ++ address ++ [']']

def buildLastColTag (lastColOnly : Bool) : List Char :=
  if lastColOnly then lastcolTag else []

def buildLastRowTag (lastRowOnly : Bool) : List Char :=
  if lastRowOnly then lastrowTag else []

def buildExpandRowsTag (flag : Bool) : List Char :=
  if flag then expandrowsTag else []

def buildExpandColsTag (flag : Bool) : List Char :=
  if flag then expandcolsTag else []

def buildSkipColIndicesTag (indices : List Nat) : List Char :=
  if indices = [] then []
  else skipcidxOpen ++ joinChar ',' (indices.map natDigits) ++ [']']

def buildSkipRowIndicesTag (indices : List Nat) : List Char :=
  if indices = [] then []
  else skipridxOpen ++ joinChar ',' (indices.map natDigits) ++ [']']

/-- `Object.entries` turns the numeric keys into their decimal strings
(in ascending numeric order, the host's enumeration order — the model
list carries them in that order). -/
def buildColOverflowTag (overflow : List (Nat × Nat)) : List Char :=
  if overflow = [] then []
  else coloverflowOpen ++
    encodeOverflow (overflow.map (fun kv => (natDigits kv.1, kv.2))) ++ [']']

def buildRowOverflowTag (overflow : List (List Char × Nat)) : List Char :=
  if overflow = [] then []
  else rowoverflowOpen ++ encodeOverflow overflow ++ [']']

/-! ### CompilerOptions and the comment assemblies -/

/-- The tag-bearing configuration of a named range: the fifteen
parameters of `addName` (excel-names.ts line 434) apart from name,
formula, user comment and scope. -/
structure CompilerOptions where
  skipRows : Nat
  skipCols : Nat
  fixedRef : List Char
  dynamicRef : List Char
  lastColOnly : Bool
  lastRowOnly : Bool
  origRange : List Char
  expandRows : Bool
  expandCols : Bool
  skippedColIndices : List Nat
  skippedRowIndices : List Nat
  colOverflowByRow : List (Nat × Nat)
  rowOverflowByCol : List (List Char × Nat)
deriving DecidableEq

/-- The `addName` defaults: zero skips, empty refs, false flags, empty
lists and maps. -/
def defaultOptions : CompilerOptions :=
  ⟨0, 0, [], [], false, false, [], false, false, [], [], [], []⟩

/-- The twelve option tags in the order `addName`/`updateName` assemble
them (excel-names.ts lines 466–478 and 509–521). -/
def optionTagParts (o : CompilerOptions) : List (List Char) :=
  [buildSkipTag o.skipRows o.skipCols,
   buildFixedRefTag o.fixedRef,
   buildDynamicRefTag o.dynamicRef,
   buildLastColTag o.lastColOnly,
   buildLastRowTag o.lastRowOnly,
   buildOrigRangeTag o.origRange,
   buildExpandRowsTag o.expandRows,
   buildExpandColsTag o.expandCols,
   buildSkipColIndicesTag o.skippedColIndices,
   buildSkipRowIndicesTag o.skippedRowIndices,
   buildColOverflowTag o.colOverflowByRow,
   buildRowOverflowTag o.rowOverflowByCol]

/-- `encode(options)`: the option tags, blanks filtered, joined by single
spaces — the tag portion of the comment written by `addName`. -/
def encodeTags (o : CompilerOptions) : List Char :=
  joinSp ((optionTagParts o).filter (fun p => p ≠ []))

/-- `decode`: the thirteen independent tag parsers applied to a comment. -/
def decodeOptions (c : List Char) : CompilerOptions :=
  ⟨(parseSkipTag c).1, (parseSkipTag c).2,
   parseFixedRefTag c, parseDynamicRefTag c,
   parseLastColTag c, parseLastRowTag c,
   parseOrigRangeTag c, parseExpandRowsTag c, parseExpandColsTag c,
   parseSkipColIndicesTag c, parseSkipRowIndicesTag c,
   parseColOverflowTag c, parseRowOverflowTag c⟩

/-- The comment written by `addName` (lines 466–479):
`[EPIFAI_TAG, comment, ...tags].filter(Boolean).join(" ")`. -/
def addNameComment (comment : List Char) (o : CompilerOptions) : List Char :=
  joinSp (((EPIFAI_TAG :: comment :: optionTagParts o)).filter (fun p => p ≠ []))

/-- `UpdateNameParams` of excel-names.ts (lines 205–222); `none` is an
absent (`undefined`) field. -/
structure UpdateNameParams where
  newName : Option (List Char)
  refersTo : Option (List Char)
  comment : Option (List Char)
  skipRows : Option Nat
  skipCols : Option Nat
  fixedRef : Option (List Char)
  dynamicRef : Option (List Char)
  lastColOnly : Option Bool
  lastRowOnly : Option Bool
  origRange : Option (List Char)
  expandRows : Option Bool
  expandCols : Option Bool
  skippedColIndices : Option (List Nat)
  skippedRowIndices : Option (List Nat)
  colOverflowByRow : Option (List (Nat × Nat))
  rowOverflowByCol : Option (List (List Char × Nat))
deriving DecidableEq

/-- An `UpdateNameParams` with every field absent. -/
def emptyUpdate : UpdateNameParams :=
  ⟨none, none, none, none, none, none, none, none, none, none, none, none,
   none, none, none, none⟩

/-- The per-field merge of `updateName` (lines 496–508): an update value
if supplied, otherwise the value parsed back from the old comment. -/
def effOptions (oldRaw : List Char) (u : UpdateNameParams) : CompilerOptions :=
  ⟨u.skipRows.getD (parseSkipTag oldRaw).1,
   u.skipCols.getD (parseSkipTag oldRaw).2,
   u.fixedRef.getD (parseFixedRefTag oldRaw),
   u.dynamicRef.getD (parseDynamicRefTag oldRaw),
   u.lastColOnly.getD (parseLastColTag oldRaw),
   u.lastRowOnly.getD (parseLastRowTag oldRaw),
   u.origRange.getD (parseOrigRangeTag oldRaw),
   u.expandRows.getD (parseExpandRowsTag oldRaw),
   u.expandCols.getD (parseExpandColsTag oldRaw),
   u.skippedColIndices.getD (parseSkipColIndicesTag oldRaw),
   u.skippedRowIndices.getD (parseSkipRowIndicesTag oldRaw),
   u.colOverflowByRow.getD (parseColOverflowTag oldRaw),
   u.rowOverflowByCol.getD (parseRowOverflowTag oldRaw)⟩

/-! `stripMetaTags` (lines 160–176): thirteen first-occurrence `replace`
steps — the origin sentinel and the twelve tags, in the source's order —
followed by `trim()`. -/

def stripSeq : List (List Char → Option Nat) → List Char → List Char
  | [], s => s
  | m :: ms, s => stripSeq ms (replaceOnce m s)

def stripMatchers : List (List Char → Option Nat) :=
  [litM EPIFAI_TAG, skipLenM, payloadLenM fixrefOpen, payloadLenM dynrefOpen,
   litM lastcolTag, litM lastrowTag, payloadLenM origrangeOpen,
   litM expandrowsTag, litM expandcolsTag, payloadLenM skipcidxOpen,
   payloadLenM skipridxOpen, payloadLenM coloverflowOpen,
   payloadLenM rowoverflowOpen]

def stripMetaTags (comment : List Char) : List Char :=
  trimList (stripSeq stripMatchers comment)

/-- The comment written by `updateName` (lines 490–522):
`[hadEpifaiTag ? EPIFAI_TAG : "", userComment, ...tags]
  .filter(Boolean).join(" ")`. -/
def updateNameComment (oldRaw : List Char) (u : UpdateNameParams) : List Char :=
  let hadEpifaiTag := containsSub EPIFAI_TAG oldRaw
  let userComment := u.comment.getD (stripMetaTags oldRaw)
  joinSp
    (((if hadEpifaiTag then EPIFAI_TAG else []) ::
      userComment :: optionTagParts (effOptions oldRaw u)).filter
      (fun p => p ≠ []))

/-! ### Name-record classification (excel-names.ts lines 239–295) -/

/-- `splitFormulaTopLevel` (lines 848–868), with the running parenthesis
depth as an integer since the source's counter may go negative. -/
def splitFormulaAux (depth : Int) (cur : List Char) :
    List Char → List (List Char)
  | [] => if cur ≠ [] then [cur.reverse] else []
  | c :: rest =>
    if c = '(' then splitFormulaAux (depth + 1) (c :: cur) rest
    else if c = ')' then splitFormulaAux (depth - 1) (c :: cur) rest
    else if c = ',' then
      if depth = 0 then cur.reverse :: splitFormulaAux depth [] rest
      else splitFormulaAux depth (c :: cur) rest
    else splitFormulaAux depth (c :: cur) rest

def splitFormulaTopLevel (f : List Char) : List (List Char) :=
  splitFormulaAux 0 [] f

def isDynamicFormula (f : List Char) : Bool :=
  let u := toUpperList f
  containsSub (chars "OFFSET(") u || containsSub (chars "INDIRECT(") u ||
    containsSub (chars "INDEX(") u

def isUnionFormula (f : List Char) : Bool :=
  1 < (splitFormulaTopLevel (dropLeadingEq f)).length

/-- Model of the untyped `value` carried by a host named item:
`isBrokenValue` only distinguishes string values, so non-string values
are collapsed into one constructor. -/
inductive JsVal where
  | strVal (s : List Char)
  | nonString
deriving DecidableEq

def isBrokenValue : JsVal → Bool
  | .strVal s =>
    (toUpperList s = chars "#REF!") || containsSub (chars "#REF!") (toUpperList s)
  | .nonString => false

inductive NameStatus where
  | valid | broken | unknown
deriving DecidableEq

inductive NameOrigin where
  | epifai | excel
deriving DecidableEq

/-- The status computation of `buildExcelName` (lines 262–267). -/
def computeStatus (formula : List Char) (value : JsVal) (address : List Char) :
    NameStatus :=
  if address = [] ∧ isDynamicFormula formula = false ∧
      isUnionFormula formula = false then .broken
  else if isBrokenValue value then .broken
  else .valid

/-- The host named-item fields `buildExcelName` reads. -/
structure NamedItemData where
  name : List Char
  typ : List Char
  value : JsVal
  formula : List Char
  visible : Bool
  comment : List Char
deriving DecidableEq

/-- The `ExcelName` record (lines 178–203); the optional cached `values`
grid is omitted (never consulted by any classified field). -/
structure ExcelNameRec where
  name : List Char
  typ : List Char
  value : JsVal
  formula : List Char
  comment : List Char
  visible : Bool
  scope : List Char
  address : List Char
  status : NameStatus
  origin : NameOrigin
  skipRows : Nat
  skipCols : Nat
  fixedRef : List Char
  dynamicRef : List Char
  lastColOnly : Bool
  lastRowOnly : Bool
  origRange : List Char
  expandRows : Bool
  expandCols : Bool
  skippedColIndices : List Nat
  skippedRowIndices : List Nat
  colOverflowByRow : List (Nat × Nat)
  rowOverflowByCol : List (List Char × Nat)
deriving DecidableEq

/-- `buildExcelName` (lines 257–295). -/
def buildExcelName (item : NamedItemData) (scope : List Char)
    (address : List Char) : ExcelNameRec :=
  ⟨item.name, item.typ, item.value, item.formula,
   stripMetaTags item.comment, item.visible, scope, address,
   computeStatus item.formula item.value address,
   (if containsSub EPIFAI_TAG item.comment then .epifai else .excel),
   (parseSkipTag item.comment).1, (parseSkipTag item.comment).2,
   parseFixedRefTag item.comment, parseDynamicRefTag item.comment,
   parseLastColTag item.comment, parseLastRowTag item.comment,
   parseOrigRangeTag item.comment, parseExpandRowsTag item.comment,
   parseExpandColsTag item.comment, parseSkipColIndicesTag item.comment,
   parseSkipRowIndicesTag item.comment, parseColOverflowTag item.comment,
   parseRowOverflowTag item.comment⟩

/-! ### Visual range picker (`RangePicker.tsx`) -/

/-- `/^[A-Za-z_][A-Za-z0-9_]*$/.test(name)` in `quoteSheet`. -/
def sheetIdentOk (s : List Char) : Bool :=
  match s with
  | [] => false
  | c :: t =>
    (isLetterCh c || c = '_') &&
      t.all (fun d => isLetterCh d || isDigitCh d || d = '_')

/-- `quoteSheet` (RangePicker.tsx lines 48–52): quote and double embedded
quotes unless the name is a plain identifier. -/
def quoteSheet (name : List Char) : List Char :=
  if name = [] then []
  else if sheetIdentOk name then name
  else '\'' ::
    (name.flatMap (fun c => if c = '\'' then ['\'', '\''] else [c])) ++ ['\'']

/-- `sheetPrefix` (RangePicker.tsx lines 54–57). -/
def sheetPrefix (sheet : List Char) : List Char :=
  if sheet = [] then [] else quoteSheet sheet ++ ['!']

/-- The fields of a `SelectionData` snapshot that the picker's pure
compile pipeline reads (`values`, `address` and the overflow probes are
never consulted by `buildResult`). -/
structure SelectionData where
  sheet : List Char
  startCol : List Char
  endCol : List Char
  startRow : Nat
  endRow : Nat
  colCount : Nat
  rowCount : Nat
  columns : List (List Char)
deriving DecidableEq

/-- `activeColIndices` (lines 117–121): indices `0..colCount-1` not in the
skip set (the `Set<number>` is modelled as a list with membership). -/
def activeColIndices (sd : SelectionData) (skippedCols : List Nat) : List Nat :=
  (List.range sd.colCount).filter (fun i => !(skippedCols.contains i))

/-- `topSkipCount` (lines 129–137): leading skipped rows, stopping at the
first active one. -/
def topSkipCount (sd : SelectionData) (skippedRows : List Nat) : Nat :=
  ((List.range sd.rowCount).takeWhile (fun i => skippedRows.contains i)).length

/-- `leftSkipCount` (lines 139–147). -/
def leftSkipCount (sd : SelectionData) (skippedCols : List Nat) : Nat :=
  ((List.range sd.colCount).takeWhile (fun i => skippedCols.contains i)).length

/-- The `summary` value (lines 151–176). -/
inductive RPSummary where
  | simple (cols : List (List Char)) (skipRows skipCols : Nat)
  | hybrid (fixedCols dynamicCols : List (List Char))
      (skipRows skipCols : Nat) (lastColOnly : Bool)
deriving DecidableEq

def rpSummary (sd : SelectionData) (skippedRows skippedCols : List Nat)
    (fixedBoundary : Nat) (lastColOnly : Bool) : RPSummary :=
  let activeCols :=
    (activeColIndices sd skippedCols).map (fun i => sd.columns.getD i [])
  if 0 < fixedBoundary then
    .hybrid (activeCols.take fixedBoundary) (activeCols.drop fixedBoundary)
      (topSkipCount sd skippedRows) (leftSkipCount sd skippedCols) lastColOnly
  else
    .simple activeCols (topSkipCount sd skippedRows) (leftSkipCount sd skippedCols)

/-- The record returned by `buildResult`. -/
structure RPResult where
  refersTo : List Char
  skipRows : Nat
  skipCols : Nat
  fixedRef : List Char
  dynamicRef : List Char
  lastColOnly : Bool
deriving DecidableEq

/-- `buildResult` (RangePicker.tsx lines 187–248): the picker's compile
step, from a selection snapshot plus the grid's skip sets, the
fixed/dynamic boundary (`0` = no hybrid split) and the last-column-only
switch. -/
def buildResult (sd : SelectionData) (skippedRows skippedCols : List Nat)
    (fixedBoundary : Nat) (lastColOnly : Bool) : Option RPResult :=
  match rpSummary sd skippedRows skippedCols fixedBoundary lastColOnly with
  | .simple activeCols skipR skipC =>
    match activeCols with
    | [] => none
    | firstCol :: _ =>
      let lastCol := activeCols.getLastD []
      let sp := sheetPrefix sd.sheet
      let dataStartRow := sd.startRow + skipR
      let ref := sp ++ '$' :: firstCol ++ '$' :: natDigits dataStartRow ++
        ':' :: '$' :: lastCol ++ '$' :: natDigits sd.endRow
      some ⟨'=' :: ref, skipR, skipC, [], [], false⟩
  | .hybrid fixedCols dynCols skipR skipC lastC =>
    if fixedCols = [] ∨ dynCols = [] then none
    else
      let dataStartRow := sd.startRow + skipR
      let fixedFirst := fixedCols.headD []
      let fixedLast := fixedCols.getLastD []
      let dynFirst := dynCols.headD []
      let dynLast := dynCols.getLastD []
      let qSheet := quoteSheet sd.sheet
      let sheetRef := if qSheet = [] then [] else qSheet ++ ['!']
      let fixedRefStr := sheetRef ++ '$' :: fixedFirst ++
        '$' :: natDigits dataStartRow ++ ':' :: '$' :: fixedLast ++
        '$' :: natDigits sd.endRow
      let dynamicRefStr := sheetRef ++ '$' :: dynFirst ++
        '$' :: natDigits dataStartRow ++ ':' :: '$' :: dynLast ++
        '$' :: natDigits sd.endRow
      let sp := sheetPrefix sd.sheet
      let bufferCol := numToCol (min (colToNum dynLast + 20) 16384)
      let bufferRowNum := min (sd.endRow + 20) 1048576
      let fixedPart := sp ++ '$' :: fixedFirst ++
        '$' :: natDigits dataStartRow ++ ':' :: '$' :: fixedLast ++
        '$' :: natDigits sd.endRow
      let dynAnchor := sp ++ '$' :: dynFirst ++ '$' :: natDigits dataStartRow
      let rowCountRange := sp ++ '$' :: dynFirst ++
        '$' :: natDigits dataStartRow ++ ':' :: '$' :: dynFirst ++
        '$' :: natDigits bufferRowNum
      let colCountRange := sp ++ '$' :: dynFirst ++
        '$' :: natDigits dataStartRow ++ ':' :: '$' :: bufferCol ++
        '$' :: natDigits dataStartRow
      let formula :=
        if lastC then
          '=' :: fixedPart ++ chars ",OFFSET(" ++ dynAnchor ++
            chars ",0,COUNTA(" ++ colCountRange ++ chars ")-1,COUNTA(" ++
            rowCountRange ++ chars "),1)"
        else
          '=' :: fixedPart ++ chars ",OFFSET(" ++ dynAnchor ++
            chars ",0,0,COUNTA(" ++ rowCountRange ++ chars "),COUNTA(" ++
            colCountRange ++ chars "))"
      some ⟨formula, skipR, skipC, fixedRefStr, dynamicRefStr, lastC⟩

/-! ### Well-formedness predicates for the codec theorems

Every tag matcher requires its bracketed opener, so a comment region can
only be (mis)read as a tag where a `[` occurs.  The round-trip and
strip laws therefore hold for option values whose free-text payloads do
not themselves contain tag-delimiter characters. -/

/-- The matcher `m` only fires where `openM` is a prefix. -/
def OpensWith {α : Type} (m : List Char → Option α) (openM : List Char) : Prop :=
  ∀ s, m s ≠ none → openM <+: s

/-- A comment region the matcher `m` can never fire on: it fails at the
region's start (wherever it sits) and the region's tail contains no `[`
for a later scan position to fire on. -/
def SafeChunk {α : Type} (m : List Char → Option α) (p : List Char) : Prop :=
  (∀ z, m (p ++ z) = none) ∧ (∀ c ∈ p.drop 1, c ≠ '[')

/-- Payload text free of the tag delimiters. -/
def BracketFree (s : List Char) : Prop := ∀ c ∈ s, c ≠ '[' ∧ c ≠ ']'

/-- A row-overflow key the overflow codec can carry faithfully: non-empty
and free of the delimiters and separators of the tag and overflow
formats (and of a leading `{`, which would trigger the legacy JSON
branch). -/
def KeySafe (s : List Char) : Prop :=
  s ≠ [] ∧ ∀ c ∈ s,
    c ≠ '[' ∧ c ≠ ']' ∧ c ≠ ',' ∧ c ≠ ':' ∧ c ≠ '=' ∧ c ≠ lbraceCh

/-- Options whose payload-bearing fields are representable by the tag
codec.  The two overflow lists model host `Record`s, so their keys are
distinct — in ascending numeric order for the integer-keyed one, the
host's enumeration order. -/
def WellFormedOptions (o : CompilerOptions) : Prop :=
  BracketFree o.fixedRef ∧ BracketFree o.dynamicRef ∧
  BracketFree o.origRange ∧
  (∀ kv ∈ o.rowOverflowByCol, KeySafe kv.1) ∧
  (o.rowOverflowByCol.map (fun kv => kv.1)).Nodup ∧
  (o.colOverflowByRow.map (fun kv => kv.1)).Chain' (fun a b => a < b)

/- ------------------------------------------------------------------ -/
/- Lemmas and theorems.                                               -/
/- ------------------------------------------------------------------ -/

lemma toNat_ofNat_small {n : Nat} (h : n < 55296) : (Char.ofNat n).toNat = n := by
  have hv : n.isValidChar := Or.inl h
  simp [Char.ofNat, hv, Char.ofNatAux, Char.toNat, UInt32.toNat, BitVec.toNat_ofNatLt]

lemma digitCh_toNat (d : Nat) (h : d < 10) : (digitCh d).toNat = 48 + d := by
  unfold digitCh
  rw [toNat_ofNat_small (by omega)]

lemma natDigitsAux_irrel {fuel1 fuel2 n : Nat} (h1 : n < fuel1)
    (h2 : n < fuel2) : natDigitsAux fuel1 n = natDigitsAux fuel2 n := by
  induction fuel1 using Nat.strong_induction_on generalizing fuel2 n with
  | _ fuel1 ih =>
    match fuel1, fuel2 with
    | f + 1, g + 1 =>
      unfold natDigitsAux
      split
      · rfl
      · next hn =>
        rw [ih f (by omega) (show n / 10 < f by
            have := Nat.div_lt_self (show 0 < n by omega) (show 1 < 10 by omega)
            omega)
          (show n / 10 < g by
            have := Nat.div_lt_self (show 0 < n by omega) (show 1 < 10 by omega)
            omega)]

lemma natDigits_eq (n : Nat) :
    natDigits n = if n < 10 then [digitCh n]
      else natDigits (n / 10) ++ [digitCh (n % 10)] := by
  unfold natDigits
  conv_lhs => rw [natDigitsAux]
  split
  · rfl
  · next hn =>
    rw [natDigitsAux_irrel
      (show n / 10 < n by exact Nat.div_lt_self (by omega) (by omega))
      (Nat.lt_succ_self _)]

lemma parseNat_append (xs : List Char) (c : Char) :
    parseNat (xs ++ [c]) = parseNat xs * 10 + (c.toNat - 48) := by
  unfold parseNat
  rw [List.foldl_append]
  rfl

lemma natDigits_parseNat (n : Nat) : parseNat (natDigits n) = n := by
  induction n using Nat.strong_induction_on with
  | _ n ih =>
    rw [natDigits_eq]
    split
    · next h =>
      show parseNat ([] ++ [digitCh n]) = n
      rw [parseNat_append, digitCh_toNat n h]
      simp [parseNat]
    · next h =>
      rw [parseNat_append, ih (n / 10) (Nat.div_lt_self (by omega) (by omega)),
        digitCh_toNat (n % 10) (Nat.mod_lt _ (by omega))]
      omega

lemma natDigits_mem_digit {n : Nat} {c : Char} (h : c ∈ natDigits n) :
    48 ≤ c.toNat ∧ c.toNat ≤ 57 := by
  induction n using Nat.strong_induction_on with
  | _ n ih =>
    rw [natDigits_eq] at h
    split at h
    · next hn =>
      simp only [List.mem_singleton] at h
      subst h
      rw [digitCh_toNat n hn]
      omega
    · next hn =>
      rcases List.mem_append.mp h with h1 | h1
      · exact ih (n / 10) (Nat.div_lt_self (by omega) (by omega)) h1
      · simp only [List.mem_singleton] at h1
        subst h1
        rw [digitCh_toNat (n % 10) (Nat.mod_lt _ (by omega))]
        omega

lemma natDigits_ne_nil (n : Nat) : natDigits n ≠ [] := by
  rw [natDigits_eq]
  split <;> simp

lemma natDigits_isDigit {n : Nat} {c : Char} (h : c ∈ natDigits n) :
    isDigitCh c = true := by
  have := natDigits_mem_digit h
  simp [isDigitCh]
  omega

lemma colToNum_append (xs : List Char) (c : Char) :
    colToNum (xs ++ [c]) = colToNum xs * 26 + (c.toNat - 64) := by
  unfold colToNum
  rw [List.foldl_append]
  rfl

lemma upper_ofNat_toNat {c : Char} (_h : isUpperCh c = true) :
    Char.ofNat c.toNat = c := by
  exact Char.ofNat_toNat c

lemma colToNum_pos {xs : List Char} (hne : xs ≠ [])
    (h : ∀ c ∈ xs, isUpperCh c = true) : 1 ≤ colToNum xs := by
  induction xs using List.reverseRecOn with
  | nil => exact absurd rfl hne
  | append_singleton ys c ih =>
    rw [colToNum_append]
    have hc := h c (by simp)
    simp [isUpperCh] at hc
    omega

lemma numToCol_colToNum {xs : List Char} (hne : xs ≠ [])
    (h : ∀ c ∈ xs, isUpperCh c = true) : numToCol (colToNum xs) = xs := by
  induction xs using List.reverseRecOn with
  | nil => exact absurd rfl hne
  | append_singleton ys c ih =>
    have hc : isUpperCh c = true := h c (by simp)
    have hcv : 65 ≤ c.toNat ∧ c.toNat ≤ 90 := by
      simp [isUpperCh] at hc; omega
    rw [colToNum_append]
    set k := colToNum ys with hk
    rw [numToCol]
    have hne2 : ¬ (k * 26 + (c.toNat - 64) = 0) := by omega
    simp only [hne2, if_false]
    have harg : k * 26 + (c.toNat - 64) - 1 = k * 26 + (c.toNat - 64 - 1) := by
      omega
    have hdiv : (k * 26 + (c.toNat - 64) - 1) / 26 = k := by
      rw [harg, Nat.mul_comm, Nat.mul_add_div (by omega)]
      have : (c.toNat - 64 - 1) / 26 = 0 := Nat.div_eq_of_lt (by omega)
      omega
    have hmod : (k * 26 + (c.toNat - 64) - 1) % 26 = c.toNat - 64 - 1 := by
      rw [harg, Nat.mul_comm, Nat.mul_add_mod]
      exact Nat.mod_eq_of_lt (by omega)
    rw [hdiv, hmod]
    have hch : (65 + (c.toNat - 64 - 1)) = c.toNat := by omega
    rw [hch, upper_ofNat_toNat hc]
    by_cases hys : ys = []
    · subst hys
      simp [hk, colToNum, numToCol]
    · rw [ih hys (fun d hd => h d (by simp [hd]))]

lemma colToNum_numToCol {n : Nat} (h : 1 ≤ n) : colToNum (numToCol n) = n := by
  induction n using Nat.strong_induction_on with
  | _ n ih =>
    rw [numToCol]
    have hne : ¬ (n = 0) := by omega
    simp only [hne, if_false]
    rw [colToNum_append]
    have hval : (Char.ofNat (65 + (n - 1) % 26)).toNat = 65 + (n - 1) % 26 := by
      apply toNat_ofNat_small
      have := Nat.mod_lt (n - 1) (show 0 < 26 by omega)
      omega
    rw [hval]
    by_cases hq : (n - 1) / 26 = 0
    · rw [hq]
      have : colToNum (numToCol 0) = 0 := by simp [numToCol, colToNum]
      rw [this]
      have hlt : n - 1 < 26 := by
        by_contra hcon
        have : 1 ≤ (n - 1) / 26 := Nat.one_le_div_iff (by omega) |>.mpr (by omega)
        omega
      have : (n - 1) % 26 = n - 1 := Nat.mod_eq_of_lt hlt
      omega
    · have hlt : (n - 1) / 26 < n :=
        Nat.lt_of_le_of_lt (Nat.div_le_self _ _) (by omega)
      rw [ih ((n - 1) / 26) hlt (by omega)]
      have := Nat.div_add_mod (n - 1) 26
      omega

/-- C3 (counterexample): the claim asserts the letters→number→letters
round trip holds case-insensitively for every `[A-Za-z]{1,3}` string in
range, but `colToNum` subtracts `64` from the raw character code, so the
lowercase string `"a"` (code 97) maps to `33`, which renders back as
`"AG"` — not `"A"` — even though `colToNum "a" ≤ 16384`. -/
theorem c3_counterexample :
    colToNum (chars "a") ≤ 16384 ∧
    (chars "a").length = 1 ∧ (∀ c ∈ chars "a", isLetterCh c = true) ∧
    toUpperList (numToCol (colToNum (chars "a"))) ≠ toUpperList (chars "a") := by
  refine ⟨by decide, by decide, by decide, ?_⟩
  have h1 : colToNum (chars "a") = 33 := by decide
  rw [h1]
  simp [numToCol, toUpperList, chars]

/-- C3 (amended): restricted to uppercase column letters — the only form
`colToNum` actually treats as base-26 digits — the round trip laws hold:
`numToCol (colToNum s) = s` for every non-empty string of at most three
uppercase letters whose value is within the host ceiling 16384, and
`colToNum (numToCol n) = n` for every `n ∈ [1, 16384]`. -/
theorem c3_roundtrip :
    (∀ s : List Char, s ≠ [] → s.length ≤ 3 →
      (∀ c ∈ s, isUpperCh c = true) → colToNum s ≤ 16384 →
      numToCol (colToNum s) = s) ∧
    (∀ n : Nat, 1 ≤ n → n ≤ 16384 → colToNum (numToCol n) = n) := by
  constructor
  · intro s hne _hlen hup _hle
    exact numToCol_colToNum hne hup
  · intro n h1 _h2
    exact colToNum_numToCol h1

/-- C3 (witness): the round-trip theorem applied at the concrete column
`"AB"` (value 28) and at the concrete number 28. -/
theorem c3_roundtrip_witness :
    numToCol (colToNum (chars "AB")) = chars "AB" ∧
    colToNum (numToCol 28) = 28 := by
  constructor
  · exact c3_roundtrip.1 (chars "AB") (by decide) (by decide) (by decide) (by decide)
  · exact c3_roundtrip.2 28 (by decide) (by decide)

/-- C4 (counterexample): the claim says a hybrid compile with
`fixedColumnCount ≥ total columns` is rejected as an inconsistent
configuration; in fact `buildHybridFormula` has no error channel at all
and, for the 2-column range `Sheet1!$A$1:$B$10` with `fixedCols = 2`,
returns the plain pass-through formula. -/
theorem c4_counterexample :
    buildHybridFormula (chars "Sheet1!$A$1:$B$10") ⟨2, 0⟩ =
      chars "=Sheet1!$A$1:$B$10" := by
  decide

/-- C4 (amended): when the (clamped) fixed-column count reaches or
exceeds the total column count of a parseable range, `buildHybridFormula`
degrades to the pass-through formula `=` + original reference instead of
emitting a hybrid union — it never reports an error. -/
theorem c4_passthrough (ref : List Char) (p : ParsedRange) (o : HybridOptions)
    (hp : parseRangeRef ref = some p)
    (hge : colToNum p.endCol - colToNum p.startCol + 1 ≤ o.fixedCols) :
    buildHybridFormula ref o = '=' :: dropLeadingEq ref := by
  unfold buildHybridFormula
  rw [hp]
  have hcond : colToNum p.endCol - colToNum p.startCol + 1 ≤ max 1 o.fixedCols :=
    le_trans hge (le_max_right 1 o.fixedCols)
  simp [hcond]

/-- C4 (witness): the amended theorem applied to `Sheet1!$A$1:$B$10`
with `fixedCols = 2`. -/
theorem c4_passthrough_witness :
    buildHybridFormula (chars "Sheet1!$A$1:$B$10") ⟨2, 0⟩ =
      '=' :: dropLeadingEq (chars "Sheet1!$A$1:$B$10") :=
  c4_passthrough (chars "Sheet1!$A$1:$B$10")
    ⟨chars "Sheet1", chars "A", chars "1", chars "B", chars "10"⟩
    ⟨2, 0⟩ (by decide) (by decide)

/-- C5 (confirmed): for every input that `parseRangeRef` rejects, both
the dynamic and the hybrid promotion paths return the original reference
as a pass-through (a single leading `=` stripped, then `=` prepended)
rather than raising an error. -/
theorem c5_parse_passthrough (ref : List Char) (d : DynamicOptions)
    (h : HybridOptions) (hp : parseRangeRef ref = none) :
    buildDynamicFormula ref d = '=' :: dropLeadingEq ref ∧
    buildHybridFormula ref h = '=' :: dropLeadingEq ref := by
  unfold buildDynamicFormula buildHybridFormula
  rw [hp]
  exact ⟨rfl, rfl⟩

/-- C5 (witness): the pass-through theorem at the unparseable reference
`"hello"`. -/
theorem c5_parse_passthrough_witness :
    buildDynamicFormula (chars "hello") ⟨0, 0⟩ = chars "=hello" ∧
    buildHybridFormula (chars "hello") ⟨1, 0⟩ = chars "=hello" :=
  c5_parse_passthrough (chars "hello") ⟨0, 0⟩ ⟨1, 0⟩ (by decide)

/-- C6 (counterexample): the claim asserts that for *every* parseable
range the start anchor is shifted by exactly
`min(requestedSkip, endIndex - startIndex)` and therefore never crosses
the original end.  The inverted — but parseable — range
`Sheet1!$C$1:$A$10` with `skipCols = 2` refutes it: the emitted anchor
stays at column 3 (`C`), which *is* past the original end column 1
(`A`), and the actual shift 0 differs from
`min(2, 1 - 3) = -2`. -/
theorem c6_counterexample :
    parseRangeRef (chars "Sheet1!$C$1:$A$10") =
      some ⟨chars "Sheet1", chars "C", chars "1", chars "A", chars "10"⟩ ∧
    dynAdjStartColNum
      ⟨chars "Sheet1", chars "C", chars "1", chars "A", chars "10"⟩ ⟨0, 2⟩ = 3 ∧
    colToNum (chars "A") = 1 ∧
    ¬ (dynAdjStartColNum
        ⟨chars "Sheet1", chars "C", chars "1", chars "A", chars "10"⟩ ⟨0, 2⟩
        ≤ colToNum (chars "A")) ∧
    ((dynAdjStartColNum
        ⟨chars "Sheet1", chars "C", chars "1", chars "A", chars "10"⟩ ⟨0, 2⟩ : ℤ)
      - colToNum (chars "C") ≠ min (2 : ℤ) ((1 : ℤ) - 3)) := by
  refine ⟨by decide, by decide, by decide, by decide, by decide⟩

/-- C6 (amended): for every parseable *well-ordered* range
(start ≤ end on both axes) and all skip counts, `buildDynamicFormula`
emits `dynFormulaBody`, whose start anchor is
`numToCol (dynAdjStartColNum p o)` / row `dynAdjStartRowNum p o`; the
anchor is shifted from the original start by exactly
`min(requestedSkip, endIndex - startIndex)` on each axis and never
crosses past the original end. -/
theorem c6_clamped_shift (ref : List Char) (p : ParsedRange)
    (o : DynamicOptions) (hp : parseRangeRef ref = some p)
    (hcol : colToNum p.startCol ≤ colToNum p.endCol)
    (hrow : rowNumOf p.startRow ≤ rowNumOf p.endRow) :
    buildDynamicFormula ref o = dynFormulaBody p o ∧
    ((dynAdjStartColNum p o : ℤ) - (colToNum p.startCol : ℤ)
      = min (o.skipCols : ℤ)
          ((colToNum p.endCol : ℤ) - (colToNum p.startCol : ℤ))) ∧
    dynAdjStartColNum p o ≤ colToNum p.endCol ∧
    ((dynAdjStartRowNum p o : ℤ) - (rowNumOf p.startRow : ℤ)
      = min (o.skipRows : ℤ)
          ((rowNumOf p.endRow : ℤ) - (rowNumOf p.startRow : ℤ))) ∧
    dynAdjStartRowNum p o ≤ rowNumOf p.endRow := by
  refine ⟨?_, ?_, ?_, ?_, ?_⟩
  · unfold buildDynamicFormula
    rw [hp]
  · simp only [dynAdjStartColNum, dynClampedSkipCols]
    omega
  · simp only [dynAdjStartColNum, dynClampedSkipCols]
    omega
  · simp only [dynAdjStartRowNum, dynClampedSkipRows]
    omega
  · simp only [dynAdjStartRowNum, dynClampedSkipRows]
    omega

/-- C6 (witness): the clamped-shift theorem at `Sheet1!$A$1:$D$10` with
`skipRows = 2, skipCols = 1`; the emitted anchor is `$B$3`. -/
theorem c6_clamped_shift_witness :
    buildDynamicFormula (chars "Sheet1!$A$1:$D$10") ⟨2, 1⟩ =
      chars "=OFFSET(Sheet1!$B$3,0,0,COUNTA(Sheet1!$B$3:$B$30),COUNTA(Sheet1!$B$3:$X$3))" ∧
    dynAdjStartColNum
      ⟨chars "Sheet1", chars "A", chars "1", chars "D", chars "10"⟩ ⟨2, 1⟩ = 2 := by
  have h := c6_clamped_shift (chars "Sheet1!$A$1:$D$10")
    ⟨chars "Sheet1", chars "A", chars "1", chars "D", chars "10"⟩
    ⟨2, 1⟩ (by decide) (by decide) (by decide)
  refine ⟨?_, by decide⟩
  rw [h.1]
  have e1 : numToCol 2 = chars "B" := by
    simp [numToCol]; decide
  have e2 : numToCol 24 = chars "X" := by
    simp [numToCol]; decide
  unfold dynFormulaBody
  simp only [show dynAdjStartColNum
      ⟨chars "Sheet1", chars "A", chars "1", chars "D", chars "10"⟩ ⟨2, 1⟩ = 2
      from by decide,
    show dynAdjStartRowNum
      ⟨chars "Sheet1", chars "A", chars "1", chars "D", chars "10"⟩ ⟨2, 1⟩ = 3
      from by decide,
    show colToNum (chars "D") = 4 from by decide,
    show rowNumOf (chars "10") = 10 from by decide]
  norm_num [e1, e2]
  have e3 : natDigits 3 = chars "3" := by
    simp [natDigits]; decide
  have e4 : natDigits 30 = chars "30" := by
    simp [natDigits]; decide
  simp [e3, e4, chars]

lemma firstMatch_head {α : Type} (m : List Char → Option α) (s : List Char)
    (v : α) (h : m s = some v) : firstMatch m s = some v := by
  cases s <;> simp [firstMatch, h]

lemma containsSub_of_starts {pat s : List Char} (h : pat <+: s) :
    containsSub pat s = true := by
  unfold containsSub
  rw [firstMatch_head (litM pat) s pat.length (by simp [litM, h])]
  rfl

lemma joinSp_cons_prefix (l : List Char) (rest : List (List Char)) :
    l <+: joinSp (l :: rest) := by
  cases rest with
  | nil => simp [joinSp, joinChar]
  | cons p ps =>
    show l <+: l ++ ' ' :: joinChar ' ' (p :: ps)
    exact List.prefix_append l _

lemma addNameComment_filter (comment : List Char) (o : CompilerOptions) :
    addNameComment comment o =
      joinSp (EPIFAI_TAG ::
        ((comment :: optionTagParts o).filter (fun p => p ≠ []))) := by
  unfold addNameComment
  rw [List.filter_cons]
  simp [EPIFAI_TAG, chars]

/-- C1 (counterexample): for the selection grid over `Sheet1!A1:D10` with
column index 1 (letter `B`) skipped, no hybrid split and no expansion,
`buildResult` emits the single-area range `=Sheet1!$A$1:$D$10` running
from the first to the last active column — not the claimed two-area union
`=Sheet1!$A$1:$A$10,Sheet1!$C$1:$D$10`. -/
theorem c1_counterexample :
    buildResult
      ⟨chars "Sheet1", chars "A", chars "D", 1, 10, 4, 10,
        [chars "A", chars "B", chars "C", chars "D"]⟩ [] [1] 0 false =
      some ⟨chars "=Sheet1!$A$1:$D$10", 0, 0, [], [], false⟩ ∧
    chars "=Sheet1!$A$1:$D$10" ≠ chars "=Sheet1!$A$1:$A$10,Sheet1!$C$1:$D$10" :=
  ⟨by decide, by decide⟩

/-- C1 (amended): compiling that grid yields a single-area fixed range
spanning from the first active column to the last active column of the
selection (`=Sheet1!$A$1:$D$10`); interior skipped columns are not
excluded from the emitted reference, and no leading skip counts result
(the skipped column is not a leading one). -/
theorem c1_single_area :
    buildResult
      ⟨chars "Sheet1", chars "A", chars "D", 1, 10, 4, 10,
        [chars "A", chars "B", chars "C", chars "D"]⟩ [] [1] 0 false =
      some ⟨chars "=Sheet1!$A$1:$D$10", 0, 0, [], [], false⟩ := by
  decide

/-- C2 (counterexample): the round-trip law does not hold for *every*
options value: a `fixedRef` equal to the single character `]` encodes to
`[fixref:]]`, whose payload the `[fixref:([^\]]+)\]` matcher cannot
recover, so decoding returns the empty-string default instead. -/
theorem c2_counterexample :
    decodeOptions (encodeTags
      ⟨0, 0, chars "]", [], false, false, [], false, false, [], [], [], []⟩) ≠
      ⟨0, 0, chars "]", [], false, false, [], false, false, [], [], [], []⟩ := by
  decide

/-- C7 (confirmed): `computeStatus` (the health classification inside
`buildExcelName`) marks a record broken whenever the resolved value is
the `#REF!` sentinel — even when a non-empty resolved address was
returned — and, for a non-broken value, an empty resolved address marks
the record broken exactly when the formula is neither a recognized
dynamic form nor a multi-area union. -/
theorem c7_health_classification (f : List Char) (v : JsVal)
    (a : List Char) :
    (isBrokenValue v = true → computeStatus f v a = .broken) ∧
    (a = [] → isBrokenValue v = false →
      (computeStatus f v a = .broken ↔
        (isDynamicFormula f = false ∧ isUnionFormula f = false))) := by
  constructor
  · intro hb
    unfold computeStatus
    split
    · rfl
    · simp [hb]
  · intro ha hnb
    subst ha
    cases hdyn : isDynamicFormula f <;> cases hun : isUnionFormula f <;>
      simp [computeStatus, hnb, hdyn, hun]

/-- C7 (witness): a `#REF!`-valued name with a non-empty resolved address
is classified broken. -/
theorem c7_health_witness :
    computeStatus (chars "=Sheet1!$A$1") (.strVal (chars "#REF!"))
      (chars "Sheet1!$A$1") = .broken :=
  (c7_health_classification (chars "=Sheet1!$A$1")
    (.strVal (chars "#REF!")) (chars "Sheet1!$A$1")).1 (by decide)

/-- C10 (confirmed): every comment assembled by `addName` starts with the
`[Epifai]` origin sentinel (the sentinel is the first element of the
filtered parts list and survives filtering because it is non-empty), so
reading the record back through `buildExcelName` classifies its origin as
`epifai`. -/
theorem c10_origin_tag (comment : List Char) (o : CompilerOptions)
    (nm ty : List Char) (v : JsVal) (f : List Char) (vis : Bool)
    (scope addr : List Char) :
    EPIFAI_TAG <+: addNameComment comment o ∧
    (buildExcelName ⟨nm, ty, v, f, vis, addNameComment comment o⟩
      scope addr).origin = .epifai := by
  have hpre : EPIFAI_TAG <+: addNameComment comment o := by
    rw [addNameComment_filter]
    exact joinSp_cons_prefix _ _
  refine ⟨hpre, ?_⟩
  unfold buildExcelName
  simp only [containsSub_of_starts hpre]
  rfl

lemma firstMatch_cons_none {α : Type} {m : List Char → Option α} {c : Char}
    {t : List Char} (h : m (c :: t) = none) :
    firstMatch m (c :: t) = firstMatch m t := by
  simp [firstMatch, h]

lemma opensWith_litM (pat : List Char) : OpensWith (litM pat) pat := by
  intro s h
  unfold litM at h
  by_cases hp : pat <+: s
  · exact hp
  · simp [hp] at h

lemma opensWith_payloadM (openL : List Char) :
    OpensWith (payloadM openL) openL := by
  intro s h
  unfold payloadM at h
  by_cases hp : openL <+: s
  · exact hp
  · simp [hp] at h

lemma opensWith_skipM : OpensWith skipM (chars "[skip:") := by
  intro s h
  unfold skipM at h
  by_cases hp : chars "[skip:" <+: s
  · exact hp
  · simp [hp] at h

lemma opensWith_payloadLenM (openL : List Char) :
    OpensWith (payloadLenM openL) openL := by
  intro s h
  apply opensWith_payloadM openL s
  intro h2
  apply h
  unfold payloadLenM
  rw [h2]
  rfl

lemma opensWith_skipLenM : OpensWith skipLenM (chars "[skip:") := by
  intro s h
  apply opensWith_skipM s
  intro h2
  apply h
  unfold skipLenM
  rw [h2]
  rfl

lemma m_none_of_head {α : Type} {m : List Char → Option α} {openM : List Char}
    (hop : OpensWith m openM) (hbr : openM.head? = some '[')
    {c : Char} (hc : c ≠ '[') (t : List Char) : m (c :: t) = none := by
  by_contra h
  rcases hop _ h with ⟨r, hr⟩
  cases openM with
  | nil => simp at hbr
  | cons o os =>
    simp at hbr
    rw [List.cons_append] at hr
    injection hr with h1 _
    exact hc (by rw [← h1, hbr])

lemma m_none_nil {α : Type} {m : List Char → Option α} {openM : List Char}
    (hop : OpensWith m openM) (hbr : openM.head? = some '[') :
    m ([] : List Char) = none := by
  by_contra h
  rcases hop _ h with ⟨r, hr⟩
  cases openM with
  | nil => simp at hbr
  | cons o os => simp at hr

lemma not_prefix_of_zip_any {x s : List Char}
    (h : (x.zip s).any (fun q => !(q.1 == q.2)) = true) (z : List Char) :
    ¬ x <+: (s ++ z) := by
  induction x generalizing s z with
  | nil => simp at h
  | cons a x2 ih =>
    cases s with
    | nil => simp at h
    | cons b s2 =>
      intro hp
      rw [List.cons_append] at hp
      rcases List.cons_prefix_cons.mp hp with ⟨hab, hp2⟩
      rw [List.zip_cons_cons, List.any_cons] at h
      rcases Bool.or_eq_true_iff.mp h with h1 | h1
      · simp at h1
        exact h1 hab
      · exact ih h1 z hp2

lemma safeChunk_mk {α : Type} {m : List Char → Option α} {openM : List Char}
    (hop : OpensWith m openM) {p : List Char}
    (hdis : ∀ w, ¬ openM <+: (p ++ w))
    (htail : ∀ c ∈ p.drop 1, c ≠ '[') : SafeChunk m p := by
  constructor
  · intro z
    by_contra h
    exact hdis z (hop _ h)
  · exact htail

lemma fm_skip_chunk {α : Type} {m : List Char → Option α} {openM : List Char}
    (hop : OpensWith m openM) (hbr : openM.head? = some '[')
    {p : List Char} (z : List Char) (h0 : m (p ++ z) = none)
    (h1 : ∀ c ∈ p.drop 1, c ≠ '[') :
    firstMatch m (p ++ z) = firstMatch m z := by
  induction p with
  | nil => simp
  | cons c p2 ih =>
    rw [List.cons_append] at h0 ⊢
    rw [firstMatch_cons_none h0]
    cases p2 with
    | nil => simp
    | cons d p3 =>
      have hd : d ≠ '[' := h1 d (by simp)
      apply ih
      · exact m_none_of_head hop hbr hd _
      · intro e he
        exact h1 e (by simp at he ⊢; exact Or.inr he)

lemma fm_safeChunk {α : Type} {m : List Char → Option α} {openM : List Char}
    (hop : OpensWith m openM) (hbr : openM.head? = some '[')
    {p : List Char} (hs : SafeChunk m p) (z : List Char) :
    firstMatch m (p ++ z) = firstMatch m z :=
  fm_skip_chunk hop hbr z (hs.1 z) hs.2

lemma fm_joinSp_parts {α : Type} {m : List Char → Option α} {openM : List Char}
    (hop : OpensWith m openM) (hbr : openM.head? = some '[')
    (pre rest : List (List Char))
    (hpre : ∀ p ∈ pre, SafeChunk m p) :
    firstMatch m (joinSp (pre ++ rest)) = firstMatch m (joinSp rest) := by
  induction pre with
  | nil => rfl
  | cons p pre2 ih =>
    have hp : SafeChunk m p := hpre p (by simp)
    have hrest : ∀ q ∈ pre2, SafeChunk m q := fun q hq => hpre q (by simp [hq])
    rw [List.cons_append]
    cases h2 : pre2 ++ rest with
    | nil =>
      rcases List.append_eq_nil.mp h2 with ⟨hpre2, hrest2⟩
      subst hpre2
      subst hrest2
      show firstMatch m (joinSp [p]) = firstMatch m (joinSp [])
      have h3 := fm_safeChunk hop hbr hp []
      rw [List.append_nil] at h3
      exact h3
    | cons q qs =>
      show firstMatch m (joinSp (p :: q :: qs)) = _
      have hj : joinSp (p :: q :: qs) = p ++ ' ' :: joinChar ' ' (q :: qs) := rfl
      rw [hj, fm_safeChunk hop hbr hp,
        firstMatch_cons_none (m_none_of_head hop hbr (by decide) _)]
      have h4 := ih hrest
      rw [h2] at h4
      exact h4

lemma fm_joinSp_all_safe {α : Type} {m : List Char → Option α}
    {openM : List Char} (hop : OpensWith m openM)
    (hbr : openM.head? = some '[') (parts : List (List Char))
    (hall : ∀ p ∈ parts, SafeChunk m p) :
    firstMatch m (joinSp parts) = none := by
  have h := fm_joinSp_parts hop hbr parts [] hall
  rw [List.append_nil] at h
  rw [h]
  show m [] = none
  exact m_none_nil hop hbr

lemma fm_joinSp_head_some {α : Type} {m : List Char → Option α}
    (q : List Char) (C : List (List Char)) (v : α)
    (hq : ∀ z, m (q ++ z) = some v) :
    firstMatch m (joinSp (q :: C)) = some v := by
  cases C with
  | nil =>
    show firstMatch m q = some v
    have h := hq []
    rw [List.append_nil] at h
    exact firstMatch_head m q v h
  | cons r rs =>
    show firstMatch m (q ++ ' ' :: joinChar ' ' (r :: rs)) = some v
    exact firstMatch_head _ _ _ (hq _)

lemma digit_ne_delims {c : Char} (h : isDigitCh c = true) :
    c ≠ '[' ∧ c ≠ ']' ∧ c ≠ ',' ∧ c ≠ ':' ∧ c ≠ '=' ∧ c ≠ lbraceCh := by
  refine ⟨?_, ?_, ?_, ?_, ?_, ?_⟩ <;>
    (intro he; rw [he] at h; revert h; decide)

lemma natDigits_ne_delims {n : Nat} {c : Char} (h : c ∈ natDigits n) :
    c ≠ '[' ∧ c ≠ ']' ∧ c ≠ ',' ∧ c ≠ ':' ∧ c ≠ '=' ∧ c ≠ lbraceCh :=
  digit_ne_delims (natDigits_isDigit h)

lemma mem_joinChar {c : Char} {sep : Char} {ps : List (List Char)}
    (h : c ∈ joinChar sep ps) : c = sep ∨ ∃ p ∈ ps, c ∈ p := by
  induction ps with
  | nil => simp [joinChar] at h
  | cons p ps ih =>
    cases ps with
    | nil =>
      right
      exact ⟨p, by simp, by simpa [joinChar] using h⟩
    | cons q r =>
      have hj : joinChar sep (p :: q :: r) = p ++ sep :: joinChar sep (q :: r) :=
        rfl
      rw [hj] at h
      rcases List.mem_append.mp h with h1 | h1
      · exact Or.inr ⟨p, by simp, h1⟩
      · rcases List.mem_cons.mp h1 with h2 | h2
        · exact Or.inl h2
        · rcases ih h2 with h3 | ⟨p2, hp2, hc2⟩
          · exact Or.inl h3
          · exact Or.inr ⟨p2, by simp [hp2], hc2⟩

lemma mem_encodeOverflow {c : Char} {entries : List (List Char × Nat)}
    (h : c ∈ encodeOverflow entries) :
    (∃ kv ∈ entries, c ∈ kv.1) ∨ isDigitCh c = true ∨ c = ',' ∨ c = ':' ∨
      c = '=' := by
  cases entries with
  | nil => simp [encodeOverflow] at h
  | cons e rest =>
    simp only [encodeOverflow] at h
    by_cases hall : ((e :: rest).all fun kv => kv.2 = e.2) = true
    · rw [if_pos hall] at h
      rcases List.mem_append.mp h with h1 | h1
      · rcases mem_joinChar h1 with h2 | ⟨p, hp, hc⟩
        · exact Or.inr (Or.inr (Or.inl h2))
        · rcases List.mem_map.mp hp with ⟨kv, hkv, hpkv⟩
          exact Or.inl ⟨kv, hkv, by rw [hpkv]; exact hc⟩
      · rcases List.mem_cons.mp h1 with h2 | h2
        · exact Or.inr (Or.inr (Or.inr (Or.inr h2)))
        · exact Or.inr (Or.inl (natDigits_isDigit h2))
    · rw [if_neg hall] at h
      rcases mem_joinChar h with h2 | ⟨p, hp, hc⟩
      · exact Or.inr (Or.inr (Or.inl h2))
      · rcases List.mem_map.mp hp with ⟨kv, hkv, hpkv⟩
        rw [← hpkv] at hc
        rcases List.mem_append.mp hc with h3 | h3
        · exact Or.inl ⟨kv, hkv, h3⟩
        · rcases List.mem_cons.mp h3 with h4 | h4
          · exact Or.inr (Or.inr (Or.inr (Or.inl h4)))
          · exact Or.inr (Or.inl (natDigits_isDigit h4))

lemma safeChunk_block {α : Type} {m : List Char → Option α} {openM : List Char}
    (hop : OpensWith m openM) (openT body : List Char)
    (hdis : ∀ w, ¬ openM <+: (openT ++ w))
    (htail : ∀ c ∈ openT.drop 1, c ≠ '[')
    (hbody : ∀ c ∈ body, c ≠ '[') :
    SafeChunk m (openT ++ body) := by
  apply safeChunk_mk hop
  · intro w
    rw [List.append_assoc]
    exact hdis _
  · intro c hc
    cases openT with
    | nil =>
      rw [List.nil_append] at hc
      exact hbody c (List.mem_of_mem_drop hc)
    | cons o os =>
      rw [List.cons_append] at hc
      have hc2 : c ∈ os ++ body := hc
      rcases List.mem_append.mp hc2 with h1 | h1
      · exact htail c h1
      · exact hbody c h1

lemma drop_one_mem {c : Char} {s : List Char} (h : c ∈ s.drop 1) : c ∈ s :=
  List.mem_of_mem_drop h

/-! Matcher success at a block head. -/

lemma litM_match (pat z : List Char) : litM pat (pat ++ z) = some pat.length := by
  simp [litM, List.prefix_append]

lemma takeWhile_append_stop {p : Char → Bool} {xs : List Char} {y : Char}
    {ys : List Char} (hall : ∀ c ∈ xs, p c = true) (hy : p y = false) :
    (xs ++ y :: ys).takeWhile p = xs := by
  induction xs with
  | nil => simp [List.takeWhile, hy]
  | cons a xs ih =>
    have h1 : p a = true := hall a (by simp)
    rw [List.cons_append]
    simp [List.takeWhile_cons, h1, ih (fun c hc => hall c (by simp [hc]))]

lemma drop_len_append (xs ys : List Char) : (xs ++ ys).drop xs.length = ys := by
  simp

lemma payloadM_match (openT payload z : List Char) (hne : payload ≠ [])
    (hbr : ∀ c ∈ payload, c ≠ ']') :
    payloadM openT ((openT ++ payload ++ [']']) ++ z) =
      some (payload, openT.length + payload.length + 1) := by
  have hpre : openT <+: ((openT ++ payload ++ [']']) ++ z) := by
    rw [List.append_assoc, List.append_assoc]
    exact List.prefix_append _ _
  have hd : ((openT ++ payload ++ [']']) ++ z).drop openT.length =
      payload ++ ']' :: z := by
    have h1 : (openT ++ payload ++ [']']) ++ z =
        openT ++ (payload ++ ']' :: z) := by simp
    rw [h1, drop_len_append]
  have ht : (payload ++ ']' :: z).takeWhile (fun c => c ≠ ']') = payload := by
    apply takeWhile_append_stop
    · intro c hc
      simp [hbr c hc]
    · simp
  simp only [payloadM, if_pos hpre, hd, ht]
  rw [if_neg (by simpa using hne), drop_len_append]
  rfl

lemma skipM_match (a b : Nat) (z : List Char) :
    skipM ((chars "[skip:" ++ natDigits a ++ ',' :: natDigits b ++ [']']) ++ z) =
      some ((a, b),
        6 + (natDigits a).length + 1 + (natDigits b).length + 1) := by
  have hpre : chars "[skip:" <+:
      ((chars "[skip:" ++ natDigits a ++ ',' :: natDigits b ++ [']']) ++ z) := by
    rw [List.append_assoc]
    exact List.prefix_append _ _
  have hd : ((chars "[skip:" ++ natDigits a ++ ',' :: natDigits b ++ [']']) ++ z).drop 6 =
      natDigits a ++ ',' :: (natDigits b ++ ']' :: z) := by
    have h1 : (chars "[skip:" ++ natDigits a ++ ',' :: natDigits b ++ [']']) ++ z =
        chars "[skip:" ++ (natDigits a ++ ',' :: (natDigits b ++ ']' :: z)) := by
      simp
    rw [h1, show (6 : Nat) = (chars "[skip:").length from by decide,
      drop_len_append]
  have ht1 : (natDigits a ++ ',' :: (natDigits b ++ ']' :: z)).takeWhile isDigitCh =
      natDigits a :=
    takeWhile_append_stop (fun c hc => natDigits_isDigit hc) (by decide)
  have ht2 : (natDigits b ++ ']' :: z).takeWhile isDigitCh = natDigits b :=
    takeWhile_append_stop (fun c hc => natDigits_isDigit hc) (by decide)
  simp only [skipM, if_pos hpre, hd, ht1]
  rw [if_neg (by simpa using natDigits_ne_nil a), drop_len_append]
  simp only [ht2]
  rw [if_neg (by simpa using natDigits_ne_nil b), drop_len_append]
  rw [natDigits_parseNat, natDigits_parseNat]
  rfl

lemma takeWhile_all {p : Char → Bool} {xs : List Char}
    (h : ∀ c ∈ xs, p c = true) : xs.takeWhile p = xs := by
  induction xs with
  | nil => rfl
  | cons a t ih =>
    rw [List.takeWhile_cons, h a (by simp)]
    rw [ih (fun c hc => h c (by simp [hc]))]
    simp

lemma parseIntJS_natDigits (v : Nat) : parseIntJS (natDigits v) = some v := by
  unfold parseIntJS
  rw [takeWhile_all (fun c hc => natDigits_isDigit hc)]
  rw [if_neg (by simpa using natDigits_ne_nil v), natDigits_parseNat]

lemma jsNumber_natDigits (v : Nat) : jsNumber (natDigits v) = some v := by
  unfold jsNumber
  rw [if_neg (by simpa using natDigits_ne_nil v)]
  rw [if_pos (by
    rw [List.all_eq_true]
    intro c hc
    exact natDigits_isDigit hc)]
  rw [natDigits_parseNat]

lemma splitChar_ne_nil (sep : Char) (s : List Char) : splitChar sep s ≠ [] := by
  cases s with
  | nil => simp [splitChar]
  | cons c t =>
    unfold splitChar
    cases h : splitChar sep t with
    | nil => simp
    | cons a r =>
      by_cases hc : c = sep <;> simp [hc]

lemma splitChar_no_sep {sep : Char} {s : List Char} (h : sep ∉ s) :
    splitChar sep s = [s] := by
  induction s with
  | nil => rfl
  | cons c t ih =>
    have hc : ¬ (c = sep) := fun he => h (by simp [he])
    have ht : sep ∉ t := fun he => h (by simp [he])
    unfold splitChar
    rw [ih ht]
    simp [hc]

lemma splitChar_sep_append {sep : Char} {a t : List Char} (h : sep ∉ a) :
    splitChar sep (a ++ sep :: t) = a :: splitChar sep t := by
  induction a with
  | nil =>
    rw [List.nil_append]
    show (match splitChar sep t with
      | [] => [[]]
      | h :: r => if sep = sep then [] :: h :: r else (sep :: h) :: r) =
      [] :: splitChar sep t
    cases hs : splitChar sep t with
    | nil => exact absurd hs (splitChar_ne_nil sep t)
    | cons q r => simp
  | cons c a2 ih =>
    have hc : ¬ (c = sep) := fun he => h (by simp [he])
    have ha2 : sep ∉ a2 := fun he => h (by simp [he])
    rw [List.cons_append]
    show (match splitChar sep (a2 ++ sep :: t) with
      | [] => [[]]
      | h :: r => if c = sep then [] :: h :: r else (c :: h) :: r) =
      (c :: a2) :: splitChar sep t
    rw [ih ha2]
    simp [hc]

lemma splitChar_joinChar {sep : Char} {ps : List (List Char)} (hne : ps ≠ [])
    (h : ∀ p ∈ ps, sep ∉ p) : splitChar sep (joinChar sep ps) = ps := by
  induction ps with
  | nil => exact absurd rfl hne
  | cons p ps2 ih =>
    cases ps2 with
    | nil => exact splitChar_no_sep (h p (by simp))
    | cons q r =>
      have hj : joinChar sep (p :: q :: r) = p ++ sep :: joinChar sep (q :: r) :=
        rfl
      rw [hj, splitChar_sep_append (h p (by simp))]
      rw [ih (by simp) (fun x hx => h x (by simp [hx]))]

lemma lastIdxOf_none {c : Char} {s : List Char} (h : c ∉ s) :
    lastIdxOf c s = none := by
  induction s with
  | nil => rfl
  | cons x t ih =>
    have hx : ¬ (x = c) := fun he => h (by simp [he])
    unfold lastIdxOf
    rw [ih (fun he => h (by simp [he]))]
    simp [hx]

lemma lastIdxOf_append_last {c : Char} (a : List Char) {b : List Char}
    (hb : c ∉ b) : lastIdxOf c (a ++ c :: b) = some a.length := by
  induction a with
  | nil =>
    rw [List.nil_append]
    show (match lastIdxOf c b with
      | some i => some (i + 1)
      | none => if c = c then some 0 else none) = some 0
    rw [lastIdxOf_none hb]
    simp
  | cons x a2 ih =>
    rw [List.cons_append]
    show (match lastIdxOf c (a2 ++ c :: b) with
      | some i => some (i + 1)
      | none => if x = c then some 0 else none) = some (a2.length + 1)
    rw [ih]


lemma take_len_append (xs ys : List Char) : (xs ++ ys).take xs.length = xs := by
  simp

lemma drop_len_succ_append (a : List Char) (c : Char) (b : List Char) :
    (a ++ c :: b).drop (a.length + 1) = b := by
  have h : a ++ c :: b = (a ++ [c]) ++ b := by simp
  have h2 : a.length + 1 = (a ++ [c]).length := by simp
  rw [h, h2, drop_len_append]

lemma joinChar_cons_ne_nil {sep : Char} {p : List Char}
    (ps : List (List Char)) (hp : p ≠ []) : joinChar sep (p :: ps) ≠ [] := by
  cases ps with
  | nil => simpa [joinChar]
  | cons q r =>
    show p ++ sep :: joinChar sep (q :: r) ≠ []
    simp

lemma joinChar_cons_length {sep : Char} {p : List Char}
    (ps : List (List Char)) : p.length ≤ (joinChar sep (p :: ps)).length := by
  cases ps with
  | nil => simp [joinChar]
  | cons q r =>
    show p.length ≤ (p ++ sep :: joinChar sep (q :: r)).length
    simp

lemma joinChar_cons_head {sep : Char} {p : List Char}
    (ps : List (List Char)) (hp : p ≠ []) :
    (joinChar sep (p :: ps)).head? = p.head? := by
  cases ps with
  | nil => rfl
  | cons q r =>
    show (p ++ sep :: joinChar sep (q :: r)).head? = p.head?
    cases p with
    | nil => exact absurd rfl hp
    | cons x t => rfl

lemma map_pair_id {β : Type} {l : List (List Char × β)} {v : β}
    (h : ∀ kv ∈ l, kv.2 = v) :
    l.map (fun kv => (kv.1, v)) = l := by
  induction l with
  | nil => rfl
  | cons e t ih =>
    have he : e.2 = v := h e (by simp)
    rw [List.map_cons, ih (fun kv hkv => h kv (by simp [hkv]))]
    rw [show ((e.1, v) : List Char × β) = e from by rw [← he]]

lemma decodeOverflow_eq_some {s : List Char} {i : Nat} (hne : s ≠ [])
    (h : lastIdxOf '=' s = some i) :
    decodeOverflow s =
      if 0 < i then
        if (s.take i).any (fun c => c = ':') then decodeOverflowPieces s
        else (splitChar ',' (s.take i)).map
          (fun k => (k, (parseIntJS (s.drop (i + 1))).getD 0))
      else decodeOverflowPieces s := by
  unfold decodeOverflow
  rw [if_neg hne, h]

lemma decodeOverflow_eq_none {s : List Char} (hne : s ≠ [])
    (h : lastIdxOf '=' s = none) :
    decodeOverflow s = decodeOverflowPieces s := by
  unfold decodeOverflow
  rw [if_neg hne, h]

lemma decodeOverflow_encodeOverflow (entries : List (List Char × Nat))
    (hkeys : ∀ kv ∈ entries, kv.1 ≠ [] ∧
      ∀ c ∈ kv.1, c ≠ ',' ∧ c ≠ ':' ∧ c ≠ '=') :
    decodeOverflow (encodeOverflow entries) = entries := by
  cases entries with
  | nil => simp [encodeOverflow, decodeOverflow]
  | cons e rest =>
    have hk1 : e.1 ≠ [] := (hkeys e (by simp)).1
    simp only [encodeOverflow]
    by_cases hall : ((e :: rest).all fun kv => kv.2 = e.2) = true
    · rw [if_pos hall]
      set keys := (e :: rest).map (fun kv => kv.1) with hkeysdef
      have hkeyform : keys = e.1 :: rest.map (fun kv => kv.1) := by
        simp [hkeysdef]
      have hccomma : ∀ p ∈ keys, ',' ∉ p := by
        intro p hp hc
        rcases List.mem_map.mp (by rw [hkeysdef] at hp; exact hp) with ⟨kv, hkv, hpkv⟩
        rw [← hpkv] at hc
        exact (((hkeys kv hkv).2 ',' hc).1) rfl
      have hjoin_ne : joinChar ',' keys ≠ [] := by
        rw [hkeyform]
        exact joinChar_cons_ne_nil _ hk1
      have heq_notin : '=' ∉ joinChar ',' keys := by
        intro hmem
        rcases mem_joinChar hmem with h1 | ⟨p, hp, hcp⟩
        · exact absurd h1 (by decide)
        · rcases List.mem_map.mp (by rw [hkeysdef] at hp; exact hp) with ⟨kv, hkv, hpkv⟩
          rw [← hpkv] at hcp
          exact (((hkeys kv hkv).2 '=' hcp).2.2) rfl
      have heq_notin2 : '=' ∉ natDigits e.2 := by
        intro hmem
        exact (natDigits_ne_delims hmem).2.2.2.2.1 rfl
      have hs_ne : joinChar ',' keys ++ '=' :: natDigits e.2 ≠ [] := by simp
      have hlen_pos : 0 < (joinChar ',' keys).length := by
        have h1 := @joinChar_cons_length ',' e.1 (rest.map (fun kv => kv.1))
        rw [← hkeyform] at h1
        have h2 : 0 < e.1.length := List.length_pos.mpr hk1
        omega
      rw [decodeOverflow_eq_some hs_ne
        (lastIdxOf_append_last (joinChar ',' keys) heq_notin2)]
      rw [if_pos hlen_pos]
      rw [take_len_append]
      rw [if_neg (by
        intro hany
        rcases List.any_eq_true.mp hany with ⟨x, hx, hx2⟩
        rcases mem_joinChar hx with h1 | ⟨p, hp, hcp⟩
        · rw [show x = ':' from by simpa using hx2] at h1
          exact absurd h1 (by decide)
        · rcases List.mem_map.mp (by rw [hkeysdef] at hp; exact hp) with ⟨kv, hkv, hpkv⟩
          rw [← hpkv] at hcp
          exact (((hkeys kv hkv).2 x hcp).2.1) (by simpa using hx2))]
      rw [splitChar_joinChar (by rw [hkeyform]; simp) hccomma]
      rw [drop_len_succ_append]
      rw [parseIntJS_natDigits]
      show keys.map (fun k => (k, e.2)) = e :: rest
      rw [hkeysdef, List.map_map]
      exact map_pair_id (fun kv hkv => by
        have := List.all_eq_true.mp hall kv hkv
        simpa using this)
    · rw [if_neg hall]
      set pieces := (e :: rest).map (fun kv => kv.1 ++ ':' :: natDigits kv.2)
        with hpiecesdef
      have hmem_piece : ∀ p ∈ pieces, ∃ kv ∈ e :: rest,
          p = kv.1 ++ ':' :: natDigits kv.2 := by
        intro p hp
        rcases List.mem_map.mp (by rw [hpiecesdef] at hp; exact hp) with
          ⟨kv, hkv, hpkv⟩
        exact ⟨kv, hkv, hpkv.symm⟩
      have hcomma : ∀ p ∈ pieces, ',' ∉ p := by
        intro p hp hc
        rcases hmem_piece p hp with ⟨kv, hkv, rfl⟩
        rcases List.mem_append.mp hc with h1 | h1
        · exact (((hkeys kv hkv).2 ',' h1).1) rfl
        · rcases List.mem_cons.mp h1 with h2 | h2
          · exact absurd h2 (by decide)
          · exact ((natDigits_ne_delims h2).2.2.1) rfl
      have heq_notin : '=' ∉ joinChar ',' pieces := by
        intro hmem
        rcases mem_joinChar hmem with h1 | ⟨p, hp, hcp⟩
        · exact absurd h1 (by decide)
        · rcases hmem_piece p hp with ⟨kv, hkv, rfl⟩
          rcases List.mem_append.mp hcp with h1 | h1
          · exact (((hkeys kv hkv).2 '=' h1).2.2) rfl
          · rcases List.mem_cons.mp h1 with h2 | h2
            · exact absurd h2 (by decide)
            · exact ((natDigits_ne_delims h2).2.2.2.2.1) rfl
      have hpieces_ne : pieces ≠ [] := by rw [hpiecesdef]; simp
      have hjoin_ne : joinChar ',' pieces ≠ [] := by
        rw [hpiecesdef]
        show joinChar ',' ((e.1 ++ ':' :: natDigits e.2) :: _) ≠ []
        exact joinChar_cons_ne_nil _ (by simp)
      rw [decodeOverflow_eq_none hjoin_ne (lastIdxOf_none heq_notin)]
      unfold decodeOverflowPieces
      rw [splitChar_joinChar hpieces_ne hcomma]
      rw [hpiecesdef, List.map_map]
      have hfix : ∀ kv ∈ e :: rest,
          ((fun p =>
              ((splitChar ':' p).headD [],
                (parseIntJS ((splitChar ':' p).getD 1 [])).getD 0)) ∘
            fun kv => kv.1 ++ ':' :: natDigits kv.2) kv = kv := by
        intro kv hkv
        have hknc : ':' ∉ kv.1 := fun hc => (((hkeys kv hkv).2 ':' hc).2.1) rfl
        have hdnc : ':' ∉ natDigits kv.2 := fun hc =>
          ((natDigits_ne_delims hc).2.2.2.1) rfl
        show ((splitChar ':' (kv.1 ++ ':' :: natDigits kv.2)).headD [],
            (parseIntJS
              ((splitChar ':' (kv.1 ++ ':' :: natDigits kv.2)).getD 1 [])).getD 0)
          = kv
        rw [splitChar_sep_append hknc, splitChar_no_sep hdnc]
        simp [parseIntJS_natDigits]
      calc ((e :: rest).map _) = (e :: rest).map id := List.map_congr_left hfix
        _ = e :: rest := List.map_id _

lemma encodeOverflow_head (e : List Char × Nat) (rest : List (List Char × Nat))
    (hk : e.1 ≠ []) :
    (encodeOverflow (e :: rest)).head? = e.1.head? := by
  simp only [encodeOverflow]
  by_cases hall : ((e :: rest).all fun kv => kv.2 = e.2) = true
  · rw [if_pos hall]
    have h1 : ((e :: rest).map fun kv => kv.1) = e.1 :: rest.map (fun kv => kv.1) := by
      simp
    rw [h1]
    have h2 := @joinChar_cons_head ',' e.1
      (rest.map (fun kv => kv.1)) hk
    rw [← h2]
    cases hj : joinChar ',' (e.1 :: rest.map (fun kv => kv.1)) with
    | nil => exact absurd hj (joinChar_cons_ne_nil _ hk)
    | cons x t => rfl
  · rw [if_neg hall]
    have h1 : ((e :: rest).map fun kv => kv.1 ++ ':' :: natDigits kv.2) =
        (e.1 ++ ':' :: natDigits e.2) :: rest.map (fun kv => kv.1 ++ ':' :: natDigits kv.2) := by
      simp
    rw [h1]
    rw [joinChar_cons_head _ (by simp)]
    cases e1 : e.1 with
    | nil => exact absurd e1 hk
    | cons x t => rfl

lemma safeChunk_payloadBlock {α : Type} {m : List Char → Option α}
    {openM : List Char} (hop : OpensWith m openM)
    (openT payload : List Char)
    (hdis : ∀ w, ¬ openM <+: (openT ++ w))
    (htail : ∀ c ∈ openT.drop 1, c ≠ '[')
    (hpay : ∀ c ∈ payload, c ≠ '[') :
    SafeChunk m (openT ++ payload ++ [']']) := by
  rw [List.append_assoc]
  apply safeChunk_block hop openT (payload ++ [']']) hdis htail
  intro c hc
  rcases List.mem_append.mp hc with h1 | h1
  · exact hpay c h1
  · rw [List.mem_singleton] at h1
    subst h1
    decide

lemma safeChunk_buildSkipTag {α : Type} {m : List Char → Option α}
    {openM : List Char} (hop : OpensWith m openM)
    (hdis : ∀ w, ¬ openM <+: (chars "[skip:" ++ w)) (a b : Nat)
    (hne : buildSkipTag a b ≠ []) : SafeChunk m (buildSkipTag a b) := by
  unfold buildSkipTag at hne ⊢
  by_cases h : a = 0 ∧ b = 0
  · simp [h] at hne
  · rw [if_neg h]
    have hsh : chars "[skip:" ++ natDigits a ++ ',' :: natDigits b ++ [']'] =
        chars "[skip:" ++ ((natDigits a ++ ',' :: natDigits b) ++ [']']) := by
      simp
    rw [hsh]
    apply safeChunk_block hop (chars "[skip:")
      ((natDigits a ++ ',' :: natDigits b) ++ [']']) hdis (by decide)
    intro c hc
    rcases List.mem_append.mp hc with h1 | h1
    · rcases List.mem_append.mp h1 with h2 | h2
      · exact (natDigits_ne_delims h2).1
      · rcases List.mem_cons.mp h2 with h3 | h3
        · subst h3
          decide
        · exact (natDigits_ne_delims h3).1
    · rw [List.mem_singleton] at h1
      subst h1
      decide

lemma safeChunk_buildFixedRefTag {α : Type} {m : List Char → Option α}
    {openM : List Char} (hop : OpensWith m openM)
    (hdis : ∀ w, ¬ openM <+: (fixrefOpen ++ w)) {r : List Char}
    (hr : ∀ c ∈ r, c ≠ '[') (hne : buildFixedRefTag r ≠ []) :
    SafeChunk m (buildFixedRefTag r) := by
  unfold buildFixedRefTag at hne ⊢
  by_cases h : r = []
  · simp [h] at hne
  · rw [if_neg h]
    exact safeChunk_payloadBlock hop fixrefOpen r hdis (by decide) hr

lemma safeChunk_buildDynamicRefTag {α : Type} {m : List Char → Option α}
    {openM : List Char} (hop : OpensWith m openM)
    (hdis : ∀ w, ¬ openM <+: (dynrefOpen ++ w)) {r : List Char}
    (hr : ∀ c ∈ r, c ≠ '[') (hne : buildDynamicRefTag r ≠ []) :
    SafeChunk m (buildDynamicRefTag r) := by
  unfold buildDynamicRefTag at hne ⊢
  by_cases h : r = []
  · simp [h] at hne
  · rw [if_neg h]
    exact safeChunk_payloadBlock hop dynrefOpen r hdis (by decide) hr

lemma safeChunk_buildOrigRangeTag {α : Type} {m : List Char → Option α}
    {openM : List Char} (hop : OpensWith m openM)
    (hdis : ∀ w, ¬ openM <+: (origrangeOpen ++ w)) {r : List Char}
    (hr : ∀ c ∈ r, c ≠ '[') (hne : buildOrigRangeTag r ≠ []) :
    SafeChunk m (buildOrigRangeTag r) := by
  unfold buildOrigRangeTag at hne ⊢
  by_cases h : r = []
  · simp [h] at hne
  · rw [if_neg h]
    exact safeChunk_payloadBlock hop origrangeOpen r hdis (by decide) hr

lemma safeChunk_buildLastColTag {α : Type} {m : List Char → Option α}
    {openM : List Char} (hop : OpensWith m openM)
    (hdis : ∀ w, ¬ openM <+: (lastcolTag ++ w)) {b : Bool}
    (hne : buildLastColTag b ≠ []) : SafeChunk m (buildLastColTag b) := by
  cases b
  · simp [buildLastColTag] at hne
  · exact safeChunk_mk hop hdis (by decide)

lemma safeChunk_buildLastRowTag {α : Type} {m : List Char → Option α}
    {openM : List Char} (hop : OpensWith m openM)
    (hdis : ∀ w, ¬ openM <+: (lastrowTag ++ w)) {b : Bool}
    (hne : buildLastRowTag b ≠ []) : SafeChunk m (buildLastRowTag b) := by
  cases b
  · simp [buildLastRowTag] at hne
  · exact safeChunk_mk hop hdis (by decide)

lemma safeChunk_buildExpandRowsTag {α : Type} {m : List Char → Option α}
    {openM : List Char} (hop : OpensWith m openM)
    (hdis : ∀ w, ¬ openM <+: (expandrowsTag ++ w)) {b : Bool}
    (hne : buildExpandRowsTag b ≠ []) : SafeChunk m (buildExpandRowsTag b) := by
  cases b
  · simp [buildExpandRowsTag] at hne
  · exact safeChunk_mk hop hdis (by decide)

lemma safeChunk_buildExpandColsTag {α : Type} {m : List Char → Option α}
    {openM : List Char} (hop : OpensWith m openM)
    (hdis : ∀ w, ¬ openM <+: (expandcolsTag ++ w)) {b : Bool}
    (hne : buildExpandColsTag b ≠ []) : SafeChunk m (buildExpandColsTag b) := by
  cases b
  · simp [buildExpandColsTag] at hne
  · exact safeChunk_mk hop hdis (by decide)

lemma safeChunk_buildSkipColIndicesTag {α : Type} {m : List Char → Option α}
    {openM : List Char} (hop : OpensWith m openM)
    (hdis : ∀ w, ¬ openM <+: (skipcidxOpen ++ w)) (l : List Nat)
    (hne : buildSkipColIndicesTag l ≠ []) :
    SafeChunk m (buildSkipColIndicesTag l) := by
  unfold buildSkipColIndicesTag at hne ⊢
  by_cases h : l = []
  · simp [h] at hne
  · rw [if_neg h]
    apply safeChunk_payloadBlock hop skipcidxOpen _ hdis (by decide)
    intro c hc
    rcases mem_joinChar hc with h1 | ⟨p, hp, hcp⟩
    · subst h1
      decide
    · rcases List.mem_map.mp hp with ⟨n, _hn, hpn⟩
      rw [← hpn] at hcp
      exact (natDigits_ne_delims hcp).1

lemma safeChunk_buildSkipRowIndicesTag {α : Type} {m : List Char → Option α}
    {openM : List Char} (hop : OpensWith m openM)
    (hdis : ∀ w, ¬ openM <+: (skipridxOpen ++ w)) (l : List Nat)
    (hne : buildSkipRowIndicesTag l ≠ []) :
    SafeChunk m (buildSkipRowIndicesTag l) := by
  unfold buildSkipRowIndicesTag at hne ⊢
  by_cases h : l = []
  · simp [h] at hne
  · rw [if_neg h]
    apply safeChunk_payloadBlock hop skipridxOpen _ hdis (by decide)
    intro c hc
    rcases mem_joinChar hc with h1 | ⟨p, hp, hcp⟩
    · subst h1
      decide
    · rcases List.mem_map.mp hp with ⟨n, _hn, hpn⟩
      rw [← hpn] at hcp
      exact (natDigits_ne_delims hcp).1

lemma safeChunk_buildColOverflowTag {α : Type} {m : List Char → Option α}
    {openM : List Char} (hop : OpensWith m openM)
    (hdis : ∀ w, ¬ openM <+: (coloverflowOpen ++ w)) (ov : List (Nat × Nat))
    (hne : buildColOverflowTag ov ≠ []) :
    SafeChunk m (buildColOverflowTag ov) := by
  unfold buildColOverflowTag at hne ⊢
  by_cases h : ov = []
  · simp [h] at hne
  · rw [if_neg h]
    apply safeChunk_payloadBlock hop coloverflowOpen _ hdis (by decide)
    intro c hc
    rcases mem_encodeOverflow hc with ⟨kv, hkv, hckv⟩ | h1 | h1 | h1 | h1
    · rcases List.mem_map.mp hkv with ⟨kv0, _hkv0, hkveq⟩
      rw [← hkveq] at hckv
      exact (natDigits_ne_delims hckv).1
    · exact (digit_ne_delims h1).1
    · subst h1
      decide
    · subst h1
      decide
    · subst h1
      decide

lemma safeChunk_buildRowOverflowTag {α : Type} {m : List Char → Option α}
    {openM : List Char} (hop : OpensWith m openM)
    (hdis : ∀ w, ¬ openM <+: (rowoverflowOpen ++ w))
    {ov : List (List Char × Nat)}
    (hkeys : ∀ kv ∈ ov, ∀ c ∈ kv.1, c ≠ '[')
    (hne : buildRowOverflowTag ov ≠ []) :
    SafeChunk m (buildRowOverflowTag ov) := by
  unfold buildRowOverflowTag at hne ⊢
  by_cases h : ov = []
  · simp [h] at hne
  · rw [if_neg h]
    apply safeChunk_payloadBlock hop rowoverflowOpen _ hdis (by decide)
    intro c hc
    rcases mem_encodeOverflow hc with ⟨kv, hkv, hckv⟩ | h1 | h1 | h1 | h1
    · exact hkeys kv hkv c hckv
    · exact (digit_ne_delims h1).1
    · subst h1
      decide
    · subst h1
      decide
    · subst h1
      decide

lemma filter_ne_cons_nil (rest : List (List Char)) :
    (([] : List Char) :: rest).filter (fun p => p ≠ []) =
      rest.filter (fun p => p ≠ []) := by
  simp

lemma filter_ne_cons {a : List Char} (rest : List (List Char)) (ha : a ≠ []) :
    (a :: rest).filter (fun p => p ≠ []) =
      a :: rest.filter (fun p => p ≠ []) := by
  simp [ha]

lemma buildSkipTag_ne {a b : Nat} (hx : ¬ (a = 0 ∧ b = 0)) :
    buildSkipTag a b ≠ [] := by
  unfold buildSkipTag
  rw [if_neg hx]
  simp

lemma parseSkipTag_encode (o : CompilerOptions) (hwf : WellFormedOptions o) :
    parseSkipTag (encodeTags o) = (o.skipRows, o.skipCols) := by
  obtain ⟨hfr, hdr, hor, hrk, _hrn, _hca⟩ := hwf
  have hop := opensWith_skipM
  have hbr : (chars "[skip:").head? = some '[' := by decide
  have hsafe : ∀ p, p ∈ [buildFixedRefTag o.fixedRef,
      buildDynamicRefTag o.dynamicRef, buildLastColTag o.lastColOnly,
      buildLastRowTag o.lastRowOnly, buildOrigRangeTag o.origRange,
      buildExpandRowsTag o.expandRows, buildExpandColsTag o.expandCols,
      buildSkipColIndicesTag o.skippedColIndices,
      buildSkipRowIndicesTag o.skippedRowIndices,
      buildColOverflowTag o.colOverflowByRow,
      buildRowOverflowTag o.rowOverflowByCol] → p ≠ [] → SafeChunk skipM p := by
    intro p hp hne
    simp only [List.mem_cons, List.not_mem_nil, or_false] at hp
    rcases hp with rfl | rfl | rfl | rfl | rfl | rfl | rfl | rfl | rfl | rfl | rfl
    · exact safeChunk_buildFixedRefTag hop
        (fun w => not_prefix_of_zip_any (by decide) w)
        (fun c hc => (hfr c hc).1) hne
    · exact safeChunk_buildDynamicRefTag hop
        (fun w => not_prefix_of_zip_any (by decide) w)
        (fun c hc => (hdr c hc).1) hne
    · exact safeChunk_buildLastColTag hop
        (fun w => not_prefix_of_zip_any (by decide) w) hne
    · exact safeChunk_buildLastRowTag hop
        (fun w => not_prefix_of_zip_any (by decide) w) hne
    · exact safeChunk_buildOrigRangeTag hop
        (fun w => not_prefix_of_zip_any (by decide) w)
        (fun c hc => (hor c hc).1) hne
    · exact safeChunk_buildExpandRowsTag hop
        (fun w => not_prefix_of_zip_any (by decide) w) hne
    · exact safeChunk_buildExpandColsTag hop
        (fun w => not_prefix_of_zip_any (by decide) w) hne
    · exact safeChunk_buildSkipColIndicesTag hop
        (fun w => not_prefix_of_zip_any (by decide) w) _ hne
    · exact safeChunk_buildSkipRowIndicesTag hop
        (fun w => not_prefix_of_zip_any (by decide) w) _ hne
    · exact safeChunk_buildColOverflowTag hop
        (fun w => not_prefix_of_zip_any (by decide) w) _ hne
    · exact safeChunk_buildRowOverflowTag hop
        (fun w => not_prefix_of_zip_any (by decide) w)
        (fun kv hkv c hc => ((hrk kv hkv).2 c hc).1) hne
  unfold encodeTags optionTagParts
  by_cases hx : o.skipRows = 0 ∧ o.skipCols = 0
  · have hempty : buildSkipTag o.skipRows o.skipCols = [] := by
      simp [buildSkipTag, hx]
    rw [hempty, filter_ne_cons_nil]
    have hfm := fm_joinSp_all_safe hop hbr
      (([buildFixedRefTag o.fixedRef,
        buildDynamicRefTag o.dynamicRef, buildLastColTag o.lastColOnly,
        buildLastRowTag o.lastRowOnly, buildOrigRangeTag o.origRange,
        buildExpandRowsTag o.expandRows, buildExpandColsTag o.expandCols,
        buildSkipColIndicesTag o.skippedColIndices,
        buildSkipRowIndicesTag o.skippedRowIndices,
        buildColOverflowTag o.colOverflowByRow,
        buildRowOverflowTag o.rowOverflowByCol]).filter (fun p => p ≠ []))
      (fun p hp => hsafe p (List.mem_of_mem_filter hp)
        (by simpa using List.of_mem_filter hp))
    unfold parseSkipTag
    rw [hfm]
    rw [hx.1, hx.2]
  · have hne := buildSkipTag_ne hx
    rw [filter_ne_cons _ hne]
    have hval : ∀ z, skipM (buildSkipTag o.skipRows o.skipCols ++ z) =
        some ((o.skipRows, o.skipCols),
          6 + (natDigits o.skipRows).length + 1 +
            (natDigits o.skipCols).length + 1) := by
      intro z
      unfold buildSkipTag
      rw [if_neg hx]
      exact skipM_match _ _ z
    have hfm := fm_joinSp_head_some (buildSkipTag o.skipRows o.skipCols)
      (([buildFixedRefTag o.fixedRef,
        buildDynamicRefTag o.dynamicRef, buildLastColTag o.lastColOnly,
        buildLastRowTag o.lastRowOnly, buildOrigRangeTag o.origRange,
        buildExpandRowsTag o.expandRows, buildExpandColsTag o.expandCols,
        buildSkipColIndicesTag o.skippedColIndices,
        buildSkipRowIndicesTag o.skippedRowIndices,
        buildColOverflowTag o.colOverflowByRow,
        buildRowOverflowTag o.rowOverflowByCol]).filter (fun p => p ≠ []))
      _ hval
    unfold parseSkipTag
    rw [hfm]

lemma parsePayloadTag_fm_some {openL c p : List Char} {n : Nat}
    (hfm : firstMatch (payloadM openL) c = some (p, n)) :
    parsePayloadTag openL c = p := by
  unfold parsePayloadTag
  rw [hfm]

lemma parsePayloadTag_fm_none {openL c : List Char}
    (hfm : firstMatch (payloadM openL) c = none) :
    parsePayloadTag openL c = [] := by
  unfold parsePayloadTag
  rw [hfm]

lemma parseSkipColIndicesTag_fm_some {c p : List Char} {n : Nat}
    (hfm : firstMatch (payloadM skipcidxOpen) c = some (p, n)) :
    parseSkipColIndicesTag c =
      (splitChar ',' p).map (fun q => (jsNumber q).getD 0) := by
  unfold parseSkipColIndicesTag
  rw [hfm]

lemma parseSkipColIndicesTag_fm_none {c : List Char}
    (hfm : firstMatch (payloadM skipcidxOpen) c = none) :
    parseSkipColIndicesTag c = [] := by
  unfold parseSkipColIndicesTag
  rw [hfm]

lemma parseSkipRowIndicesTag_fm_some {c p : List Char} {n : Nat}
    (hfm : firstMatch (payloadM skipridxOpen) c = some (p, n)) :
    parseSkipRowIndicesTag c =
      (splitChar ',' p).map (fun q => (jsNumber q).getD 0) := by
  unfold parseSkipRowIndicesTag
  rw [hfm]

lemma parseSkipRowIndicesTag_fm_none {c : List Char}
    (hfm : firstMatch (payloadM skipridxOpen) c = none) :
    parseSkipRowIndicesTag c = [] := by
  unfold parseSkipRowIndicesTag
  rw [hfm]

lemma parseColOverflowTag_fm_some {c p : List Char} {n : Nat}
    (hfm : firstMatch (payloadM coloverflowOpen) c = some (p, n)) :
    parseColOverflowTag c =
      if p.head? = some lbraceCh then
        ((jsonFlat p).getD []).map (fun kv => ((jsNumber kv.1).getD 0, kv.2))
      else (decodeOverflow p).map (fun kv => ((jsNumber kv.1).getD 0, kv.2)) := by
  unfold parseColOverflowTag
  rw [hfm]

lemma parseColOverflowTag_fm_none {c : List Char}
    (hfm : firstMatch (payloadM coloverflowOpen) c = none) :
    parseColOverflowTag c = [] := by
  unfold parseColOverflowTag
  rw [hfm]

lemma parseRowOverflowTag_fm_some {c p : List Char} {n : Nat}
    (hfm : firstMatch (payloadM rowoverflowOpen) c = some (p, n)) :
    parseRowOverflowTag c =
      if p.head? = some lbraceCh then (jsonFlat p).getD []
      else decodeOverflow p := by
  unfold parseRowOverflowTag
  rw [hfm]

lemma parseRowOverflowTag_fm_none {c : List Char}
    (hfm : firstMatch (payloadM rowoverflowOpen) c = none) :
    parseRowOverflowTag c = [] := by
  unfold parseRowOverflowTag
  rw [hfm]

lemma decode_idx_list (l : List Nat) :
    (l.map natDigits).map (fun q => (jsNumber q).getD 0) = l := by
  rw [List.map_map]
  have h : ∀ n ∈ l, ((fun q => (jsNumber q).getD 0) ∘ natDigits) n = id n := by
    intro n _
    simp [jsNumber_natDigits]
  rw [List.map_congr_left h, List.map_id]

lemma decode_col_entries (ov : List (Nat × Nat)) :
    ((ov.map (fun kv => (natDigits kv.1, kv.2))).map
      (fun kv => ((jsNumber kv.1).getD 0, kv.2))) = ov := by
  rw [List.map_map]
  have h : ∀ kv ∈ ov, ((fun kv => ((jsNumber kv.1).getD 0, kv.2)) ∘
      (fun kv => (natDigits kv.1, kv.2))) kv = id kv := by
    intro kv _
    simp [jsNumber_natDigits]
  rw [List.map_congr_left h, List.map_id]

lemma encodeOverflow_cons_ne_nil (e : List Char × Nat)
    (rest : List (List Char × Nat)) (_hk : e.1 ≠ []) :
    encodeOverflow (e :: rest) ≠ [] := by
  simp only [encodeOverflow]
  by_cases hall : ((e :: rest).all fun kv => kv.2 = e.2) = true
  · rw [if_pos hall]
    simp
  · rw [if_neg hall]
    rw [List.map_cons]
    exact joinChar_cons_ne_nil _ (by simp)

lemma idx_payload_ne_rb (l : List Nat) :
    ∀ c ∈ joinChar ',' (l.map natDigits), c ≠ ']' := by
  intro c hc
  rcases mem_joinChar hc with h1 | ⟨p, hp, hcp⟩
  · subst h1
    decide
  · rcases List.mem_map.mp hp with ⟨n, _, hpn⟩
    rw [← hpn] at hcp
    exact (natDigits_ne_delims hcp).2.1

lemma overflow_payload_ne_rb {entries : List (List Char × Nat)}
    (hkeys : ∀ kv ∈ entries, ∀ c ∈ kv.1, c ≠ ']') :
    ∀ c ∈ encodeOverflow entries, c ≠ ']' := by
  intro c hc
  rcases mem_encodeOverflow hc with ⟨kv, hkv, hckv⟩ | h1 | h1 | h1 | h1
  · exact hkeys kv hkv c hckv
  · exact (digit_ne_delims h1).2.1
  · subst h1
    decide
  · subst h1
    decide
  · subst h1
    decide

lemma parseFixedRefTag_encode (o : CompilerOptions) (hwf : WellFormedOptions o) :
    parseFixedRefTag (encodeTags o) = o.fixedRef := by
  obtain ⟨hfr, hdr, hor, hrk, _hrn, _hca⟩ := hwf
  have hop := opensWith_payloadM fixrefOpen
  have hbr : fixrefOpen.head? = some '[' := by decide
  have hsafe : ∀ p, p ∈ [buildSkipTag o.skipRows o.skipCols,
      buildDynamicRefTag o.dynamicRef, buildLastColTag o.lastColOnly,
      buildLastRowTag o.lastRowOnly, buildOrigRangeTag o.origRange,
      buildExpandRowsTag o.expandRows, buildExpandColsTag o.expandCols,
      buildSkipColIndicesTag o.skippedColIndices,
      buildSkipRowIndicesTag o.skippedRowIndices,
      buildColOverflowTag o.colOverflowByRow,
      buildRowOverflowTag o.rowOverflowByCol] → p ≠ [] →
      SafeChunk (payloadM fixrefOpen) p := by
    intro p hp hne
    simp only [List.mem_cons, List.not_mem_nil, or_false] at hp
    rcases hp with rfl | rfl | rfl | rfl | rfl | rfl | rfl | rfl | rfl | rfl | rfl
    · exact safeChunk_buildSkipTag hop
        (fun w => not_prefix_of_zip_any (by decide) w) _ _ hne
    · exact safeChunk_buildDynamicRefTag hop
        (fun w => not_prefix_of_zip_any (by decide) w)
        (fun c hc => (hdr c hc).1) hne
    · exact safeChunk_buildLastColTag hop
        (fun w => not_prefix_of_zip_any (by decide) w) hne
    · exact safeChunk_buildLastRowTag hop
        (fun w => not_prefix_of_zip_any (by decide) w) hne
    · exact safeChunk_buildOrigRangeTag hop
        (fun w => not_prefix_of_zip_any (by decide) w)
        (fun c hc => (hor c hc).1) hne
    · exact safeChunk_buildExpandRowsTag hop
        (fun w => not_prefix_of_zip_any (by decide) w) hne
    · exact safeChunk_buildExpandColsTag hop
        (fun w => not_prefix_of_zip_any (by decide) w) hne
    · exact safeChunk_buildSkipColIndicesTag hop
        (fun w => not_prefix_of_zip_any (by decide) w) _ hne
    · exact safeChunk_buildSkipRowIndicesTag hop
        (fun w => not_prefix_of_zip_any (by decide) w) _ hne
    · exact safeChunk_buildColOverflowTag hop
        (fun w => not_prefix_of_zip_any (by decide) w) _ hne
    · exact safeChunk_buildRowOverflowTag hop
        (fun w => not_prefix_of_zip_any (by decide) w)
        (fun kv hkv c hc => ((hrk kv hkv).2 c hc).1) hne
  unfold encodeTags optionTagParts
  have hsplit : [buildSkipTag o.skipRows o.skipCols,
      buildFixedRefTag o.fixedRef,
      buildDynamicRefTag o.dynamicRef, buildLastColTag o.lastColOnly,
      buildLastRowTag o.lastRowOnly, buildOrigRangeTag o.origRange,
      buildExpandRowsTag o.expandRows, buildExpandColsTag o.expandCols,
      buildSkipColIndicesTag o.skippedColIndices,
      buildSkipRowIndicesTag o.skippedRowIndices,
      buildColOverflowTag o.colOverflowByRow,
      buildRowOverflowTag o.rowOverflowByCol] =
      [buildSkipTag o.skipRows o.skipCols] ++
      buildFixedRefTag o.fixedRef ::
      [buildDynamicRefTag o.dynamicRef, buildLastColTag o.lastColOnly,
      buildLastRowTag o.lastRowOnly, buildOrigRangeTag o.origRange,
      buildExpandRowsTag o.expandRows, buildExpandColsTag o.expandCols,
      buildSkipColIndicesTag o.skippedColIndices,
      buildSkipRowIndicesTag o.skippedRowIndices,
      buildColOverflowTag o.colOverflowByRow,
      buildRowOverflowTag o.rowOverflowByCol] := rfl
  rw [hsplit, List.filter_append]
  by_cases hx : o.fixedRef = []
  · have hempty : buildFixedRefTag o.fixedRef = [] := by
      simp [buildFixedRefTag, hx]
    rw [hempty, filter_ne_cons_nil]
    have hfm := fm_joinSp_all_safe hop hbr
      (([buildSkipTag o.skipRows o.skipCols].filter (fun p => p ≠ [])) ++
        ([buildDynamicRefTag o.dynamicRef, buildLastColTag o.lastColOnly,
        buildLastRowTag o.lastRowOnly, buildOrigRangeTag o.origRange,
        buildExpandRowsTag o.expandRows, buildExpandColsTag o.expandCols,
        buildSkipColIndicesTag o.skippedColIndices,
        buildSkipRowIndicesTag o.skippedRowIndices,
        buildColOverflowTag o.colOverflowByRow,
        buildRowOverflowTag o.rowOverflowByCol].filter (fun p => p ≠ [])))
      (fun p hp => by
        rcases List.mem_append.mp hp with h1 | h1
        · exact hsafe p (by
            have := List.mem_of_mem_filter h1
            simp only [List.mem_singleton] at this
            simp [this]) (by simpa using List.of_mem_filter h1)
        · exact hsafe p (by
            have := List.mem_of_mem_filter h1
            simp [List.mem_cons] at this ⊢
            tauto) (by simpa using List.of_mem_filter h1))
    unfold parseFixedRefTag
    rw [parsePayloadTag_fm_none hfm, hx]
  · have hne : buildFixedRefTag o.fixedRef ≠ [] := by
      simp [buildFixedRefTag, hx]
    rw [filter_ne_cons _ hne]
    have hval : ∀ z, payloadM fixrefOpen (buildFixedRefTag o.fixedRef ++ z) =
        some (o.fixedRef, fixrefOpen.length + o.fixedRef.length + 1) := by
      intro z
      unfold buildFixedRefTag
      rw [if_neg hx]
      exact payloadM_match fixrefOpen o.fixedRef z hx
        (fun c hc => (hfr c hc).2)
    have hfm2 := fm_joinSp_parts hop hbr
      ([buildSkipTag o.skipRows o.skipCols].filter (fun p => p ≠ []))
      (buildFixedRefTag o.fixedRef ::
        ([buildDynamicRefTag o.dynamicRef, buildLastColTag o.lastColOnly,
        buildLastRowTag o.lastRowOnly, buildOrigRangeTag o.origRange,
        buildExpandRowsTag o.expandRows, buildExpandColsTag o.expandCols,
        buildSkipColIndicesTag o.skippedColIndices,
        buildSkipRowIndicesTag o.skippedRowIndices,
        buildColOverflowTag o.colOverflowByRow,
        buildRowOverflowTag o.rowOverflowByCol].filter (fun p => p ≠ [])))
      (fun p hp => hsafe p (by
        have := List.mem_of_mem_filter hp
        simp only [List.mem_singleton] at this
        simp [this]) (by simpa using List.of_mem_filter hp))
    have hfm3 := fm_joinSp_head_some (buildFixedRefTag o.fixedRef)
      ([buildDynamicRefTag o.dynamicRef, buildLastColTag o.lastColOnly,
        buildLastRowTag o.lastRowOnly, buildOrigRangeTag o.origRange,
        buildExpandRowsTag o.expandRows, buildExpandColsTag o.expandCols,
        buildSkipColIndicesTag o.skippedColIndices,
        buildSkipRowIndicesTag o.skippedRowIndices,
        buildColOverflowTag o.colOverflowByRow,
        buildRowOverflowTag o.rowOverflowByCol].filter (fun p => p ≠ []))
      _ hval
    unfold parseFixedRefTag
    rw [parsePayloadTag_fm_some (hfm2.trans hfm3)]

lemma parseDynamicRefTag_encode (o : CompilerOptions) (hwf : WellFormedOptions o) :
    parseDynamicRefTag (encodeTags o) = o.dynamicRef := by
  obtain ⟨hfr, hdr, hor, hrk, _hrn, _hca⟩ := hwf
  have hop := opensWith_payloadM dynrefOpen
  have hbr : (dynrefOpen).head? = some '[' := by decide
  have hsafe : ∀ p, p ∈ [buildSkipTag o.skipRows o.skipCols,
      buildFixedRefTag o.fixedRef,
      buildLastColTag o.lastColOnly,
      buildLastRowTag o.lastRowOnly,
      buildOrigRangeTag o.origRange,
      buildExpandRowsTag o.expandRows,
      buildExpandColsTag o.expandCols,
      buildSkipColIndicesTag o.skippedColIndices,
      buildSkipRowIndicesTag o.skippedRowIndices,
      buildColOverflowTag o.colOverflowByRow,
      buildRowOverflowTag o.rowOverflowByCol] → p ≠ [] →
      SafeChunk (payloadM dynrefOpen) p := by
    intro p hp hne
    simp only [List.mem_cons, List.not_mem_nil, or_false] at hp
    rcases hp with rfl | rfl | rfl | rfl | rfl | rfl | rfl | rfl | rfl | rfl | rfl
    · exact safeChunk_buildSkipTag hop (fun w => not_prefix_of_zip_any (by decide) w) _ _ hne
    · exact safeChunk_buildFixedRefTag hop (fun w => not_prefix_of_zip_any (by decide) w) (fun c hc => (hfr c hc).1) hne
    · exact safeChunk_buildLastColTag hop (fun w => not_prefix_of_zip_any (by decide) w) hne
    · exact safeChunk_buildLastRowTag hop (fun w => not_prefix_of_zip_any (by decide) w) hne
    · exact safeChunk_buildOrigRangeTag hop (fun w => not_prefix_of_zip_any (by decide) w) (fun c hc => (hor c hc).1) hne
    · exact safeChunk_buildExpandRowsTag hop (fun w => not_prefix_of_zip_any (by decide) w) hne
    · exact safeChunk_buildExpandColsTag hop (fun w => not_prefix_of_zip_any (by decide) w) hne
    · exact safeChunk_buildSkipColIndicesTag hop (fun w => not_prefix_of_zip_any (by decide) w) _ hne
    · exact safeChunk_buildSkipRowIndicesTag hop (fun w => not_prefix_of_zip_any (by decide) w) _ hne
    · exact safeChunk_buildColOverflowTag hop (fun w => not_prefix_of_zip_any (by decide) w) _ hne
    · exact safeChunk_buildRowOverflowTag hop (fun w => not_prefix_of_zip_any (by decide) w) (fun kv hkv c hc => ((hrk kv hkv).2 c hc).1) hne
  unfold encodeTags optionTagParts
  have hsplit : [buildSkipTag o.skipRows o.skipCols,
      buildFixedRefTag o.fixedRef,
      buildDynamicRefTag o.dynamicRef,
      buildLastColTag o.lastColOnly,
      buildLastRowTag o.lastRowOnly,
      buildOrigRangeTag o.origRange,
      buildExpandRowsTag o.expandRows,
      buildExpandColsTag o.expandCols,
      buildSkipColIndicesTag o.skippedColIndices,
      buildSkipRowIndicesTag o.skippedRowIndices,
      buildColOverflowTag o.colOverflowByRow,
      buildRowOverflowTag o.rowOverflowByCol] =
      [buildSkipTag o.skipRows o.skipCols,
      buildFixedRefTag o.fixedRef] ++
      buildDynamicRefTag o.dynamicRef ::
      [buildLastColTag o.lastColOnly,
      buildLastRowTag o.lastRowOnly,
      buildOrigRangeTag o.origRange,
      buildExpandRowsTag o.expandRows,
      buildExpandColsTag o.expandCols,
      buildSkipColIndicesTag o.skippedColIndices,
      buildSkipRowIndicesTag o.skippedRowIndices,
      buildColOverflowTag o.colOverflowByRow,
      buildRowOverflowTag o.rowOverflowByCol] := rfl
  rw [hsplit, List.filter_append]
  by_cases hx : o.dynamicRef = []
  · have hempty : buildDynamicRefTag o.dynamicRef = [] := by
      simp [buildDynamicRefTag, hx]
    rw [hempty, filter_ne_cons_nil]
    have hfm := fm_joinSp_all_safe hop hbr
      (([buildSkipTag o.skipRows o.skipCols,
        buildFixedRefTag o.fixedRef].filter (fun p => p ≠ [])) ++
        ([buildLastColTag o.lastColOnly,
        buildLastRowTag o.lastRowOnly,
        buildOrigRangeTag o.origRange,
        buildExpandRowsTag o.expandRows,
        buildExpandColsTag o.expandCols,
        buildSkipColIndicesTag o.skippedColIndices,
        buildSkipRowIndicesTag o.skippedRowIndices,
        buildColOverflowTag o.colOverflowByRow,
        buildRowOverflowTag o.rowOverflowByCol].filter (fun p => p ≠ [])))
      (fun p hp => by
        rcases List.mem_append.mp hp with h1 | h1
        · exact hsafe p (by
        have := List.mem_of_mem_filter h1
        simp only [List.mem_cons, List.mem_singleton, List.not_mem_nil,
          or_false] at this ⊢
        tauto) (by simpa using List.of_mem_filter h1)
        · exact hsafe p (by
        have := List.mem_of_mem_filter h1
        simp only [List.mem_cons, List.mem_singleton, List.not_mem_nil,
          or_false] at this ⊢
        tauto) (by simpa using List.of_mem_filter h1))
    unfold parseDynamicRefTag
    rw [parsePayloadTag_fm_none hfm, hx]
  · have hne : buildDynamicRefTag o.dynamicRef ≠ [] := by
      simp [buildDynamicRefTag, hx]
    rw [filter_ne_cons _ hne]
    have hval : ∀ z, payloadM dynrefOpen (buildDynamicRefTag o.dynamicRef ++ z) =
        some (o.dynamicRef, (dynrefOpen).length + (o.dynamicRef).length + 1) := by
      intro z
      unfold buildDynamicRefTag
      rw [if_neg hx]
      exact payloadM_match dynrefOpen o.dynamicRef z hx
        (fun c hc => (hdr c hc).2)
    have hfm2 := fm_joinSp_parts hop hbr
      ([buildSkipTag o.skipRows o.skipCols,
        buildFixedRefTag o.fixedRef].filter (fun p => p ≠ []))
      (buildDynamicRefTag o.dynamicRef ::
        ([buildLastColTag o.lastColOnly,
        buildLastRowTag o.lastRowOnly,
        buildOrigRangeTag o.origRange,
        buildExpandRowsTag o.expandRows,
        buildExpandColsTag o.expandCols,
        buildSkipColIndicesTag o.skippedColIndices,
        buildSkipRowIndicesTag o.skippedRowIndices,
        buildColOverflowTag o.colOverflowByRow,
        buildRowOverflowTag o.rowOverflowByCol].filter (fun p => p ≠ [])))
      (fun p hp => hsafe p (by
        have := List.mem_of_mem_filter hp
        simp only [List.mem_cons, List.mem_singleton, List.not_mem_nil,
          or_false] at this ⊢
        tauto) (by simpa using List.of_mem_filter hp))
    have hfm3 := fm_joinSp_head_some (buildDynamicRefTag o.dynamicRef)
      ([buildLastColTag o.lastColOnly,
        buildLastRowTag o.lastRowOnly,
        buildOrigRangeTag o.origRange,
        buildExpandRowsTag o.expandRows,
        buildExpandColsTag o.expandCols,
        buildSkipColIndicesTag o.skippedColIndices,
        buildSkipRowIndicesTag o.skippedRowIndices,
        buildColOverflowTag o.colOverflowByRow,
        buildRowOverflowTag o.rowOverflowByCol].filter (fun p => p ≠ []))
      ((o.dynamicRef), (dynrefOpen).length + (o.dynamicRef).length + 1) hval
    unfold parseDynamicRefTag
    rw [parsePayloadTag_fm_some (hfm2.trans hfm3)]


lemma parseOrigRangeTag_encode (o : CompilerOptions) (hwf : WellFormedOptions o) :
    parseOrigRangeTag (encodeTags o) = o.origRange := by
  obtain ⟨hfr, hdr, hor, hrk, _hrn, _hca⟩ := hwf
  have hop := opensWith_payloadM origrangeOpen
  have hbr : (origrangeOpen).head? = some '[' := by decide
  have hsafe : ∀ p, p ∈ [buildSkipTag o.skipRows o.skipCols,
      buildFixedRefTag o.fixedRef,
      buildDynamicRefTag o.dynamicRef,
      buildLastColTag o.lastColOnly,
      buildLastRowTag o.lastRowOnly,
      buildExpandRowsTag o.expandRows,
      buildExpandColsTag o.expandCols,
      buildSkipColIndicesTag o.skippedColIndices,
      buildSkipRowIndicesTag o.skippedRowIndices,
      buildColOverflowTag o.colOverflowByRow,
      buildRowOverflowTag o.rowOverflowByCol] → p ≠ [] →
      SafeChunk (payloadM origrangeOpen) p := by
    intro p hp hne
    simp only [List.mem_cons, List.not_mem_nil, or_false] at hp
    rcases hp with rfl | rfl | rfl | rfl | rfl | rfl | rfl | rfl | rfl | rfl | rfl
    · exact safeChunk_buildSkipTag hop (fun w => not_prefix_of_zip_any (by decide) w) _ _ hne
    · exact safeChunk_buildFixedRefTag hop (fun w => not_prefix_of_zip_any (by decide) w) (fun c hc => (hfr c hc).1) hne
    · exact safeChunk_buildDynamicRefTag hop (fun w => not_prefix_of_zip_any (by decide) w) (fun c hc => (hdr c hc).1) hne
    · exact safeChunk_buildLastColTag hop (fun w => not_prefix_of_zip_any (by decide) w) hne
    · exact safeChunk_buildLastRowTag hop (fun w => not_prefix_of_zip_any (by decide) w) hne
    · exact safeChunk_buildExpandRowsTag hop (fun w => not_prefix_of_zip_any (by decide) w) hne
    · exact safeChunk_buildExpandColsTag hop (fun w => not_prefix_of_zip_any (by decide) w) hne
    · exact safeChunk_buildSkipColIndicesTag hop (fun w => not_prefix_of_zip_any (by decide) w) _ hne
    · exact safeChunk_buildSkipRowIndicesTag hop (fun w => not_prefix_of_zip_any (by decide) w) _ hne
    · exact safeChunk_buildColOverflowTag hop (fun w => not_prefix_of_zip_any (by decide) w) _ hne
    · exact safeChunk_buildRowOverflowTag hop (fun w => not_prefix_of_zip_any (by decide) w) (fun kv hkv c hc => ((hrk kv hkv).2 c hc).1) hne
  unfold encodeTags optionTagParts
  have hsplit : [buildSkipTag o.skipRows o.skipCols,
      buildFixedRefTag o.fixedRef,
      buildDynamicRefTag o.dynamicRef,
      buildLastColTag o.lastColOnly,
      buildLastRowTag o.lastRowOnly,
      buildOrigRangeTag o.origRange,
      buildExpandRowsTag o.expandRows,
      buildExpandColsTag o.expandCols,
      buildSkipColIndicesTag o.skippedColIndices,
      buildSkipRowIndicesTag o.skippedRowIndices,
      buildColOverflowTag o.colOverflowByRow,
      buildRowOverflowTag o.rowOverflowByCol] =
      [buildSkipTag o.skipRows o.skipCols,
      buildFixedRefTag o.fixedRef,
      buildDynamicRefTag o.dynamicRef,
      buildLastColTag o.lastColOnly,
      buildLastRowTag o.lastRowOnly] ++
      buildOrigRangeTag o.origRange ::
      [buildExpandRowsTag o.expandRows,
      buildExpandColsTag o.expandCols,
      buildSkipColIndicesTag o.skippedColIndices,
      buildSkipRowIndicesTag o.skippedRowIndices,
      buildColOverflowTag o.colOverflowByRow,
      buildRowOverflowTag o.rowOverflowByCol] := rfl
  rw [hsplit, List.filter_append]
  by_cases hx : o.origRange = []
  · have hempty : buildOrigRangeTag o.origRange = [] := by
      simp [buildOrigRangeTag, hx]
    rw [hempty, filter_ne_cons_nil]
    have hfm := fm_joinSp_all_safe hop hbr
      (([buildSkipTag o.skipRows o.skipCols,
        buildFixedRefTag o.fixedRef,
        buildDynamicRefTag o.dynamicRef,
        buildLastColTag o.lastColOnly,
        buildLastRowTag o.lastRowOnly].filter (fun p => p ≠ [])) ++
        ([buildExpandRowsTag o.expandRows,
        buildExpandColsTag o.expandCols,
        buildSkipColIndicesTag o.skippedColIndices,
        buildSkipRowIndicesTag o.skippedRowIndices,
        buildColOverflowTag o.colOverflowByRow,
        buildRowOverflowTag o.rowOverflowByCol].filter (fun p => p ≠ [])))
      (fun p hp => by
        rcases List.mem_append.mp hp with h1 | h1
        · exact hsafe p (by
        have := List.mem_of_mem_filter h1
        simp only [List.mem_cons, List.mem_singleton, List.not_mem_nil,
          or_false] at this ⊢
        tauto) (by simpa using List.of_mem_filter h1)
        · exact hsafe p (by
        have := List.mem_of_mem_filter h1
        simp only [List.mem_cons, List.mem_singleton, List.not_mem_nil,
          or_false] at this ⊢
        tauto) (by simpa using List.of_mem_filter h1))
    unfold parseOrigRangeTag
    rw [parsePayloadTag_fm_none hfm, hx]
  · have hne : buildOrigRangeTag o.origRange ≠ [] := by
      simp [buildOrigRangeTag, hx]
    rw [filter_ne_cons _ hne]
    have hval : ∀ z, payloadM origrangeOpen (buildOrigRangeTag o.origRange ++ z) =
        some (o.origRange, (origrangeOpen).length + (o.origRange).length + 1) := by
      intro z
      unfold buildOrigRangeTag
      rw [if_neg hx]
      exact payloadM_match origrangeOpen o.origRange z hx
        (fun c hc => (hor c hc).2)
    have hfm2 := fm_joinSp_parts hop hbr
      ([buildSkipTag o.skipRows o.skipCols,
        buildFixedRefTag o.fixedRef,
        buildDynamicRefTag o.dynamicRef,
        buildLastColTag o.lastColOnly,
        buildLastRowTag o.lastRowOnly].filter (fun p => p ≠ []))
      (buildOrigRangeTag o.origRange ::
        ([buildExpandRowsTag o.expandRows,
        buildExpandColsTag o.expandCols,
        buildSkipColIndicesTag o.skippedColIndices,
        buildSkipRowIndicesTag o.skippedRowIndices,
        buildColOverflowTag o.colOverflowByRow,
        buildRowOverflowTag o.rowOverflowByCol].filter (fun p => p ≠ [])))
      (fun p hp => hsafe p (by
        have := List.mem_of_mem_filter hp
        simp only [List.mem_cons, List.mem_singleton, List.not_mem_nil,
          or_false] at this ⊢
        tauto) (by simpa using List.of_mem_filter hp))
    have hfm3 := fm_joinSp_head_some (buildOrigRangeTag o.origRange)
      ([buildExpandRowsTag o.expandRows,
        buildExpandColsTag o.expandCols,
        buildSkipColIndicesTag o.skippedColIndices,
        buildSkipRowIndicesTag o.skippedRowIndices,
        buildColOverflowTag o.colOverflowByRow,
        buildRowOverflowTag o.rowOverflowByCol].filter (fun p => p ≠ []))
      ((o.origRange), (origrangeOpen).length + (o.origRange).length + 1) hval
    unfold parseOrigRangeTag
    rw [parsePayloadTag_fm_some (hfm2.trans hfm3)]


lemma parseLastColTag_encode (o : CompilerOptions) (hwf : WellFormedOptions o) :
    parseLastColTag (encodeTags o) = o.lastColOnly := by
  obtain ⟨hfr, hdr, hor, hrk, _hrn, _hca⟩ := hwf
  have hop := opensWith_litM lastcolTag
  have hbr : (lastcolTag).head? = some '[' := by decide
  have hsafe : ∀ p, p ∈ [buildSkipTag o.skipRows o.skipCols,
      buildFixedRefTag o.fixedRef,
      buildDynamicRefTag o.dynamicRef,
      buildLastRowTag o.lastRowOnly,
      buildOrigRangeTag o.origRange,
      buildExpandRowsTag o.expandRows,
      buildExpandColsTag o.expandCols,
      buildSkipColIndicesTag o.skippedColIndices,
      buildSkipRowIndicesTag o.skippedRowIndices,
      buildColOverflowTag o.colOverflowByRow,
      buildRowOverflowTag o.rowOverflowByCol] → p ≠ [] →
      SafeChunk (litM lastcolTag) p := by
    intro p hp hne
    simp only [List.mem_cons, List.not_mem_nil, or_false] at hp
    rcases hp with rfl | rfl | rfl | rfl | rfl | rfl | rfl | rfl | rfl | rfl | rfl
    · exact safeChunk_buildSkipTag hop (fun w => not_prefix_of_zip_any (by decide) w) _ _ hne
    · exact safeChunk_buildFixedRefTag hop (fun w => not_prefix_of_zip_any (by decide) w) (fun c hc => (hfr c hc).1) hne
    · exact safeChunk_buildDynamicRefTag hop (fun w => not_prefix_of_zip_any (by decide) w) (fun c hc => (hdr c hc).1) hne
    · exact safeChunk_buildLastRowTag hop (fun w => not_prefix_of_zip_any (by decide) w) hne
    · exact safeChunk_buildOrigRangeTag hop (fun w => not_prefix_of_zip_any (by decide) w) (fun c hc => (hor c hc).1) hne
    · exact safeChunk_buildExpandRowsTag hop (fun w => not_prefix_of_zip_any (by decide) w) hne
    · exact safeChunk_buildExpandColsTag hop (fun w => not_prefix_of_zip_any (by decide) w) hne
    · exact safeChunk_buildSkipColIndicesTag hop (fun w => not_prefix_of_zip_any (by decide) w) _ hne
    · exact safeChunk_buildSkipRowIndicesTag hop (fun w => not_prefix_of_zip_any (by decide) w) _ hne
    · exact safeChunk_buildColOverflowTag hop (fun w => not_prefix_of_zip_any (by decide) w) _ hne
    · exact safeChunk_buildRowOverflowTag hop (fun w => not_prefix_of_zip_any (by decide) w) (fun kv hkv c hc => ((hrk kv hkv).2 c hc).1) hne
  unfold encodeTags optionTagParts
  have hsplit : [buildSkipTag o.skipRows o.skipCols,
      buildFixedRefTag o.fixedRef,
      buildDynamicRefTag o.dynamicRef,
      buildLastColTag o.lastColOnly,
      buildLastRowTag o.lastRowOnly,
      buildOrigRangeTag o.origRange,
      buildExpandRowsTag o.expandRows,
      buildExpandColsTag o.expandCols,
      buildSkipColIndicesTag o.skippedColIndices,
      buildSkipRowIndicesTag o.skippedRowIndices,
      buildColOverflowTag o.colOverflowByRow,
      buildRowOverflowTag o.rowOverflowByCol] =
      [buildSkipTag o.skipRows o.skipCols,
      buildFixedRefTag o.fixedRef,
      buildDynamicRefTag o.dynamicRef] ++
      buildLastColTag o.lastColOnly ::
      [buildLastRowTag o.lastRowOnly,
      buildOrigRangeTag o.origRange,
      buildExpandRowsTag o.expandRows,
      buildExpandColsTag o.expandCols,
      buildSkipColIndicesTag o.skippedColIndices,
      buildSkipRowIndicesTag o.skippedRowIndices,
      buildColOverflowTag o.colOverflowByRow,
      buildRowOverflowTag o.rowOverflowByCol] := rfl
  rw [hsplit, List.filter_append]
  cases hx : o.lastColOnly with
  | false =>
    have hempty : buildLastColTag false = [] := by
      simp [buildLastColTag]
    rw [hempty, filter_ne_cons_nil]
    have hfm := fm_joinSp_all_safe hop hbr
      (([buildSkipTag o.skipRows o.skipCols,
        buildFixedRefTag o.fixedRef,
        buildDynamicRefTag o.dynamicRef].filter (fun p => p ≠ [])) ++
        ([buildLastRowTag o.lastRowOnly,
        buildOrigRangeTag o.origRange,
        buildExpandRowsTag o.expandRows,
        buildExpandColsTag o.expandCols,
        buildSkipColIndicesTag o.skippedColIndices,
        buildSkipRowIndicesTag o.skippedRowIndices,
        buildColOverflowTag o.colOverflowByRow,
        buildRowOverflowTag o.rowOverflowByCol].filter (fun p => p ≠ [])))
      (fun p hp => by
        rcases List.mem_append.mp hp with h1 | h1
        · exact hsafe p (by
        have := List.mem_of_mem_filter h1
        simp only [List.mem_cons, List.mem_singleton, List.not_mem_nil,
          or_false] at this ⊢
        tauto) (by simpa using List.of_mem_filter h1)
        · exact hsafe p (by
        have := List.mem_of_mem_filter h1
        simp only [List.mem_cons, List.mem_singleton, List.not_mem_nil,
          or_false] at this ⊢
        tauto) (by simpa using List.of_mem_filter h1))
    unfold parseLastColTag containsSub
    rw [hfm]
    rfl
  | true =>
    have hne : buildLastColTag true ≠ [] := by decide
    rw [filter_ne_cons _ hne]
    have hbt : buildLastColTag true = lastcolTag := rfl
    have hval : ∀ z, litM lastcolTag (buildLastColTag true ++ z) =
        some (lastcolTag).length := by
      intro z
      rw [hbt]
      exact litM_match lastcolTag z
    have hfm2 := fm_joinSp_parts hop hbr
      ([buildSkipTag o.skipRows o.skipCols,
        buildFixedRefTag o.fixedRef,
        buildDynamicRefTag o.dynamicRef].filter (fun p => p ≠ []))
      (buildLastColTag true ::
        ([buildLastRowTag o.lastRowOnly,
        buildOrigRangeTag o.origRange,
        buildExpandRowsTag o.expandRows,
        buildExpandColsTag o.expandCols,
        buildSkipColIndicesTag o.skippedColIndices,
        buildSkipRowIndicesTag o.skippedRowIndices,
        buildColOverflowTag o.colOverflowByRow,
        buildRowOverflowTag o.rowOverflowByCol].filter (fun p => p ≠ [])))
      (fun p hp => hsafe p (by
        have := List.mem_of_mem_filter hp
        simp only [List.mem_cons, List.mem_singleton, List.not_mem_nil,
          or_false] at this ⊢
        tauto) (by simpa using List.of_mem_filter hp))
    have hfm3 := fm_joinSp_head_some (buildLastColTag true)
      ([buildLastRowTag o.lastRowOnly,
        buildOrigRangeTag o.origRange,
        buildExpandRowsTag o.expandRows,
        buildExpandColsTag o.expandCols,
        buildSkipColIndicesTag o.skippedColIndices,
        buildSkipRowIndicesTag o.skippedRowIndices,
        buildColOverflowTag o.colOverflowByRow,
        buildRowOverflowTag o.rowOverflowByCol].filter (fun p => p ≠ []))
      ((lastcolTag).length) hval
    unfold parseLastColTag containsSub
    rw [hfm2.trans hfm3]
    rfl


lemma parseLastRowTag_encode (o : CompilerOptions) (hwf : WellFormedOptions o) :
    parseLastRowTag (encodeTags o) = o.lastRowOnly := by
  obtain ⟨hfr, hdr, hor, hrk, _hrn, _hca⟩ := hwf
  have hop := opensWith_litM lastrowTag
  have hbr : (lastrowTag).head? = some '[' := by decide
  have hsafe : ∀ p, p ∈ [buildSkipTag o.skipRows o.skipCols,
      buildFixedRefTag o.fixedRef,
      buildDynamicRefTag o.dynamicRef,
      buildLastColTag o.lastColOnly,
      buildOrigRangeTag o.origRange,
      buildExpandRowsTag o.expandRows,
      buildExpandColsTag o.expandCols,
      buildSkipColIndicesTag o.skippedColIndices,
      buildSkipRowIndicesTag o.skippedRowIndices,
      buildColOverflowTag o.colOverflowByRow,
      buildRowOverflowTag o.rowOverflowByCol] → p ≠ [] →
      SafeChunk (litM lastrowTag) p := by
    intro p hp hne
    simp only [List.mem_cons, List.not_mem_nil, or_false] at hp
    rcases hp with rfl | rfl | rfl | rfl | rfl | rfl | rfl | rfl | rfl | rfl | rfl
    · exact safeChunk_buildSkipTag hop (fun w => not_prefix_of_zip_any (by decide) w) _ _ hne
    · exact safeChunk_buildFixedRefTag hop (fun w => not_prefix_of_zip_any (by decide) w) (fun c hc => (hfr c hc).1) hne
    · exact safeChunk_buildDynamicRefTag hop (fun w => not_prefix_of_zip_any (by decide) w) (fun c hc => (hdr c hc).1) hne
    · exact safeChunk_buildLastColTag hop (fun w => not_prefix_of_zip_any (by decide) w) hne
    · exact safeChunk_buildOrigRangeTag hop (fun w => not_prefix_of_zip_any (by decide) w) (fun c hc => (hor c hc).1) hne
    · exact safeChunk_buildExpandRowsTag hop (fun w => not_prefix_of_zip_any (by decide) w) hne
    · exact safeChunk_buildExpandColsTag hop (fun w => not_prefix_of_zip_any (by decide) w) hne
    · exact safeChunk_buildSkipColIndicesTag hop (fun w => not_prefix_of_zip_any (by decide) w) _ hne
    · exact safeChunk_buildSkipRowIndicesTag hop (fun w => not_prefix_of_zip_any (by decide) w) _ hne
    · exact safeChunk_buildColOverflowTag hop (fun w => not_prefix_of_zip_any (by decide) w) _ hne
    · exact safeChunk_buildRowOverflowTag hop (fun w => not_prefix_of_zip_any (by decide) w) (fun kv hkv c hc => ((hrk kv hkv).2 c hc).1) hne
  unfold encodeTags optionTagParts
  have hsplit : [buildSkipTag o.skipRows o.skipCols,
      buildFixedRefTag o.fixedRef,
      buildDynamicRefTag o.dynamicRef,
      buildLastColTag o.lastColOnly,
      buildLastRowTag o.lastRowOnly,
      buildOrigRangeTag o.origRange,
      buildExpandRowsTag o.expandRows,
      buildExpandColsTag o.expandCols,
      buildSkipColIndicesTag o.skippedColIndices,
      buildSkipRowIndicesTag o.skippedRowIndices,
      buildColOverflowTag o.colOverflowByRow,
      buildRowOverflowTag o.rowOverflowByCol] =
      [buildSkipTag o.skipRows o.skipCols,
      buildFixedRefTag o.fixedRef,
      buildDynamicRefTag o.dynamicRef,
      buildLastColTag o.lastColOnly] ++
      buildLastRowTag o.lastRowOnly ::
      [buildOrigRangeTag o.origRange,
      buildExpandRowsTag o.expandRows,
      buildExpandColsTag o.expandCols,
      buildSkipColIndicesTag o.skippedColIndices,
      buildSkipRowIndicesTag o.skippedRowIndices,
      buildColOverflowTag o.colOverflowByRow,
      buildRowOverflowTag o.rowOverflowByCol] := rfl
  rw [hsplit, List.filter_append]
  cases hx : o.lastRowOnly with
  | false =>
    have hempty : buildLastRowTag false = [] := by
      simp [buildLastRowTag]
    rw [hempty, filter_ne_cons_nil]
    have hfm := fm_joinSp_all_safe hop hbr
      (([buildSkipTag o.skipRows o.skipCols,
        buildFixedRefTag o.fixedRef,
        buildDynamicRefTag o.dynamicRef,
        buildLastColTag o.lastColOnly].filter (fun p => p ≠ [])) ++
        ([buildOrigRangeTag o.origRange,
        buildExpandRowsTag o.expandRows,
        buildExpandColsTag o.expandCols,
        buildSkipColIndicesTag o.skippedColIndices,
        buildSkipRowIndicesTag o.skippedRowIndices,
        buildColOverflowTag o.colOverflowByRow,
        buildRowOverflowTag o.rowOverflowByCol].filter (fun p => p ≠ [])))
      (fun p hp => by
        rcases List.mem_append.mp hp with h1 | h1
        · exact hsafe p (by
        have := List.mem_of_mem_filter h1
        simp only [List.mem_cons, List.mem_singleton, List.not_mem_nil,
          or_false] at this ⊢
        tauto) (by simpa using List.of_mem_filter h1)
        · exact hsafe p (by
        have := List.mem_of_mem_filter h1
        simp only [List.mem_cons, List.mem_singleton, List.not_mem_nil,
          or_false] at this ⊢
        tauto) (by simpa using List.of_mem_filter h1))
    unfold parseLastRowTag containsSub
    rw [hfm]
    rfl
  | true =>
    have hne : buildLastRowTag true ≠ [] := by decide
    rw [filter_ne_cons _ hne]
    have hbt : buildLastRowTag true = lastrowTag := rfl
    have hval : ∀ z, litM lastrowTag (buildLastRowTag true ++ z) =
        some (lastrowTag).length := by
      intro z
      rw [hbt]
      exact litM_match lastrowTag z
    have hfm2 := fm_joinSp_parts hop hbr
      ([buildSkipTag o.skipRows o.skipCols,
        buildFixedRefTag o.fixedRef,
        buildDynamicRefTag o.dynamicRef,
        buildLastColTag o.lastColOnly].filter (fun p => p ≠ []))
      (buildLastRowTag true ::
        ([buildOrigRangeTag o.origRange,
        buildExpandRowsTag o.expandRows,
        buildExpandColsTag o.expandCols,
        buildSkipColIndicesTag o.skippedColIndices,
        buildSkipRowIndicesTag o.skippedRowIndices,
        buildColOverflowTag o.colOverflowByRow,
        buildRowOverflowTag o.rowOverflowByCol].filter (fun p => p ≠ [])))
      (fun p hp => hsafe p (by
        have := List.mem_of_mem_filter hp
        simp only [List.mem_cons, List.mem_singleton, List.not_mem_nil,
          or_false] at this ⊢
        tauto) (by simpa using List.of_mem_filter hp))
    have hfm3 := fm_joinSp_head_some (buildLastRowTag true)
      ([buildOrigRangeTag o.origRange,
        buildExpandRowsTag o.expandRows,
        buildExpandColsTag o.expandCols,
        buildSkipColIndicesTag o.skippedColIndices,
        buildSkipRowIndicesTag o.skippedRowIndices,
        buildColOverflowTag o.colOverflowByRow,
        buildRowOverflowTag o.rowOverflowByCol].filter (fun p => p ≠ []))
      ((lastrowTag).length) hval
    unfold parseLastRowTag containsSub
    rw [hfm2.trans hfm3]
    rfl


lemma parseExpandRowsTag_encode (o : CompilerOptions) (hwf : WellFormedOptions o) :
    parseExpandRowsTag (encodeTags o) = o.expandRows := by
  obtain ⟨hfr, hdr, hor, hrk, _hrn, _hca⟩ := hwf
  have hop := opensWith_litM expandrowsTag
  have hbr : (expandrowsTag).head? = some '[' := by decide
  have hsafe : ∀ p, p ∈ [buildSkipTag o.skipRows o.skipCols,
      buildFixedRefTag o.fixedRef,
      buildDynamicRefTag o.dynamicRef,
      buildLastColTag o.lastColOnly,
      buildLastRowTag o.lastRowOnly,
      buildOrigRangeTag o.origRange,
      buildExpandColsTag o.expandCols,
      buildSkipColIndicesTag o.skippedColIndices,
      buildSkipRowIndicesTag o.skippedRowIndices,
      buildColOverflowTag o.colOverflowByRow,
      buildRowOverflowTag o.rowOverflowByCol] → p ≠ [] →
      SafeChunk (litM expandrowsTag) p := by
    intro p hp hne
    simp only [List.mem_cons, List.not_mem_nil, or_false] at hp
    rcases hp with rfl | rfl | rfl | rfl | rfl | rfl | rfl | rfl | rfl | rfl | rfl
    · exact safeChunk_buildSkipTag hop (fun w => not_prefix_of_zip_any (by decide) w) _ _ hne
    · exact safeChunk_buildFixedRefTag hop (fun w => not_prefix_of_zip_any (by decide) w) (fun c hc => (hfr c hc).1) hne
    · exact safeChunk_buildDynamicRefTag hop (fun w => not_prefix_of_zip_any (by decide) w) (fun c hc => (hdr c hc).1) hne
    · exact safeChunk_buildLastColTag hop (fun w => not_prefix_of_zip_any (by decide) w) hne
    · exact safeChunk_buildLastRowTag hop (fun w => not_prefix_of_zip_any (by decide) w) hne
    · exact safeChunk_buildOrigRangeTag hop (fun w => not_prefix_of_zip_any (by decide) w) (fun c hc => (hor c hc).1) hne
    · exact safeChunk_buildExpandColsTag hop (fun w => not_prefix_of_zip_any (by decide) w) hne
    · exact safeChunk_buildSkipColIndicesTag hop (fun w => not_prefix_of_zip_any (by decide) w) _ hne
    · exact safeChunk_buildSkipRowIndicesTag hop (fun w => not_prefix_of_zip_any (by decide) w) _ hne
    · exact safeChunk_buildColOverflowTag hop (fun w => not_prefix_of_zip_any (by decide) w) _ hne
    · exact safeChunk_buildRowOverflowTag hop (fun w => not_prefix_of_zip_any (by decide) w) (fun kv hkv c hc => ((hrk kv hkv).2 c hc).1) hne
  unfold encodeTags optionTagParts
  have hsplit : [buildSkipTag o.skipRows o.skipCols,
      buildFixedRefTag o.fixedRef,
      buildDynamicRefTag o.dynamicRef,
      buildLastColTag o.lastColOnly,
      buildLastRowTag o.lastRowOnly,
      buildOrigRangeTag o.origRange,
      buildExpandRowsTag o.expandRows,
      buildExpandColsTag o.expandCols,
      buildSkipColIndicesTag o.skippedColIndices,
      buildSkipRowIndicesTag o.skippedRowIndices,
      buildColOverflowTag o.colOverflowByRow,
      buildRowOverflowTag o.rowOverflowByCol] =
      [buildSkipTag o.skipRows o.skipCols,
      buildFixedRefTag o.fixedRef,
      buildDynamicRefTag o.dynamicRef,
      buildLastColTag o.lastColOnly,
      buildLastRowTag o.lastRowOnly,
      buildOrigRangeTag o.origRange] ++
      buildExpandRowsTag o.expandRows ::
      [buildExpandColsTag o.expandCols,
      buildSkipColIndicesTag o.skippedColIndices,
      buildSkipRowIndicesTag o.skippedRowIndices,
      buildColOverflowTag o.colOverflowByRow,
      buildRowOverflowTag o.rowOverflowByCol] := rfl
  rw [hsplit, List.filter_append]
  cases hx : o.expandRows with
  | false =>
    have hempty : buildExpandRowsTag false = [] := by
      simp [buildExpandRowsTag]
    rw [hempty, filter_ne_cons_nil]
    have hfm := fm_joinSp_all_safe hop hbr
      (([buildSkipTag o.skipRows o.skipCols,
        buildFixedRefTag o.fixedRef,
        buildDynamicRefTag o.dynamicRef,
        buildLastColTag o.lastColOnly,
        buildLastRowTag o.lastRowOnly,
        buildOrigRangeTag o.origRange].filter (fun p => p ≠ [])) ++
        ([buildExpandColsTag o.expandCols,
        buildSkipColIndicesTag o.skippedColIndices,
        buildSkipRowIndicesTag o.skippedRowIndices,
        buildColOverflowTag o.colOverflowByRow,
        buildRowOverflowTag o.rowOverflowByCol].filter (fun p => p ≠ [])))
      (fun p hp => by
        rcases List.mem_append.mp hp with h1 | h1
        · exact hsafe p (by
        have := List.mem_of_mem_filter h1
        simp only [List.mem_cons, List.mem_singleton, List.not_mem_nil,
          or_false] at this ⊢
        tauto) (by simpa using List.of_mem_filter h1)
        · exact hsafe p (by
        have := List.mem_of_mem_filter h1
        simp only [List.mem_cons, List.mem_singleton, List.not_mem_nil,
          or_false] at this ⊢
        tauto) (by simpa using List.of_mem_filter h1))
    unfold parseExpandRowsTag containsSub
    rw [hfm]
    rfl
  | true =>
    have hne : buildExpandRowsTag true ≠ [] := by decide
    rw [filter_ne_cons _ hne]
    have hbt : buildExpandRowsTag true = expandrowsTag := rfl
    have hval : ∀ z, litM expandrowsTag (buildExpandRowsTag true ++ z) =
        some (expandrowsTag).length := by
      intro z
      rw [hbt]
      exact litM_match expandrowsTag z
    have hfm2 := fm_joinSp_parts hop hbr
      ([buildSkipTag o.skipRows o.skipCols,
        buildFixedRefTag o.fixedRef,
        buildDynamicRefTag o.dynamicRef,
        buildLastColTag o.lastColOnly,
        buildLastRowTag o.lastRowOnly,
        buildOrigRangeTag o.origRange].filter (fun p => p ≠ []))
      (buildExpandRowsTag true ::
        ([buildExpandColsTag o.expandCols,
        buildSkipColIndicesTag o.skippedColIndices,
        buildSkipRowIndicesTag o.skippedRowIndices,
        buildColOverflowTag o.colOverflowByRow,
        buildRowOverflowTag o.rowOverflowByCol].filter (fun p => p ≠ [])))
      (fun p hp => hsafe p (by
        have := List.mem_of_mem_filter hp
        simp only [List.mem_cons, List.mem_singleton, List.not_mem_nil,
          or_false] at this ⊢
        tauto) (by simpa using List.of_mem_filter hp))
    have hfm3 := fm_joinSp_head_some (buildExpandRowsTag true)
      ([buildExpandColsTag o.expandCols,
        buildSkipColIndicesTag o.skippedColIndices,
        buildSkipRowIndicesTag o.skippedRowIndices,
        buildColOverflowTag o.colOverflowByRow,
        buildRowOverflowTag o.rowOverflowByCol].filter (fun p => p ≠ []))
      ((expandrowsTag).length) hval
    unfold parseExpandRowsTag containsSub
    rw [hfm2.trans hfm3]
    rfl


lemma parseExpandColsTag_encode (o : CompilerOptions) (hwf : WellFormedOptions o) :
    parseExpandColsTag (encodeTags o) = o.expandCols := by
  obtain ⟨hfr, hdr, hor, hrk, _hrn, _hca⟩ := hwf
  have hop := opensWith_litM expandcolsTag
  have hbr : (expandcolsTag).head? = some '[' := by decide
  have hsafe : ∀ p, p ∈ [buildSkipTag o.skipRows o.skipCols,
      buildFixedRefTag o.fixedRef,
      buildDynamicRefTag o.dynamicRef,
      buildLastColTag o.lastColOnly,
      buildLastRowTag o.lastRowOnly,
      buildOrigRangeTag o.origRange,
      buildExpandRowsTag o.expandRows,
      buildSkipColIndicesTag o.skippedColIndices,
      buildSkipRowIndicesTag o.skippedRowIndices,
      buildColOverflowTag o.colOverflowByRow,
      buildRowOverflowTag o.rowOverflowByCol] → p ≠ [] →
      SafeChunk (litM expandcolsTag) p := by
    intro p hp hne
    simp only [List.mem_cons, List.not_mem_nil, or_false] at hp
    rcases hp with rfl | rfl | rfl | rfl | rfl | rfl | rfl | rfl | rfl | rfl | rfl
    · exact safeChunk_buildSkipTag hop (fun w => not_prefix_of_zip_any (by decide) w) _ _ hne
    · exact safeChunk_buildFixedRefTag hop (fun w => not_prefix_of_zip_any (by decide) w) (fun c hc => (hfr c hc).1) hne
    · exact safeChunk_buildDynamicRefTag hop (fun w => not_prefix_of_zip_any (by decide) w) (fun c hc => (hdr c hc).1) hne
    · exact safeChunk_buildLastColTag hop (fun w => not_prefix_of_zip_any (by decide) w) hne
    · exact safeChunk_buildLastRowTag hop (fun w => not_prefix_of_zip_any (by decide) w) hne
    · exact safeChunk_buildOrigRangeTag hop (fun w => not_prefix_of_zip_any (by decide) w) (fun c hc => (hor c hc).1) hne
    · exact safeChunk_buildExpandRowsTag hop (fun w => not_prefix_of_zip_any (by decide) w) hne
    · exact safeChunk_buildSkipColIndicesTag hop (fun w => not_prefix_of_zip_any (by decide) w) _ hne
    · exact safeChunk_buildSkipRowIndicesTag hop (fun w => not_prefix_of_zip_any (by decide) w) _ hne
    · exact safeChunk_buildColOverflowTag hop (fun w => not_prefix_of_zip_any (by decide) w) _ hne
    · exact safeChunk_buildRowOverflowTag hop (fun w => not_prefix_of_zip_any (by decide) w) (fun kv hkv c hc => ((hrk kv hkv).2 c hc).1) hne
  unfold encodeTags optionTagParts
  have hsplit : [buildSkipTag o.skipRows o.skipCols,
      buildFixedRefTag o.fixedRef,
      buildDynamicRefTag o.dynamicRef,
      buildLastColTag o.lastColOnly,
      buildLastRowTag o.lastRowOnly,
      buildOrigRangeTag o.origRange,
      buildExpandRowsTag o.expandRows,
      buildExpandColsTag o.expandCols,
      buildSkipColIndicesTag o.skippedColIndices,
      buildSkipRowIndicesTag o.skippedRowIndices,
      buildColOverflowTag o.colOverflowByRow,
      buildRowOverflowTag o.rowOverflowByCol] =
      [buildSkipTag o.skipRows o.skipCols,
      buildFixedRefTag o.fixedRef,
      buildDynamicRefTag o.dynamicRef,
      buildLastColTag o.lastColOnly,
      buildLastRowTag o.lastRowOnly,
      buildOrigRangeTag o.origRange,
      buildExpandRowsTag o.expandRows] ++
      buildExpandColsTag o.expandCols ::
      [buildSkipColIndicesTag o.skippedColIndices,
      buildSkipRowIndicesTag o.skippedRowIndices,
      buildColOverflowTag o.colOverflowByRow,
      buildRowOverflowTag o.rowOverflowByCol] := rfl
  rw [hsplit, List.filter_append]
  cases hx : o.expandCols with
  | false =>
    have hempty : buildExpandColsTag false = [] := by
      simp [buildExpandColsTag]
    rw [hempty, filter_ne_cons_nil]
    have hfm := fm_joinSp_all_safe hop hbr
      (([buildSkipTag o.skipRows o.skipCols,
        buildFixedRefTag o.fixedRef,
        buildDynamicRefTag o.dynamicRef,
        buildLastColTag o.lastColOnly,
        buildLastRowTag o.lastRowOnly,
        buildOrigRangeTag o.origRange,
        buildExpandRowsTag o.expandRows].filter (fun p => p ≠ [])) ++
        ([buildSkipColIndicesTag o.skippedColIndices,
        buildSkipRowIndicesTag o.skippedRowIndices,
        buildColOverflowTag o.colOverflowByRow,
        buildRowOverflowTag o.rowOverflowByCol].filter (fun p => p ≠ [])))
      (fun p hp => by
        rcases List.mem_append.mp hp with h1 | h1
        · exact hsafe p (by
        have := List.mem_of_mem_filter h1
        simp only [List.mem_cons, List.mem_singleton, List.not_mem_nil,
          or_false] at this ⊢
        tauto) (by simpa using List.of_mem_filter h1)
        · exact hsafe p (by
        have := List.mem_of_mem_filter h1
        simp only [List.mem_cons, List.mem_singleton, List.not_mem_nil,
          or_false] at this ⊢
        tauto) (by simpa using List.of_mem_filter h1))
    unfold parseExpandColsTag containsSub
    rw [hfm]
    rfl
  | true =>
    have hne : buildExpandColsTag true ≠ [] := by decide
    rw [filter_ne_cons _ hne]
    have hbt : buildExpandColsTag true = expandcolsTag := rfl
    have hval : ∀ z, litM expandcolsTag (buildExpandColsTag true ++ z) =
        some (expandcolsTag).length := by
      intro z
      rw [hbt]
      exact litM_match expandcolsTag z
    have hfm2 := fm_joinSp_parts hop hbr
      ([buildSkipTag o.skipRows o.skipCols,
        buildFixedRefTag o.fixedRef,
        buildDynamicRefTag o.dynamicRef,
        buildLastColTag o.lastColOnly,
        buildLastRowTag o.lastRowOnly,
        buildOrigRangeTag o.origRange,
        buildExpandRowsTag o.expandRows].filter (fun p => p ≠ []))
      (buildExpandColsTag true ::
        ([buildSkipColIndicesTag o.skippedColIndices,
        buildSkipRowIndicesTag o.skippedRowIndices,
        buildColOverflowTag o.colOverflowByRow,
        buildRowOverflowTag o.rowOverflowByCol].filter (fun p => p ≠ [])))
      (fun p hp => hsafe p (by
        have := List.mem_of_mem_filter hp
        simp only [List.mem_cons, List.mem_singleton, List.not_mem_nil,
          or_false] at this ⊢
        tauto) (by simpa using List.of_mem_filter hp))
    have hfm3 := fm_joinSp_head_some (buildExpandColsTag true)
      ([buildSkipColIndicesTag o.skippedColIndices,
        buildSkipRowIndicesTag o.skippedRowIndices,
        buildColOverflowTag o.colOverflowByRow,
        buildRowOverflowTag o.rowOverflowByCol].filter (fun p => p ≠ []))
      ((expandcolsTag).length) hval
    unfold parseExpandColsTag containsSub
    rw [hfm2.trans hfm3]
    rfl


lemma parseSkipColIndicesTag_encode (o : CompilerOptions) (hwf : WellFormedOptions o) :
    parseSkipColIndicesTag (encodeTags o) = o.skippedColIndices := by
  obtain ⟨hfr, hdr, hor, hrk, _hrn, _hca⟩ := hwf
  have hop := opensWith_payloadM skipcidxOpen
  have hbr : (skipcidxOpen).head? = some '[' := by decide
  have hsafe : ∀ p, p ∈ [buildSkipTag o.skipRows o.skipCols,
      buildFixedRefTag o.fixedRef,
      buildDynamicRefTag o.dynamicRef,
      buildLastColTag o.lastColOnly,
      buildLastRowTag o.lastRowOnly,
      buildOrigRangeTag o.origRange,
      buildExpandRowsTag o.expandRows,
      buildExpandColsTag o.expandCols,
      buildSkipRowIndicesTag o.skippedRowIndices,
      buildColOverflowTag o.colOverflowByRow,
      buildRowOverflowTag o.rowOverflowByCol] → p ≠ [] →
      SafeChunk (payloadM skipcidxOpen) p := by
    intro p hp hne
    simp only [List.mem_cons, List.not_mem_nil, or_false] at hp
    rcases hp with rfl | rfl | rfl | rfl | rfl | rfl | rfl | rfl | rfl | rfl | rfl
    · exact safeChunk_buildSkipTag hop (fun w => not_prefix_of_zip_any (by decide) w) _ _ hne
    · exact safeChunk_buildFixedRefTag hop (fun w => not_prefix_of_zip_any (by decide) w) (fun c hc => (hfr c hc).1) hne
    · exact safeChunk_buildDynamicRefTag hop (fun w => not_prefix_of_zip_any (by decide) w) (fun c hc => (hdr c hc).1) hne
    · exact safeChunk_buildLastColTag hop (fun w => not_prefix_of_zip_any (by decide) w) hne
    · exact safeChunk_buildLastRowTag hop (fun w => not_prefix_of_zip_any (by decide) w) hne
    · exact safeChunk_buildOrigRangeTag hop (fun w => not_prefix_of_zip_any (by decide) w) (fun c hc => (hor c hc).1) hne
    · exact safeChunk_buildExpandRowsTag hop (fun w => not_prefix_of_zip_any (by decide) w) hne
    · exact safeChunk_buildExpandColsTag hop (fun w => not_prefix_of_zip_any (by decide) w) hne
    · exact safeChunk_buildSkipRowIndicesTag hop (fun w => not_prefix_of_zip_any (by decide) w) _ hne
    · exact safeChunk_buildColOverflowTag hop (fun w => not_prefix_of_zip_any (by decide) w) _ hne
    · exact safeChunk_buildRowOverflowTag hop (fun w => not_prefix_of_zip_any (by decide) w) (fun kv hkv c hc => ((hrk kv hkv).2 c hc).1) hne
  unfold encodeTags optionTagParts
  have hsplit : [buildSkipTag o.skipRows o.skipCols,
      buildFixedRefTag o.fixedRef,
      buildDynamicRefTag o.dynamicRef,
      buildLastColTag o.lastColOnly,
      buildLastRowTag o.lastRowOnly,
      buildOrigRangeTag o.origRange,
      buildExpandRowsTag o.expandRows,
      buildExpandColsTag o.expandCols,
      buildSkipColIndicesTag o.skippedColIndices,
      buildSkipRowIndicesTag o.skippedRowIndices,
      buildColOverflowTag o.colOverflowByRow,
      buildRowOverflowTag o.rowOverflowByCol] =
      [buildSkipTag o.skipRows o.skipCols,
      buildFixedRefTag o.fixedRef,
      buildDynamicRefTag o.dynamicRef,
      buildLastColTag o.lastColOnly,
      buildLastRowTag o.lastRowOnly,
      buildOrigRangeTag o.origRange,
      buildExpandRowsTag o.expandRows,
      buildExpandColsTag o.expandCols] ++
      buildSkipColIndicesTag o.skippedColIndices ::
      [buildSkipRowIndicesTag o.skippedRowIndices,
      buildColOverflowTag o.colOverflowByRow,
      buildRowOverflowTag o.rowOverflowByCol] := rfl
  rw [hsplit, List.filter_append]
  by_cases hx : o.skippedColIndices = []
  · have hempty : buildSkipColIndicesTag o.skippedColIndices = [] := by
      simp [buildSkipColIndicesTag, hx]
    rw [hempty, filter_ne_cons_nil]
    have hfm := fm_joinSp_all_safe hop hbr
      (([buildSkipTag o.skipRows o.skipCols,
        buildFixedRefTag o.fixedRef,
        buildDynamicRefTag o.dynamicRef,
        buildLastColTag o.lastColOnly,
        buildLastRowTag o.lastRowOnly,
        buildOrigRangeTag o.origRange,
        buildExpandRowsTag o.expandRows,
        buildExpandColsTag o.expandCols].filter (fun p => p ≠ [])) ++
        ([buildSkipRowIndicesTag o.skippedRowIndices,
        buildColOverflowTag o.colOverflowByRow,
        buildRowOverflowTag o.rowOverflowByCol].filter (fun p => p ≠ [])))
      (fun p hp => by
        rcases List.mem_append.mp hp with h1 | h1
        · exact hsafe p (by
        have := List.mem_of_mem_filter h1
        simp only [List.mem_cons, List.mem_singleton, List.not_mem_nil,
          or_false] at this ⊢
        tauto) (by simpa using List.of_mem_filter h1)
        · exact hsafe p (by
        have := List.mem_of_mem_filter h1
        simp only [List.mem_cons, List.mem_singleton, List.not_mem_nil,
          or_false] at this ⊢
        tauto) (by simpa using List.of_mem_filter h1))
    rw [parseSkipColIndicesTag_fm_none hfm, hx]
  · have hne : buildSkipColIndicesTag o.skippedColIndices ≠ [] := by
      simp [buildSkipColIndicesTag, hx]
    rw [filter_ne_cons _ hne]
    have hpayne : joinChar ',' ((o.skippedColIndices).map natDigits) ≠ [] := by
      cases hF : o.skippedColIndices with
      | nil => exact absurd hF hx
      | cons n t =>
        rw [List.map_cons]
        exact joinChar_cons_ne_nil _ (natDigits_ne_nil n)
    have hval : ∀ z, payloadM skipcidxOpen (buildSkipColIndicesTag o.skippedColIndices ++ z) =
        some (joinChar ',' ((o.skippedColIndices).map natDigits), (skipcidxOpen).length + (joinChar ',' ((o.skippedColIndices).map natDigits)).length + 1) := by
      intro z
      unfold buildSkipColIndicesTag
      rw [if_neg hx]
      exact payloadM_match _ _ z hpayne (idx_payload_ne_rb (o.skippedColIndices))
    have hfm2 := fm_joinSp_parts hop hbr
      ([buildSkipTag o.skipRows o.skipCols,
        buildFixedRefTag o.fixedRef,
        buildDynamicRefTag o.dynamicRef,
        buildLastColTag o.lastColOnly,
        buildLastRowTag o.lastRowOnly,
        buildOrigRangeTag o.origRange,
        buildExpandRowsTag o.expandRows,
        buildExpandColsTag o.expandCols].filter (fun p => p ≠ []))
      (buildSkipColIndicesTag o.skippedColIndices ::
        ([buildSkipRowIndicesTag o.skippedRowIndices,
        buildColOverflowTag o.colOverflowByRow,
        buildRowOverflowTag o.rowOverflowByCol].filter (fun p => p ≠ [])))
      (fun p hp => hsafe p (by
        have := List.mem_of_mem_filter hp
        simp only [List.mem_cons, List.mem_singleton, List.not_mem_nil,
          or_false] at this ⊢
        tauto) (by simpa using List.of_mem_filter hp))
    have hfm3 := fm_joinSp_head_some (buildSkipColIndicesTag o.skippedColIndices)
      ([buildSkipRowIndicesTag o.skippedRowIndices,
        buildColOverflowTag o.colOverflowByRow,
        buildRowOverflowTag o.rowOverflowByCol].filter (fun p => p ≠ []))
      ((joinChar ',' ((o.skippedColIndices).map natDigits)), (skipcidxOpen).length + (joinChar ',' ((o.skippedColIndices).map natDigits)).length + 1) hval
    rw [parseSkipColIndicesTag_fm_some (hfm2.trans hfm3)]
    have hcomma : ∀ p ∈ (o.skippedColIndices).map natDigits, ',' ∉ p := by
      intro p hp hc
      rcases List.mem_map.mp hp with ⟨n, _, hpn⟩
      rw [← hpn] at hc
      exact (natDigits_ne_delims hc).2.2.1 rfl
    rw [splitChar_joinChar (by simp [hx]) hcomma]
    exact decode_idx_list _


lemma parseSkipRowIndicesTag_encode (o : CompilerOptions) (hwf : WellFormedOptions o) :
    parseSkipRowIndicesTag (encodeTags o) = o.skippedRowIndices := by
  obtain ⟨hfr, hdr, hor, hrk, _hrn, _hca⟩ := hwf
  have hop := opensWith_payloadM skipridxOpen
  have hbr : (skipridxOpen).head? = some '[' := by decide
  have hsafe : ∀ p, p ∈ [buildSkipTag o.skipRows o.skipCols,
      buildFixedRefTag o.fixedRef,
      buildDynamicRefTag o.dynamicRef,
      buildLastColTag o.lastColOnly,
      buildLastRowTag o.lastRowOnly,
      buildOrigRangeTag o.origRange,
      buildExpandRowsTag o.expandRows,
      buildExpandColsTag o.expandCols,
      buildSkipColIndicesTag o.skippedColIndices,
      buildColOverflowTag o.colOverflowByRow,
      buildRowOverflowTag o.rowOverflowByCol] → p ≠ [] →
      SafeChunk (payloadM skipridxOpen) p := by
    intro p hp hne
    simp only [List.mem_cons, List.not_mem_nil, or_false] at hp
    rcases hp with rfl | rfl | rfl | rfl | rfl | rfl | rfl | rfl | rfl | rfl | rfl
    · exact safeChunk_buildSkipTag hop (fun w => not_prefix_of_zip_any (by decide) w) _ _ hne
    · exact safeChunk_buildFixedRefTag hop (fun w => not_prefix_of_zip_any (by decide) w) (fun c hc => (hfr c hc).1) hne
    · exact safeChunk_buildDynamicRefTag hop (fun w => not_prefix_of_zip_any (by decide) w) (fun c hc => (hdr c hc).1) hne
    · exact safeChunk_buildLastColTag hop (fun w => not_prefix_of_zip_any (by decide) w) hne
    · exact safeChunk_buildLastRowTag hop (fun w => not_prefix_of_zip_any (by decide) w) hne
    · exact safeChunk_buildOrigRangeTag hop (fun w => not_prefix_of_zip_any (by decide) w) (fun c hc => (hor c hc).1) hne
    · exact safeChunk_buildExpandRowsTag hop (fun w => not_prefix_of_zip_any (by decide) w) hne
    · exact safeChunk_buildExpandColsTag hop (fun w => not_prefix_of_zip_any (by decide) w) hne
    · exact safeChunk_buildSkipColIndicesTag hop (fun w => not_prefix_of_zip_any (by decide) w) _ hne
    · exact safeChunk_buildColOverflowTag hop (fun w => not_prefix_of_zip_any (by decide) w) _ hne
    · exact safeChunk_buildRowOverflowTag hop (fun w => not_prefix_of_zip_any (by decide) w) (fun kv hkv c hc => ((hrk kv hkv).2 c hc).1) hne
  unfold encodeTags optionTagParts
  have hsplit : [buildSkipTag o.skipRows o.skipCols,
      buildFixedRefTag o.fixedRef,
      buildDynamicRefTag o.dynamicRef,
      buildLastColTag o.lastColOnly,
      buildLastRowTag o.lastRowOnly,
      buildOrigRangeTag o.origRange,
      buildExpandRowsTag o.expandRows,
      buildExpandColsTag o.expandCols,
      buildSkipColIndicesTag o.skippedColIndices,
      buildSkipRowIndicesTag o.skippedRowIndices,
      buildColOverflowTag o.colOverflowByRow,
      buildRowOverflowTag o.rowOverflowByCol] =
      [buildSkipTag o.skipRows o.skipCols,
      buildFixedRefTag o.fixedRef,
      buildDynamicRefTag o.dynamicRef,
      buildLastColTag o.lastColOnly,
      buildLastRowTag o.lastRowOnly,
      buildOrigRangeTag o.origRange,
      buildExpandRowsTag o.expandRows,
      buildExpandColsTag o.expandCols,
      buildSkipColIndicesTag o.skippedColIndices] ++
      buildSkipRowIndicesTag o.skippedRowIndices ::
      [buildColOverflowTag o.colOverflowByRow,
      buildRowOverflowTag o.rowOverflowByCol] := rfl
  rw [hsplit, List.filter_append]
  by_cases hx : o.skippedRowIndices = []
  · have hempty : buildSkipRowIndicesTag o.skippedRowIndices = [] := by
      simp [buildSkipRowIndicesTag, hx]
    rw [hempty, filter_ne_cons_nil]
    have hfm := fm_joinSp_all_safe hop hbr
      (([buildSkipTag o.skipRows o.skipCols,
        buildFixedRefTag o.fixedRef,
        buildDynamicRefTag o.dynamicRef,
        buildLastColTag o.lastColOnly,
        buildLastRowTag o.lastRowOnly,
        buildOrigRangeTag o.origRange,
        buildExpandRowsTag o.expandRows,
        buildExpandColsTag o.expandCols,
        buildSkipColIndicesTag o.skippedColIndices].filter (fun p => p ≠ [])) ++
        ([buildColOverflowTag o.colOverflowByRow,
        buildRowOverflowTag o.rowOverflowByCol].filter (fun p => p ≠ [])))
      (fun p hp => by
        rcases List.mem_append.mp hp with h1 | h1
        · exact hsafe p (by
        have := List.mem_of_mem_filter h1
        simp only [List.mem_cons, List.mem_singleton, List.not_mem_nil,
          or_false] at this ⊢
        tauto) (by simpa using List.of_mem_filter h1)
        · exact hsafe p (by
        have := List.mem_of_mem_filter h1
        simp only [List.mem_cons, List.mem_singleton, List.not_mem_nil,
          or_false] at this ⊢
        tauto) (by simpa using List.of_mem_filter h1))
    rw [parseSkipRowIndicesTag_fm_none hfm, hx]
  · have hne : buildSkipRowIndicesTag o.skippedRowIndices ≠ [] := by
      simp [buildSkipRowIndicesTag, hx]
    rw [filter_ne_cons _ hne]
    have hpayne : joinChar ',' ((o.skippedRowIndices).map natDigits) ≠ [] := by
      cases hF : o.skippedRowIndices with
      | nil => exact absurd hF hx
      | cons n t =>
        rw [List.map_cons]
        exact joinChar_cons_ne_nil _ (natDigits_ne_nil n)
    have hval : ∀ z, payloadM skipridxOpen (buildSkipRowIndicesTag o.skippedRowIndices ++ z) =
        some (joinChar ',' ((o.skippedRowIndices).map natDigits), (skipridxOpen).length + (joinChar ',' ((o.skippedRowIndices).map natDigits)).length + 1) := by
      intro z
      unfold buildSkipRowIndicesTag
      rw [if_neg hx]
      exact payloadM_match _ _ z hpayne (idx_payload_ne_rb (o.skippedRowIndices))
    have hfm2 := fm_joinSp_parts hop hbr
      ([buildSkipTag o.skipRows o.skipCols,
        buildFixedRefTag o.fixedRef,
        buildDynamicRefTag o.dynamicRef,
        buildLastColTag o.lastColOnly,
        buildLastRowTag o.lastRowOnly,
        buildOrigRangeTag o.origRange,
        buildExpandRowsTag o.expandRows,
        buildExpandColsTag o.expandCols,
        buildSkipColIndicesTag o.skippedColIndices].filter (fun p => p ≠ []))
      (buildSkipRowIndicesTag o.skippedRowIndices ::
        ([buildColOverflowTag o.colOverflowByRow,
        buildRowOverflowTag o.rowOverflowByCol].filter (fun p => p ≠ [])))
      (fun p hp => hsafe p (by
        have := List.mem_of_mem_filter hp
        simp only [List.mem_cons, List.mem_singleton, List.not_mem_nil,
          or_false] at this ⊢
        tauto) (by simpa using List.of_mem_filter hp))
    have hfm3 := fm_joinSp_head_some (buildSkipRowIndicesTag o.skippedRowIndices)
      ([buildColOverflowTag o.colOverflowByRow,
        buildRowOverflowTag o.rowOverflowByCol].filter (fun p => p ≠ []))
      ((joinChar ',' ((o.skippedRowIndices).map natDigits)), (skipridxOpen).length + (joinChar ',' ((o.skippedRowIndices).map natDigits)).length + 1) hval
    rw [parseSkipRowIndicesTag_fm_some (hfm2.trans hfm3)]
    have hcomma : ∀ p ∈ (o.skippedRowIndices).map natDigits, ',' ∉ p := by
      intro p hp hc
      rcases List.mem_map.mp hp with ⟨n, _, hpn⟩
      rw [← hpn] at hc
      exact (natDigits_ne_delims hc).2.2.1 rfl
    rw [splitChar_joinChar (by simp [hx]) hcomma]
    exact decode_idx_list _


lemma parseColOverflowTag_encode (o : CompilerOptions) (hwf : WellFormedOptions o) :
    parseColOverflowTag (encodeTags o) = o.colOverflowByRow := by
  obtain ⟨hfr, hdr, hor, hrk, _hrn, _hca⟩ := hwf
  have hop := opensWith_payloadM coloverflowOpen
  have hbr : (coloverflowOpen).head? = some '[' := by decide
  have hsafe : ∀ p, p ∈ [buildSkipTag o.skipRows o.skipCols,
      buildFixedRefTag o.fixedRef,
      buildDynamicRefTag o.dynamicRef,
      buildLastColTag o.lastColOnly,
      buildLastRowTag o.lastRowOnly,
      buildOrigRangeTag o.origRange,
      buildExpandRowsTag o.expandRows,
      buildExpandColsTag o.expandCols,
      buildSkipColIndicesTag o.skippedColIndices,
      buildSkipRowIndicesTag o.skippedRowIndices,
      buildRowOverflowTag o.rowOverflowByCol] → p ≠ [] →
      SafeChunk (payloadM coloverflowOpen) p := by
    intro p hp hne
    simp only [List.mem_cons, List.not_mem_nil, or_false] at hp
    rcases hp with rfl | rfl | rfl | rfl | rfl | rfl | rfl | rfl | rfl | rfl | rfl
    · exact safeChunk_buildSkipTag hop (fun w => not_prefix_of_zip_any (by decide) w) _ _ hne
    · exact safeChunk_buildFixedRefTag hop (fun w => not_prefix_of_zip_any (by decide) w) (fun c hc => (hfr c hc).1) hne
    · exact safeChunk_buildDynamicRefTag hop (fun w => not_prefix_of_zip_any (by decide) w) (fun c hc => (hdr c hc).1) hne
    · exact safeChunk_buildLastColTag hop (fun w => not_prefix_of_zip_any (by decide) w) hne
    · exact safeChunk_buildLastRowTag hop (fun w => not_prefix_of_zip_any (by decide) w) hne
    · exact safeChunk_buildOrigRangeTag hop (fun w => not_prefix_of_zip_any (by decide) w) (fun c hc => (hor c hc).1) hne
    · exact safeChunk_buildExpandRowsTag hop (fun w => not_prefix_of_zip_any (by decide) w) hne
    · exact safeChunk_buildExpandColsTag hop (fun w => not_prefix_of_zip_any (by decide) w) hne
    · exact safeChunk_buildSkipColIndicesTag hop (fun w => not_prefix_of_zip_any (by decide) w) _ hne
    · exact safeChunk_buildSkipRowIndicesTag hop (fun w => not_prefix_of_zip_any (by decide) w) _ hne
    · exact safeChunk_buildRowOverflowTag hop (fun w => not_prefix_of_zip_any (by decide) w) (fun kv hkv c hc => ((hrk kv hkv).2 c hc).1) hne
  unfold encodeTags optionTagParts
  have hsplit : [buildSkipTag o.skipRows o.skipCols,
      buildFixedRefTag o.fixedRef,
      buildDynamicRefTag o.dynamicRef,
      buildLastColTag o.lastColOnly,
      buildLastRowTag o.lastRowOnly,
      buildOrigRangeTag o.origRange,
      buildExpandRowsTag o.expandRows,
      buildExpandColsTag o.expandCols,
      buildSkipColIndicesTag o.skippedColIndices,
      buildSkipRowIndicesTag o.skippedRowIndices,
      buildColOverflowTag o.colOverflowByRow,
      buildRowOverflowTag o.rowOverflowByCol] =
      [buildSkipTag o.skipRows o.skipCols,
      buildFixedRefTag o.fixedRef,
      buildDynamicRefTag o.dynamicRef,
      buildLastColTag o.lastColOnly,
      buildLastRowTag o.lastRowOnly,
      buildOrigRangeTag o.origRange,
      buildExpandRowsTag o.expandRows,
      buildExpandColsTag o.expandCols,
      buildSkipColIndicesTag o.skippedColIndices,
      buildSkipRowIndicesTag o.skippedRowIndices] ++
      buildColOverflowTag o.colOverflowByRow ::
      [buildRowOverflowTag o.rowOverflowByCol] := rfl
  rw [hsplit, List.filter_append]
  by_cases hx : o.colOverflowByRow = []
  · have hempty : buildColOverflowTag o.colOverflowByRow = [] := by
      simp [buildColOverflowTag, hx]
    rw [hempty, filter_ne_cons_nil]
    have hfm := fm_joinSp_all_safe hop hbr
      (([buildSkipTag o.skipRows o.skipCols,
        buildFixedRefTag o.fixedRef,
        buildDynamicRefTag o.dynamicRef,
        buildLastColTag o.lastColOnly,
        buildLastRowTag o.lastRowOnly,
        buildOrigRangeTag o.origRange,
        buildExpandRowsTag o.expandRows,
        buildExpandColsTag o.expandCols,
        buildSkipColIndicesTag o.skippedColIndices,
        buildSkipRowIndicesTag o.skippedRowIndices].filter (fun p => p ≠ [])) ++
        ([buildRowOverflowTag o.rowOverflowByCol].filter (fun p => p ≠ [])))
      (fun p hp => by
        rcases List.mem_append.mp hp with h1 | h1
        · exact hsafe p (by
        have := List.mem_of_mem_filter h1
        simp only [List.mem_cons, List.mem_singleton, List.not_mem_nil,
          or_false] at this ⊢
        tauto) (by simpa using List.of_mem_filter h1)
        · exact hsafe p (by
        have := List.mem_of_mem_filter h1
        simp only [List.mem_cons, List.mem_singleton, List.not_mem_nil,
          or_false] at this ⊢
        tauto) (by simpa using List.of_mem_filter h1))
    rw [parseColOverflowTag_fm_none hfm, hx]
  · have hne : buildColOverflowTag o.colOverflowByRow ≠ [] := by
      simp [buildColOverflowTag, hx]
    rw [filter_ne_cons _ hne]
    have hkeysE : ∀ kv ∈ o.colOverflowByRow.map
        (fun kv => (natDigits kv.1, kv.2)), ∀ c ∈ kv.1, c ≠ ']' := by
      intro kv hkv c hc
      rcases List.mem_map.mp hkv with ⟨kv0, _, hkv0⟩
      rw [← hkv0] at hc
      have hc2 : c ∈ natDigits kv0.1 := hc
      exact (natDigits_ne_delims hc2).2.1
    have hpayne : encodeOverflow (o.colOverflowByRow.map (fun kv => (natDigits kv.1, kv.2))) ≠ [] := by
      cases hF : o.colOverflowByRow with
      | nil => exact absurd hF hx
      | cons kv0 t =>
        rw [List.map_cons]
        exact encodeOverflow_cons_ne_nil _ _ (natDigits_ne_nil kv0.1)
    have hval : ∀ z, payloadM coloverflowOpen (buildColOverflowTag o.colOverflowByRow ++ z) =
        some (encodeOverflow (o.colOverflowByRow.map (fun kv => (natDigits kv.1, kv.2))), coloverflowOpen.length + (encodeOverflow (o.colOverflowByRow.map (fun kv => (natDigits kv.1, kv.2)))).length + 1) := by
      intro z
      unfold buildColOverflowTag
      rw [if_neg hx]
      exact payloadM_match _ _ z hpayne (overflow_payload_ne_rb hkeysE)
    have hfm2 := fm_joinSp_parts hop hbr
      ([buildSkipTag o.skipRows o.skipCols,
        buildFixedRefTag o.fixedRef,
        buildDynamicRefTag o.dynamicRef,
        buildLastColTag o.lastColOnly,
        buildLastRowTag o.lastRowOnly,
        buildOrigRangeTag o.origRange,
        buildExpandRowsTag o.expandRows,
        buildExpandColsTag o.expandCols,
        buildSkipColIndicesTag o.skippedColIndices,
        buildSkipRowIndicesTag o.skippedRowIndices].filter (fun p => p ≠ []))
      (buildColOverflowTag o.colOverflowByRow ::
        ([buildRowOverflowTag o.rowOverflowByCol].filter (fun p => p ≠ [])))
      (fun p hp => hsafe p (by
        have := List.mem_of_mem_filter hp
        simp only [List.mem_cons, List.mem_singleton, List.not_mem_nil,
          or_false] at this ⊢
        tauto) (by simpa using List.of_mem_filter hp))
    have hfm3 := fm_joinSp_head_some (buildColOverflowTag o.colOverflowByRow)
      ([buildRowOverflowTag o.rowOverflowByCol].filter (fun p => p ≠ []))
      ((encodeOverflow (o.colOverflowByRow.map (fun kv => (natDigits kv.1, kv.2)))), coloverflowOpen.length + (encodeOverflow (o.colOverflowByRow.map (fun kv => (natDigits kv.1, kv.2)))).length + 1) hval
    rw [parseColOverflowTag_fm_some (hfm2.trans hfm3)]
    have hhead : ¬ (encodeOverflow (o.colOverflowByRow.map (fun kv => (natDigits kv.1, kv.2)))).head? = some lbraceCh := by
      cases hF : o.colOverflowByRow with
      | nil => exact absurd hF hx
      | cons kv0 t =>
        rw [List.map_cons,
          encodeOverflow_head _ _ (natDigits_ne_nil kv0.1)]
        cases hD : natDigits kv0.1 with
        | nil => exact absurd hD (natDigits_ne_nil kv0.1)
        | cons d t2 =>
          intro he
          have hd : d ∈ natDigits kv0.1 := by
            rw [hD]
            simp
          exact (natDigits_ne_delims hd).2.2.2.2.2 (Option.some.inj he)
    rw [if_neg hhead]
    have hdec := decodeOverflow_encodeOverflow
      (o.colOverflowByRow.map (fun kv => (natDigits kv.1, kv.2)))
      (by
        intro kv hkv
        rcases List.mem_map.mp hkv with ⟨kv0, _, hkv0⟩
        constructor
        · rw [← hkv0]
          exact natDigits_ne_nil kv0.1
        · intro c hc
          rw [← hkv0] at hc
          have hc2 : c ∈ natDigits kv0.1 := hc
          exact ⟨(natDigits_ne_delims hc2).2.2.1,
            (natDigits_ne_delims hc2).2.2.2.1,
            (natDigits_ne_delims hc2).2.2.2.2.1⟩)
    rw [hdec]
    exact decode_col_entries o.colOverflowByRow


lemma parseRowOverflowTag_encode (o : CompilerOptions) (hwf : WellFormedOptions o) :
    parseRowOverflowTag (encodeTags o) = o.rowOverflowByCol := by
  obtain ⟨hfr, hdr, hor, hrk, _hrn, _hca⟩ := hwf
  have hop := opensWith_payloadM rowoverflowOpen
  have hbr : (rowoverflowOpen).head? = some '[' := by decide
  have hsafe : ∀ p, p ∈ [buildSkipTag o.skipRows o.skipCols,
      buildFixedRefTag o.fixedRef,
      buildDynamicRefTag o.dynamicRef,
      buildLastColTag o.lastColOnly,
      buildLastRowTag o.lastRowOnly,
      buildOrigRangeTag o.origRange,
      buildExpandRowsTag o.expandRows,
      buildExpandColsTag o.expandCols,
      buildSkipColIndicesTag o.skippedColIndices,
      buildSkipRowIndicesTag o.skippedRowIndices,
      buildColOverflowTag o.colOverflowByRow] → p ≠ [] →
      SafeChunk (payloadM rowoverflowOpen) p := by
    intro p hp hne
    simp only [List.mem_cons, List.not_mem_nil, or_false] at hp
    rcases hp with rfl | rfl | rfl | rfl | rfl | rfl | rfl | rfl | rfl | rfl | rfl
    · exact safeChunk_buildSkipTag hop (fun w => not_prefix_of_zip_any (by decide) w) _ _ hne
    · exact safeChunk_buildFixedRefTag hop (fun w => not_prefix_of_zip_any (by decide) w) (fun c hc => (hfr c hc).1) hne
    · exact safeChunk_buildDynamicRefTag hop (fun w => not_prefix_of_zip_any (by decide) w) (fun c hc => (hdr c hc).1) hne
    · exact safeChunk_buildLastColTag hop (fun w => not_prefix_of_zip_any (by decide) w) hne
    · exact safeChunk_buildLastRowTag hop (fun w => not_prefix_of_zip_any (by decide) w) hne
    · exact safeChunk_buildOrigRangeTag hop (fun w => not_prefix_of_zip_any (by decide) w) (fun c hc => (hor c hc).1) hne
    · exact safeChunk_buildExpandRowsTag hop (fun w => not_prefix_of_zip_any (by decide) w) hne
    · exact safeChunk_buildExpandColsTag hop (fun w => not_prefix_of_zip_any (by decide) w) hne
    · exact safeChunk_buildSkipColIndicesTag hop (fun w => not_prefix_of_zip_any (by decide) w) _ hne
    · exact safeChunk_buildSkipRowIndicesTag hop (fun w => not_prefix_of_zip_any (by decide) w) _ hne
    · exact safeChunk_buildColOverflowTag hop (fun w => not_prefix_of_zip_any (by decide) w) _ hne
  unfold encodeTags optionTagParts
  have hsplit : [buildSkipTag o.skipRows o.skipCols,
      buildFixedRefTag o.fixedRef,
      buildDynamicRefTag o.dynamicRef,
      buildLastColTag o.lastColOnly,
      buildLastRowTag o.lastRowOnly,
      buildOrigRangeTag o.origRange,
      buildExpandRowsTag o.expandRows,
      buildExpandColsTag o.expandCols,
      buildSkipColIndicesTag o.skippedColIndices,
      buildSkipRowIndicesTag o.skippedRowIndices,
      buildColOverflowTag o.colOverflowByRow,
      buildRowOverflowTag o.rowOverflowByCol] =
      [buildSkipTag o.skipRows o.skipCols,
      buildFixedRefTag o.fixedRef,
      buildDynamicRefTag o.dynamicRef,
      buildLastColTag o.lastColOnly,
      buildLastRowTag o.lastRowOnly,
      buildOrigRangeTag o.origRange,
      buildExpandRowsTag o.expandRows,
      buildExpandColsTag o.expandCols,
      buildSkipColIndicesTag o.skippedColIndices,
      buildSkipRowIndicesTag o.skippedRowIndices,
      buildColOverflowTag o.colOverflowByRow] ++
      buildRowOverflowTag o.rowOverflowByCol ::
      [] := rfl
  rw [hsplit, List.filter_append]
  by_cases hx : o.rowOverflowByCol = []
  · have hempty : buildRowOverflowTag o.rowOverflowByCol = [] := by
      simp [buildRowOverflowTag, hx]
    rw [hempty, filter_ne_cons_nil]
    have hfm := fm_joinSp_all_safe hop hbr
      (([buildSkipTag o.skipRows o.skipCols,
        buildFixedRefTag o.fixedRef,
        buildDynamicRefTag o.dynamicRef,
        buildLastColTag o.lastColOnly,
        buildLastRowTag o.lastRowOnly,
        buildOrigRangeTag o.origRange,
        buildExpandRowsTag o.expandRows,
        buildExpandColsTag o.expandCols,
        buildSkipColIndicesTag o.skippedColIndices,
        buildSkipRowIndicesTag o.skippedRowIndices,
        buildColOverflowTag o.colOverflowByRow].filter (fun p => p ≠ [])) ++
        ([].filter (fun p => p ≠ [])))
      (fun p hp => by
        rcases List.mem_append.mp hp with h1 | h1
        · exact hsafe p (by
        have := List.mem_of_mem_filter h1
        simp only [List.mem_cons, List.mem_singleton, List.not_mem_nil,
          or_false] at this ⊢
        tauto) (by simpa using List.of_mem_filter h1)
        · exact absurd h1 (by simp))
    rw [parseRowOverflowTag_fm_none hfm, hx]
  · have hne : buildRowOverflowTag o.rowOverflowByCol ≠ [] := by
      simp [buildRowOverflowTag, hx]
    rw [filter_ne_cons _ hne]
    have hpayne : encodeOverflow o.rowOverflowByCol ≠ [] := by
      cases hF : o.rowOverflowByCol with
      | nil => exact absurd hF hx
      | cons kv0 t =>
        have hmem : kv0 ∈ o.rowOverflowByCol := by
          rw [hF]
          simp
        exact encodeOverflow_cons_ne_nil _ _ (hrk kv0 hmem).1
    have hval : ∀ z, payloadM rowoverflowOpen (buildRowOverflowTag o.rowOverflowByCol ++ z) =
        some (encodeOverflow o.rowOverflowByCol, rowoverflowOpen.length + (encodeOverflow o.rowOverflowByCol).length + 1) := by
      intro z
      unfold buildRowOverflowTag
      rw [if_neg hx]
      exact payloadM_match _ _ z hpayne
        (overflow_payload_ne_rb (fun kv hkv c hc => ((hrk kv hkv).2 c hc).2.1))
    have hfm2 := fm_joinSp_parts hop hbr
      ([buildSkipTag o.skipRows o.skipCols,
        buildFixedRefTag o.fixedRef,
        buildDynamicRefTag o.dynamicRef,
        buildLastColTag o.lastColOnly,
        buildLastRowTag o.lastRowOnly,
        buildOrigRangeTag o.origRange,
        buildExpandRowsTag o.expandRows,
        buildExpandColsTag o.expandCols,
        buildSkipColIndicesTag o.skippedColIndices,
        buildSkipRowIndicesTag o.skippedRowIndices,
        buildColOverflowTag o.colOverflowByRow].filter (fun p => p ≠ []))
      (buildRowOverflowTag o.rowOverflowByCol ::
        ([].filter (fun p => p ≠ [])))
      (fun p hp => hsafe p (by
        have := List.mem_of_mem_filter hp
        simp only [List.mem_cons, List.mem_singleton, List.not_mem_nil,
          or_false] at this ⊢
        tauto) (by simpa using List.of_mem_filter hp))
    have hfm3 := fm_joinSp_head_some (buildRowOverflowTag o.rowOverflowByCol)
      ([].filter (fun p => p ≠ []))
      ((encodeOverflow o.rowOverflowByCol), rowoverflowOpen.length + (encodeOverflow o.rowOverflowByCol).length + 1) hval
    rw [parseRowOverflowTag_fm_some (hfm2.trans hfm3)]
    have hhead : ¬ (encodeOverflow o.rowOverflowByCol).head? = some lbraceCh := by
      cases hF : o.rowOverflowByCol with
      | nil => exact absurd hF hx
      | cons kv0 t =>
        have hmem : kv0 ∈ o.rowOverflowByCol := by
          rw [hF]
          simp
        rw [encodeOverflow_head _ _ (hrk kv0 hmem).1]
        cases hD : kv0.1 with
        | nil => exact absurd hD (hrk kv0 hmem).1
        | cons d t2 =>
          intro he
          have hd : d ∈ kv0.1 := by
            rw [hD]
            simp
          exact ((hrk kv0 hmem).2 d hd).2.2.2.2.2 (Option.some.inj he)
    rw [if_neg hhead]
    exact decodeOverflow_encodeOverflow o.rowOverflowByCol
      (fun kv hkv => ⟨(hrk kv hkv).1, fun c hc =>
        ⟨((hrk kv hkv).2 c hc).2.2.1,
         ((hrk kv hkv).2 c hc).2.2.2.1,
         ((hrk kv hkv).2 c hc).2.2.2.2.1⟩⟩)


/-- C2 (amended): for every *well-formed* options value — payload fields
free of the square brackets the tag grammar reserves, row-overflow keys
free of the codec's delimiter characters, distinct and (for the
integer-keyed map) in the host's ascending enumeration order — decoding
the encoded tag string recovers every field, absent tags decode to the
defaults, and encoding the all-default options emits the empty string.
(Unrestricted options break the law: see the counterexample.) -/
theorem c2_roundtrip (o : CompilerOptions) (hwf : WellFormedOptions o) :
    decodeOptions (encodeTags o) = o ∧ encodeTags defaultOptions = [] := by
  constructor
  · unfold decodeOptions
    rw [parseSkipTag_encode o hwf, parseFixedRefTag_encode o hwf,
      parseDynamicRefTag_encode o hwf, parseLastColTag_encode o hwf,
      parseLastRowTag_encode o hwf, parseOrigRangeTag_encode o hwf,
      parseExpandRowsTag_encode o hwf, parseExpandColsTag_encode o hwf,
      parseSkipColIndicesTag_encode o hwf, parseSkipRowIndicesTag_encode o hwf,
      parseColOverflowTag_encode o hwf, parseRowOverflowTag_encode o hwf]
  · rfl

/-- Witness: `c2_roundtrip` applied to a concrete options value hitting
all thirteen fields. -/
theorem c2_roundtrip_witness :
    WellFormedOptions ⟨1, 2, chars "Sheet1!$A$1:$B$5", chars "$C$1:$D$5",
        true, true, chars "$A$1:$D$10", true, true, [2, 5], [3],
        [(1, 2), (3, 4)], [(chars "AB", 2)]⟩ ∧
      (decodeOptions (encodeTags
        ⟨1, 2, chars "Sheet1!$A$1:$B$5", chars "$C$1:$D$5",
          true, true, chars "$A$1:$D$10", true, true, [2, 5], [3],
          [(1, 2), (3, 4)], [(chars "AB", 2)]⟩) =
        ⟨1, 2, chars "Sheet1!$A$1:$B$5", chars "$C$1:$D$5",
          true, true, chars "$A$1:$D$10", true, true, [2, 5], [3],
          [(1, 2), (3, 4)], [(chars "AB", 2)]⟩ ∧
        encodeTags defaultOptions = []) :=
  ⟨by
    unfold WellFormedOptions BracketFree KeySafe
    exact ⟨by decide, by decide, by decide, by decide, by decide, by simp⟩,
   c2_roundtrip _ (by
    unfold WellFormedOptions BracketFree KeySafe
    exact ⟨by decide, by decide, by decide, by decide, by decide, by simp⟩)⟩

lemma replaceOnce_nil (m : List Char → Option Nat) : replaceOnce m [] = [] := by
  cases h : m [] <;> simp [replaceOnce, h]

lemma replaceOnce_cons_none {m : List Char → Option Nat} {c : Char}
    {t : List Char} (h : m (c :: t) = none) :
    replaceOnce m (c :: t) = c :: replaceOnce m t := by
  simp [replaceOnce, h]

lemma replaceOnce_match {m : List Char → Option Nat} {s : List Char} {n : Nat}
    (h : m s = some n) : replaceOnce m s = s.drop n := by
  cases s with
  | nil => simp [replaceOnce, h]
  | cons c t => simp [replaceOnce, h]

lemma replaceOnce_chunk_no_lb {m : List Char → Option Nat} {openM : List Char}
    (hop : OpensWith m openM) (hbr : openM.head? = some '[')
    {p : List Char} (hp : ∀ c ∈ p, c ≠ '[') (rest : List Char) :
    replaceOnce m (p ++ rest) = p ++ replaceOnce m rest := by
  induction p with
  | nil => simp
  | cons c t ih =>
    rw [List.cons_append,
      replaceOnce_cons_none (m_none_of_head hop hbr (hp c (by simp)) _),
      ih (fun d hd => hp d (by simp [hd]))]
    rfl

lemma replaceOnce_safeChunk {m : List Char → Option Nat} {openM : List Char}
    (hop : OpensWith m openM) (hbr : openM.head? = some '[')
    {p : List Char} (hs : SafeChunk m p) (rest : List Char) :
    replaceOnce m (p ++ rest) = p ++ replaceOnce m rest := by
  cases p with
  | nil => simp
  | cons c t =>
    rw [List.cons_append, replaceOnce_cons_none (by
      have h0 := hs.1 rest
      rwa [List.cons_append] at h0)]
    have ht : ∀ d ∈ t, d ≠ '[' := fun d hd => hs.2 d (by simpa using hd)
    rw [replaceOnce_chunk_no_lb hop hbr ht rest]
    rfl

lemma replaceOnce_tail_only {m : List Char → Option Nat} {openM : List Char}
    (hop : OpensWith m openM) (hbr : openM.head? = some '[')
    {u : List Char} (hu : ∀ c ∈ u, c ≠ '[') :
    replaceOnce m u = u := by
  have h := replaceOnce_chunk_no_lb hop hbr hu []
  rw [List.append_nil, replaceOnce_nil, List.append_nil] at h
  exact h

lemma replaceOnce_joinSp_safe {m : List Char → Option Nat} {openM : List Char}
    (hop : OpensWith m openM) (hbr : openM.head? = some '[')
    (C : List (List Char)) (hC : ∀ p ∈ C, SafeChunk m p)
    {u : List Char} (hu : ∀ c ∈ u, c ≠ '[') :
    replaceOnce m (joinSp C ++ ' ' :: u) = joinSp C ++ ' ' :: u := by
  have husp : ∀ c ∈ ' ' :: u, c ≠ '[' := by
    intro c hc
    rcases List.mem_cons.mp hc with rfl | hc2
    · decide
    · exact hu c hc2
  induction C with
  | nil =>
    exact replaceOnce_tail_only hop hbr husp
  | cons p D ih =>
    cases D with
    | nil =>
      show replaceOnce m (p ++ ' ' :: u) = p ++ ' ' :: u
      rw [replaceOnce_safeChunk hop hbr (hC p (by simp)) (' ' :: u),
        replaceOnce_tail_only hop hbr husp]
    | cons q E =>
      have hj : joinSp (p :: q :: E) = p ++ ' ' :: joinSp (q :: E) := rfl
      rw [hj, List.append_assoc, List.cons_append]
      rw [replaceOnce_safeChunk hop hbr (hC p (by simp))
        (' ' :: (joinSp (q :: E) ++ ' ' :: u))]
      rw [replaceOnce_cons_none (m_none_of_head hop hbr (by decide) _)]
      rw [ih (fun r hr => hC r (by simp [hr]))]

lemma trimList_spaces_prepend (ws : List Char) (hws : ∀ c ∈ ws, c = ' ')
    (u : List Char) : trimList (ws ++ ' ' :: u) = trimList u := by
  unfold trimList
  have h : (ws ++ ' ' :: u).dropWhile isJsWs = u.dropWhile isJsWs := by
    induction ws with
    | nil =>
      show (' ' :: u).dropWhile isJsWs = u.dropWhile isJsWs
      rw [List.dropWhile_cons]
      simp [isJsWs]
    | cons c t ih =>
      have hc : c = ' ' := hws c (by simp)
      subst hc
      rw [List.cons_append, List.dropWhile_cons]
      simp only [isJsWs]
      rw [if_pos (by decide)]
      exact ih (fun d hd => hws d (by simp [hd]))
  rw [h]

lemma skipLenM_exact (a b : Nat) (h : buildSkipTag a b ≠ []) (z : List Char) :
    skipLenM (buildSkipTag a b ++ z) = some (buildSkipTag a b).length := by
  unfold buildSkipTag at h ⊢
  by_cases hab : a = 0 ∧ b = 0
  · simp [hab] at h
  · rw [if_neg hab]
    unfold skipLenM
    rw [skipM_match a b z]
    simp [chars, List.length_append]
    omega

lemma payloadLenM_exact {openT payload : List Char} (hne : payload ≠ [])
    (hrb : ∀ c ∈ payload, c ≠ ']') (z : List Char) :
    payloadLenM openT ((openT ++ payload ++ [']']) ++ z) =
      some (openT ++ payload ++ [']']).length := by
  unfold payloadLenM
  rw [payloadM_match openT payload z hne hrb]
  simp [List.length_append]
  omega

/-- Running the ordered `replace` sequence over a comment of the shape
`spaces ++ tags ++ " " ++ userText` removes each present tag (leaving its
separating space) and touches nothing else: what remains is spaces, one
space, and the user text. -/
lemma stripSeq_aligned (L : List ((List Char → Option Nat) × List Char))
    (hops : ∀ q ∈ L, ∃ op, OpensWith q.1 op ∧ op.head? = some '[')
    (hexact : ∀ q ∈ L, q.2 ≠ [] → ∀ z, q.1 (q.2 ++ z) = some q.2.length)
    (hpw : L.Pairwise (fun a b => b.2 ≠ [] → SafeChunk a.1 b.2)) :
    ∀ ws u : List Char, (∀ c ∈ ws, c = ' ') → (∀ c ∈ u, c ≠ '[') →
      ∃ ws2, (∀ c ∈ ws2, c = ' ') ∧
        stripSeq (L.map (fun q => q.1))
          (ws ++ (joinSp ((L.map (fun q => q.2)).filter (fun p => p ≠ [])) ++
            ' ' :: u)) = ws2 ++ ' ' :: u := by
  induction L with
  | nil =>
    intro ws u hws _hu
    exact ⟨ws, hws, rfl⟩
  | cons q L ih =>
    intro ws u hws hu
    obtain ⟨op, hop, hbr⟩ := hops q (by simp)
    have hopsL : ∀ r ∈ L, ∃ o2, OpensWith r.1 o2 ∧ o2.head? = some '[' :=
      fun r hr => hops r (by simp [hr])
    have hexactL : ∀ r ∈ L, r.2 ≠ [] → ∀ z, r.1 (r.2 ++ z) = some r.2.length :=
      fun r hr => hexact r (by simp [hr])
    have hsafeL : ∀ r ∈ L, r.2 ≠ [] → SafeChunk q.1 r.2 :=
      (List.pairwise_cons.mp hpw).1
    have hpwL := (List.pairwise_cons.mp hpw).2
    have hwsOK : ∀ c ∈ ws, c ≠ '[' := by
      intro c hc
      rw [hws c hc]
      decide
    have hCsafe : ∀ p ∈ (L.map (fun r => r.2)).filter (fun p => p ≠ []),
        SafeChunk q.1 p := by
      intro p hp
      have hmem := List.mem_of_mem_filter hp
      have hne := List.of_mem_filter hp
      rcases List.mem_map.mp hmem with ⟨r, hr, hrp⟩
      rw [← hrp]
      exact hsafeL r hr (by
        rw [hrp]
        simpa using hne)
    by_cases hq : q.2 = []
    · have hfilter : ((q.2 :: L.map (fun r => r.2)).filter (fun p => p ≠ [])) =
          (L.map (fun r => r.2)).filter (fun p => p ≠ []) := by
        rw [hq]
        exact filter_ne_cons_nil _
      have hstate : replaceOnce q.1
          (ws ++ (joinSp ((L.map (fun r => r.2)).filter (fun p => p ≠ [])) ++
            ' ' :: u)) =
          ws ++ (joinSp ((L.map (fun r => r.2)).filter (fun p => p ≠ [])) ++
            ' ' :: u) := by
        rw [replaceOnce_chunk_no_lb hop hbr hwsOK,
          replaceOnce_joinSp_safe hop hbr _ hCsafe hu]
      obtain ⟨ws2, h2, heq⟩ := ih hopsL hexactL hpwL ws u hws hu
      refine ⟨ws2, h2, ?_⟩
      show stripSeq (L.map (fun r => r.1)) (replaceOnce q.1
        (ws ++ (joinSp (((q.2 :: L.map (fun r => r.2)).filter
          (fun p => p ≠ []))) ++ ' ' :: u))) = ws2 ++ ' ' :: u
      rw [hfilter, hstate]
      exact heq
    · have hfilter : ((q.2 :: L.map (fun r => r.2)).filter (fun p => p ≠ [])) =
          q.2 :: (L.map (fun r => r.2)).filter (fun p => p ≠ []) :=
        filter_ne_cons _ hq
      cases hC : (L.map (fun r => r.2)).filter (fun p => p ≠ []) with
      | nil =>
        have hstate : replaceOnce q.1 (ws ++ (joinSp [q.2] ++ ' ' :: u)) =
            ws ++ (' ' :: u) := by
          rw [replaceOnce_chunk_no_lb hop hbr hwsOK]
          show ws ++ replaceOnce q.1 (q.2 ++ ' ' :: u) = ws ++ ' ' :: u
          rw [replaceOnce_match (hexact q (by simp) hq (' ' :: u)),
            List.drop_left]
        obtain ⟨ws2, h2, heq⟩ := ih hopsL hexactL hpwL ws u hws hu
        refine ⟨ws2, h2, ?_⟩
        show stripSeq (L.map (fun r => r.1)) (replaceOnce q.1
          (ws ++ (joinSp (((q.2 :: L.map (fun r => r.2)).filter
            (fun p => p ≠ []))) ++ ' ' :: u))) = ws2 ++ ' ' :: u
        rw [hfilter, hC, hstate]
        rw [hC] at heq
        show stripSeq (L.map (fun r => r.1)) (ws ++ ' ' :: u) = ws2 ++ ' ' :: u
        have hjn : joinSp ([] : List (List Char)) = [] := rfl
        rw [hjn] at heq
        simpa using heq
      | cons r D =>
        have hstate : replaceOnce q.1
            (ws ++ (joinSp (q.2 :: r :: D) ++ ' ' :: u)) =
            (ws ++ [' ']) ++ (joinSp (r :: D) ++ ' ' :: u) := by
          have hj : joinSp (q.2 :: r :: D) = q.2 ++ ' ' :: joinSp (r :: D) :=
            rfl
          rw [hj, List.append_assoc, List.cons_append]
          rw [replaceOnce_chunk_no_lb hop hbr hwsOK]
          rw [replaceOnce_match (hexact q (by simp) hq
            (' ' :: (joinSp (r :: D) ++ ' ' :: u))), List.drop_left]
          rw [List.append_cons ws ' ' (joinSp (r :: D) ++ ' ' :: u)]
        have hws' : ∀ c ∈ ws ++ [' '], c = ' ' := by
          intro c hc
          rcases List.mem_append.mp hc with h1 | h1
          · exact hws c h1
          · simpa using h1
        obtain ⟨ws2, h2, heq⟩ := ih hopsL hexactL hpwL (ws ++ [' ']) u hws' hu
        refine ⟨ws2, h2, ?_⟩
        show stripSeq (L.map (fun r => r.1)) (replaceOnce q.1
          (ws ++ (joinSp (((q.2 :: L.map (fun r => r.2)).filter
            (fun p => p ≠ []))) ++ ' ' :: u))) = ws2 ++ ' ' :: u
        rw [hfilter, hC, hstate]
        rw [hC] at heq
        exact heq

/-- C8 (amended): for a well-formed options value and a user text that is
free of square brackets *and of surrounding whitespace*, stripping the
meta tags from `encodeTags opts ++ " " ++ userText` returns exactly the
user text.  (A user text with leading or trailing whitespace cannot be
returned exactly: `stripMetaTags` ends in `trim()` — see the
counterexample.) -/
theorem c8_strip_inverse (o : CompilerOptions) (u : List Char)
    (hwf : WellFormedOptions o) (hu : BracketFree u)
    (ht : trimList u = u) :
    stripMetaTags (encodeTags o ++ ' ' :: u) = u := by
  obtain ⟨hfr, hdr, hor, hrk, _hrn, _hca⟩ := hwf
  have hpw : List.Pairwise
        (fun a b : (List Char → Option Nat) × List Char =>
          b.2 ≠ [] → SafeChunk a.1 b.2)
        [(litM EPIFAI_TAG, ([] : List Char)),
        (skipLenM, buildSkipTag o.skipRows o.skipCols),
        (payloadLenM fixrefOpen, buildFixedRefTag o.fixedRef),
        (payloadLenM dynrefOpen, buildDynamicRefTag o.dynamicRef),
        (litM lastcolTag, buildLastColTag o.lastColOnly),
        (litM lastrowTag, buildLastRowTag o.lastRowOnly),
        (payloadLenM origrangeOpen, buildOrigRangeTag o.origRange),
        (litM expandrowsTag, buildExpandRowsTag o.expandRows),
        (litM expandcolsTag, buildExpandColsTag o.expandCols),
        (payloadLenM skipcidxOpen, buildSkipColIndicesTag o.skippedColIndices),
        (payloadLenM skipridxOpen, buildSkipRowIndicesTag o.skippedRowIndices),
        (payloadLenM coloverflowOpen, buildColOverflowTag o.colOverflowByRow),
        (payloadLenM rowoverflowOpen, buildRowOverflowTag o.rowOverflowByCol)] := by
    refine List.Pairwise.cons ?_ (List.Pairwise.cons ?_ (List.Pairwise.cons ?_ (List.Pairwise.cons ?_ (List.Pairwise.cons ?_ (List.Pairwise.cons ?_ (List.Pairwise.cons ?_ (List.Pairwise.cons ?_ (List.Pairwise.cons ?_ (List.Pairwise.cons ?_ (List.Pairwise.cons ?_ (List.Pairwise.cons ?_ (List.Pairwise.cons ?_ List.Pairwise.nil))))))))))))
    · intro b hb
      simp only [List.mem_cons, List.not_mem_nil, or_false] at hb
      rcases hb with rfl | rfl | rfl | rfl | rfl | rfl | rfl | rfl | rfl | rfl | rfl | rfl
      · intro hne
        show SafeChunk (litM EPIFAI_TAG) (buildSkipTag o.skipRows o.skipCols)
        exact safeChunk_buildSkipTag (opensWith_litM EPIFAI_TAG)
          (fun w => not_prefix_of_zip_any (by decide) w) _ _ hne
      · intro hne
        show SafeChunk (litM EPIFAI_TAG) (buildFixedRefTag o.fixedRef)
        exact safeChunk_buildFixedRefTag (opensWith_litM EPIFAI_TAG)
          (fun w => not_prefix_of_zip_any (by decide) w) (fun c hc => (hfr c hc).1) hne
      · intro hne
        show SafeChunk (litM EPIFAI_TAG) (buildDynamicRefTag o.dynamicRef)
        exact safeChunk_buildDynamicRefTag (opensWith_litM EPIFAI_TAG)
          (fun w => not_prefix_of_zip_any (by decide) w) (fun c hc => (hdr c hc).1) hne
      · intro hne
        show SafeChunk (litM EPIFAI_TAG) (buildLastColTag o.lastColOnly)
        exact safeChunk_buildLastColTag (opensWith_litM EPIFAI_TAG)
          (fun w => not_prefix_of_zip_any (by decide) w) hne
      · intro hne
        show SafeChunk (litM EPIFAI_TAG) (buildLastRowTag o.lastRowOnly)
        exact safeChunk_buildLastRowTag (opensWith_litM EPIFAI_TAG)
          (fun w => not_prefix_of_zip_any (by decide) w) hne
      · intro hne
        show SafeChunk (litM EPIFAI_TAG) (buildOrigRangeTag o.origRange)
        exact safeChunk_buildOrigRangeTag (opensWith_litM EPIFAI_TAG)
          (fun w => not_prefix_of_zip_any (by decide) w) (fun c hc => (hor c hc).1) hne
      · intro hne
        show SafeChunk (litM EPIFAI_TAG) (buildExpandRowsTag o.expandRows)
        exact safeChunk_buildExpandRowsTag (opensWith_litM EPIFAI_TAG)
          (fun w => not_prefix_of_zip_any (by decide) w) hne
      · intro hne
        show SafeChunk (litM EPIFAI_TAG) (buildExpandColsTag o.expandCols)
        exact safeChunk_buildExpandColsTag (opensWith_litM EPIFAI_TAG)
          (fun w => not_prefix_of_zip_any (by decide) w) hne
      · intro hne
        show SafeChunk (litM EPIFAI_TAG) (buildSkipColIndicesTag o.skippedColIndices)
        exact safeChunk_buildSkipColIndicesTag (opensWith_litM EPIFAI_TAG)
          (fun w => not_prefix_of_zip_any (by decide) w) _ hne
      · intro hne
        show SafeChunk (litM EPIFAI_TAG) (buildSkipRowIndicesTag o.skippedRowIndices)
        exact safeChunk_buildSkipRowIndicesTag (opensWith_litM EPIFAI_TAG)
          (fun w => not_prefix_of_zip_any (by decide) w) _ hne
      · intro hne
        show SafeChunk (litM EPIFAI_TAG) (buildColOverflowTag o.colOverflowByRow)
        exact safeChunk_buildColOverflowTag (opensWith_litM EPIFAI_TAG)
          (fun w => not_prefix_of_zip_any (by decide) w) _ hne
      · intro hne
        show SafeChunk (litM EPIFAI_TAG) (buildRowOverflowTag o.rowOverflowByCol)
        exact safeChunk_buildRowOverflowTag (opensWith_litM EPIFAI_TAG)
          (fun w => not_prefix_of_zip_any (by decide) w) (fun kv hkv c hc => ((hrk kv hkv).2 c hc).1) hne
    · intro b hb
      simp only [List.mem_cons, List.not_mem_nil, or_false] at hb
      rcases hb with rfl | rfl | rfl | rfl | rfl | rfl | rfl | rfl | rfl | rfl | rfl
      · intro hne
        show SafeChunk (skipLenM) (buildFixedRefTag o.fixedRef)
        exact safeChunk_buildFixedRefTag (opensWith_skipLenM)
          (fun w => not_prefix_of_zip_any (by decide) w) (fun c hc => (hfr c hc).1) hne
      · intro hne
        show SafeChunk (skipLenM) (buildDynamicRefTag o.dynamicRef)
        exact safeChunk_buildDynamicRefTag (opensWith_skipLenM)
          (fun w => not_prefix_of_zip_any (by decide) w) (fun c hc => (hdr c hc).1) hne
      · intro hne
        show SafeChunk (skipLenM) (buildLastColTag o.lastColOnly)
        exact safeChunk_buildLastColTag (opensWith_skipLenM)
          (fun w => not_prefix_of_zip_any (by decide) w) hne
      · intro hne
        show SafeChunk (skipLenM) (buildLastRowTag o.lastRowOnly)
        exact safeChunk_buildLastRowTag (opensWith_skipLenM)
          (fun w => not_prefix_of_zip_any (by decide) w) hne
      · intro hne
        show SafeChunk (skipLenM) (buildOrigRangeTag o.origRange)
        exact safeChunk_buildOrigRangeTag (opensWith_skipLenM)
          (fun w => not_prefix_of_zip_any (by decide) w) (fun c hc => (hor c hc).1) hne
      · intro hne
        show SafeChunk (skipLenM) (buildExpandRowsTag o.expandRows)
        exact safeChunk_buildExpandRowsTag (opensWith_skipLenM)
          (fun w => not_prefix_of_zip_any (by decide) w) hne
      · intro hne
        show SafeChunk (skipLenM) (buildExpandColsTag o.expandCols)
        exact safeChunk_buildExpandColsTag (opensWith_skipLenM)
          (fun w => not_prefix_of_zip_any (by decide) w) hne
      · intro hne
        show SafeChunk (skipLenM) (buildSkipColIndicesTag o.skippedColIndices)
        exact safeChunk_buildSkipColIndicesTag (opensWith_skipLenM)
          (fun w => not_prefix_of_zip_any (by decide) w) _ hne
      · intro hne
        show SafeChunk (skipLenM) (buildSkipRowIndicesTag o.skippedRowIndices)
        exact safeChunk_buildSkipRowIndicesTag (opensWith_skipLenM)
          (fun w => not_prefix_of_zip_any (by decide) w) _ hne
      · intro hne
        show SafeChunk (skipLenM) (buildColOverflowTag o.colOverflowByRow)
        exact safeChunk_buildColOverflowTag (opensWith_skipLenM)
          (fun w => not_prefix_of_zip_any (by decide) w) _ hne
      · intro hne
        show SafeChunk (skipLenM) (buildRowOverflowTag o.rowOverflowByCol)
        exact safeChunk_buildRowOverflowTag (opensWith_skipLenM)
          (fun w => not_prefix_of_zip_any (by decide) w) (fun kv hkv c hc => ((hrk kv hkv).2 c hc).1) hne
    · intro b hb
      simp only [List.mem_cons, List.not_mem_nil, or_false] at hb
      rcases hb with rfl | rfl | rfl | rfl | rfl | rfl | rfl | rfl | rfl | rfl
      · intro hne
        show SafeChunk (payloadLenM fixrefOpen) (buildDynamicRefTag o.dynamicRef)
        exact safeChunk_buildDynamicRefTag (opensWith_payloadLenM fixrefOpen)
          (fun w => not_prefix_of_zip_any (by decide) w) (fun c hc => (hdr c hc).1) hne
      · intro hne
        show SafeChunk (payloadLenM fixrefOpen) (buildLastColTag o.lastColOnly)
        exact safeChunk_buildLastColTag (opensWith_payloadLenM fixrefOpen)
          (fun w => not_prefix_of_zip_any (by decide) w) hne
      · intro hne
        show SafeChunk (payloadLenM fixrefOpen) (buildLastRowTag o.lastRowOnly)
        exact safeChunk_buildLastRowTag (opensWith_payloadLenM fixrefOpen)
          (fun w => not_prefix_of_zip_any (by decide) w) hne
      · intro hne
        show SafeChunk (payloadLenM fixrefOpen) (buildOrigRangeTag o.origRange)
        exact safeChunk_buildOrigRangeTag (opensWith_payloadLenM fixrefOpen)
          (fun w => not_prefix_of_zip_any (by decide) w) (fun c hc => (hor c hc).1) hne
      · intro hne
        show SafeChunk (payloadLenM fixrefOpen) (buildExpandRowsTag o.expandRows)
        exact safeChunk_buildExpandRowsTag (opensWith_payloadLenM fixrefOpen)
          (fun w => not_prefix_of_zip_any (by decide) w) hne
      · intro hne
        show SafeChunk (payloadLenM fixrefOpen) (buildExpandColsTag o.expandCols)
        exact safeChunk_buildExpandColsTag (opensWith_payloadLenM fixrefOpen)
          (fun w => not_prefix_of_zip_any (by decide) w) hne
      · intro hne
        show SafeChunk (payloadLenM fixrefOpen) (buildSkipColIndicesTag o.skippedColIndices)
        exact safeChunk_buildSkipColIndicesTag (opensWith_payloadLenM fixrefOpen)
          (fun w => not_prefix_of_zip_any (by decide) w) _ hne
      · intro hne
        show SafeChunk (payloadLenM fixrefOpen) (buildSkipRowIndicesTag o.skippedRowIndices)
        exact safeChunk_buildSkipRowIndicesTag (opensWith_payloadLenM fixrefOpen)
          (fun w => not_prefix_of_zip_any (by decide) w) _ hne
      · intro hne
        show SafeChunk (payloadLenM fixrefOpen) (buildColOverflowTag o.colOverflowByRow)
        exact safeChunk_buildColOverflowTag (opensWith_payloadLenM fixrefOpen)
          (fun w => not_prefix_of_zip_any (by decide) w) _ hne
      · intro hne
        show SafeChunk (payloadLenM fixrefOpen) (buildRowOverflowTag o.rowOverflowByCol)
        exact safeChunk_buildRowOverflowTag (opensWith_payloadLenM fixrefOpen)
          (fun w => not_prefix_of_zip_any (by decide) w) (fun kv hkv c hc => ((hrk kv hkv).2 c hc).1) hne
    · intro b hb
      simp only [List.mem_cons, List.not_mem_nil, or_false] at hb
      rcases hb with rfl | rfl | rfl | rfl | rfl | rfl | rfl | rfl | rfl
      · intro hne
        show SafeChunk (payloadLenM dynrefOpen) (buildLastColTag o.lastColOnly)
        exact safeChunk_buildLastColTag (opensWith_payloadLenM dynrefOpen)
          (fun w => not_prefix_of_zip_any (by decide) w) hne
      · intro hne
        show SafeChunk (payloadLenM dynrefOpen) (buildLastRowTag o.lastRowOnly)
        exact safeChunk_buildLastRowTag (opensWith_payloadLenM dynrefOpen)
          (fun w => not_prefix_of_zip_any (by decide) w) hne
      · intro hne
        show SafeChunk (payloadLenM dynrefOpen) (buildOrigRangeTag o.origRange)
        exact safeChunk_buildOrigRangeTag (opensWith_payloadLenM dynrefOpen)
          (fun w => not_prefix_of_zip_any (by decide) w) (fun c hc => (hor c hc).1) hne
      · intro hne
        show SafeChunk (payloadLenM dynrefOpen) (buildExpandRowsTag o.expandRows)
        exact safeChunk_buildExpandRowsTag (opensWith_payloadLenM dynrefOpen)
          (fun w => not_prefix_of_zip_any (by decide) w) hne
      · intro hne
        show SafeChunk (payloadLenM dynrefOpen) (buildExpandColsTag o.expandCols)
        exact safeChunk_buildExpandColsTag (opensWith_payloadLenM dynrefOpen)
          (fun w => not_prefix_of_zip_any (by decide) w) hne
      · intro hne
        show SafeChunk (payloadLenM dynrefOpen) (buildSkipColIndicesTag o.skippedColIndices)
        exact safeChunk_buildSkipColIndicesTag (opensWith_payloadLenM dynrefOpen)
          (fun w => not_prefix_of_zip_any (by decide) w) _ hne
      · intro hne
        show SafeChunk (payloadLenM dynrefOpen) (buildSkipRowIndicesTag o.skippedRowIndices)
        exact safeChunk_buildSkipRowIndicesTag (opensWith_payloadLenM dynrefOpen)
          (fun w => not_prefix_of_zip_any (by decide) w) _ hne
      · intro hne
        show SafeChunk (payloadLenM dynrefOpen) (buildColOverflowTag o.colOverflowByRow)
        exact safeChunk_buildColOverflowTag (opensWith_payloadLenM dynrefOpen)
          (fun w => not_prefix_of_zip_any (by decide) w) _ hne
      · intro hne
        show SafeChunk (payloadLenM dynrefOpen) (buildRowOverflowTag o.rowOverflowByCol)
        exact safeChunk_buildRowOverflowTag (opensWith_payloadLenM dynrefOpen)
          (fun w => not_prefix_of_zip_any (by decide) w) (fun kv hkv c hc => ((hrk kv hkv).2 c hc).1) hne
    · intro b hb
      simp only [List.mem_cons, List.not_mem_nil, or_false] at hb
      rcases hb with rfl | rfl | rfl | rfl | rfl | rfl | rfl | rfl
      · intro hne
        show SafeChunk (litM lastcolTag) (buildLastRowTag o.lastRowOnly)
        exact safeChunk_buildLastRowTag (opensWith_litM lastcolTag)
          (fun w => not_prefix_of_zip_any (by decide) w) hne
      · intro hne
        show SafeChunk (litM lastcolTag) (buildOrigRangeTag o.origRange)
        exact safeChunk_buildOrigRangeTag (opensWith_litM lastcolTag)
          (fun w => not_prefix_of_zip_any (by decide) w) (fun c hc => (hor c hc).1) hne
      · intro hne
        show SafeChunk (litM lastcolTag) (buildExpandRowsTag o.expandRows)
        exact safeChunk_buildExpandRowsTag (opensWith_litM lastcolTag)
          (fun w => not_prefix_of_zip_any (by decide) w) hne
      · intro hne
        show SafeChunk (litM lastcolTag) (buildExpandColsTag o.expandCols)
        exact safeChunk_buildExpandColsTag (opensWith_litM lastcolTag)
          (fun w => not_prefix_of_zip_any (by decide) w) hne
      · intro hne
        show SafeChunk (litM lastcolTag) (buildSkipColIndicesTag o.skippedColIndices)
        exact safeChunk_buildSkipColIndicesTag (opensWith_litM lastcolTag)
          (fun w => not_prefix_of_zip_any (by decide) w) _ hne
      · intro hne
        show SafeChunk (litM lastcolTag) (buildSkipRowIndicesTag o.skippedRowIndices)
        exact safeChunk_buildSkipRowIndicesTag (opensWith_litM lastcolTag)
          (fun w => not_prefix_of_zip_any (by decide) w) _ hne
      · intro hne
        show SafeChunk (litM lastcolTag) (buildColOverflowTag o.colOverflowByRow)
        exact safeChunk_buildColOverflowTag (opensWith_litM lastcolTag)
          (fun w => not_prefix_of_zip_any (by decide) w) _ hne
      · intro hne
        show SafeChunk (litM lastcolTag) (buildRowOverflowTag o.rowOverflowByCol)
        exact safeChunk_buildRowOverflowTag (opensWith_litM lastcolTag)
          (fun w => not_prefix_of_zip_any (by decide) w) (fun kv hkv c hc => ((hrk kv hkv).2 c hc).1) hne
    · intro b hb
      simp only [List.mem_cons, List.not_mem_nil, or_false] at hb
      rcases hb with rfl | rfl | rfl | rfl | rfl | rfl | rfl
      · intro hne
        show SafeChunk (litM lastrowTag) (buildOrigRangeTag o.origRange)
        exact safeChunk_buildOrigRangeTag (opensWith_litM lastrowTag)
          (fun w => not_prefix_of_zip_any (by decide) w) (fun c hc => (hor c hc).1) hne
      · intro hne
        show SafeChunk (litM lastrowTag) (buildExpandRowsTag o.expandRows)
        exact safeChunk_buildExpandRowsTag (opensWith_litM lastrowTag)
          (fun w => not_prefix_of_zip_any (by decide) w) hne
      · intro hne
        show SafeChunk (litM lastrowTag) (buildExpandColsTag o.expandCols)
        exact safeChunk_buildExpandColsTag (opensWith_litM lastrowTag)
          (fun w => not_prefix_of_zip_any (by decide) w) hne
      · intro hne
        show SafeChunk (litM lastrowTag) (buildSkipColIndicesTag o.skippedColIndices)
        exact safeChunk_buildSkipColIndicesTag (opensWith_litM lastrowTag)
          (fun w => not_prefix_of_zip_any (by decide) w) _ hne
      · intro hne
        show SafeChunk (litM lastrowTag) (buildSkipRowIndicesTag o.skippedRowIndices)
        exact safeChunk_buildSkipRowIndicesTag (opensWith_litM lastrowTag)
          (fun w => not_prefix_of_zip_any (by decide) w) _ hne
      · intro hne
        show SafeChunk (litM lastrowTag) (buildColOverflowTag o.colOverflowByRow)
        exact safeChunk_buildColOverflowTag (opensWith_litM lastrowTag)
          (fun w => not_prefix_of_zip_any (by decide) w) _ hne
      · intro hne
        show SafeChunk (litM lastrowTag) (buildRowOverflowTag o.rowOverflowByCol)
        exact safeChunk_buildRowOverflowTag (opensWith_litM lastrowTag)
          (fun w => not_prefix_of_zip_any (by decide) w) (fun kv hkv c hc => ((hrk kv hkv).2 c hc).1) hne
    · intro b hb
      simp only [List.mem_cons, List.not_mem_nil, or_false] at hb
      rcases hb with rfl | rfl | rfl | rfl | rfl | rfl
      · intro hne
        show SafeChunk (payloadLenM origrangeOpen) (buildExpandRowsTag o.expandRows)
        exact safeChunk_buildExpandRowsTag (opensWith_payloadLenM origrangeOpen)
          (fun w => not_prefix_of_zip_any (by decide) w) hne
      · intro hne
        show SafeChunk (payloadLenM origrangeOpen) (buildExpandColsTag o.expandCols)
        exact safeChunk_buildExpandColsTag (opensWith_payloadLenM origrangeOpen)
          (fun w => not_prefix_of_zip_any (by decide) w) hne
      · intro hne
        show SafeChunk (payloadLenM origrangeOpen) (buildSkipColIndicesTag o.skippedColIndices)
        exact safeChunk_buildSkipColIndicesTag (opensWith_payloadLenM origrangeOpen)
          (fun w => not_prefix_of_zip_any (by decide) w) _ hne
      · intro hne
        show SafeChunk (payloadLenM origrangeOpen) (buildSkipRowIndicesTag o.skippedRowIndices)
        exact safeChunk_buildSkipRowIndicesTag (opensWith_payloadLenM origrangeOpen)
          (fun w => not_prefix_of_zip_any (by decide) w) _ hne
      · intro hne
        show SafeChunk (payloadLenM origrangeOpen) (buildColOverflowTag o.colOverflowByRow)
        exact safeChunk_buildColOverflowTag (opensWith_payloadLenM origrangeOpen)
          (fun w => not_prefix_of_zip_any (by decide) w) _ hne
      · intro hne
        show SafeChunk (payloadLenM origrangeOpen) (buildRowOverflowTag o.rowOverflowByCol)
        exact safeChunk_buildRowOverflowTag (opensWith_payloadLenM origrangeOpen)
          (fun w => not_prefix_of_zip_any (by decide) w) (fun kv hkv c hc => ((hrk kv hkv).2 c hc).1) hne
    · intro b hb
      simp only [List.mem_cons, List.not_mem_nil, or_false] at hb
      rcases hb with rfl | rfl | rfl | rfl | rfl
      · intro hne
        show SafeChunk (litM expandrowsTag) (buildExpandColsTag o.expandCols)
        exact safeChunk_buildExpandColsTag (opensWith_litM expandrowsTag)
          (fun w => not_prefix_of_zip_any (by decide) w) hne
      · intro hne
        show SafeChunk (litM expandrowsTag) (buildSkipColIndicesTag o.skippedColIndices)
        exact safeChunk_buildSkipColIndicesTag (opensWith_litM expandrowsTag)
          (fun w => not_prefix_of_zip_any (by decide) w) _ hne
      · intro hne
        show SafeChunk (litM expandrowsTag) (buildSkipRowIndicesTag o.skippedRowIndices)
        exact safeChunk_buildSkipRowIndicesTag (opensWith_litM expandrowsTag)
          (fun w => not_prefix_of_zip_any (by decide) w) _ hne
      · intro hne
        show SafeChunk (litM expandrowsTag) (buildColOverflowTag o.colOverflowByRow)
        exact safeChunk_buildColOverflowTag (opensWith_litM expandrowsTag)
          (fun w => not_prefix_of_zip_any (by decide) w) _ hne
      · intro hne
        show SafeChunk (litM expandrowsTag) (buildRowOverflowTag o.rowOverflowByCol)
        exact safeChunk_buildRowOverflowTag (opensWith_litM expandrowsTag)
          (fun w => not_prefix_of_zip_any (by decide) w) (fun kv hkv c hc => ((hrk kv hkv).2 c hc).1) hne
    · intro b hb
      simp only [List.mem_cons, List.not_mem_nil, or_false] at hb
      rcases hb with rfl | rfl | rfl | rfl
      · intro hne
        show SafeChunk (litM expandcolsTag) (buildSkipColIndicesTag o.skippedColIndices)
        exact safeChunk_buildSkipColIndicesTag (opensWith_litM expandcolsTag)
          (fun w => not_prefix_of_zip_any (by decide) w) _ hne
      · intro hne
        show SafeChunk (litM expandcolsTag) (buildSkipRowIndicesTag o.skippedRowIndices)
        exact safeChunk_buildSkipRowIndicesTag (opensWith_litM expandcolsTag)
          (fun w => not_prefix_of_zip_any (by decide) w) _ hne
      · intro hne
        show SafeChunk (litM expandcolsTag) (buildColOverflowTag o.colOverflowByRow)
        exact safeChunk_buildColOverflowTag (opensWith_litM expandcolsTag)
          (fun w => not_prefix_of_zip_any (by decide) w) _ hne
      · intro hne
        show SafeChunk (litM expandcolsTag) (buildRowOverflowTag o.rowOverflowByCol)
        exact safeChunk_buildRowOverflowTag (opensWith_litM expandcolsTag)
          (fun w => not_prefix_of_zip_any (by decide) w) (fun kv hkv c hc => ((hrk kv hkv).2 c hc).1) hne
    · intro b hb
      simp only [List.mem_cons, List.not_mem_nil, or_false] at hb
      rcases hb with rfl | rfl | rfl
      · intro hne
        show SafeChunk (payloadLenM skipcidxOpen) (buildSkipRowIndicesTag o.skippedRowIndices)
        exact safeChunk_buildSkipRowIndicesTag (opensWith_payloadLenM skipcidxOpen)
          (fun w => not_prefix_of_zip_any (by decide) w) _ hne
      · intro hne
        show SafeChunk (payloadLenM skipcidxOpen) (buildColOverflowTag o.colOverflowByRow)
        exact safeChunk_buildColOverflowTag (opensWith_payloadLenM skipcidxOpen)
          (fun w => not_prefix_of_zip_any (by decide) w) _ hne
      · intro hne
        show SafeChunk (payloadLenM skipcidxOpen) (buildRowOverflowTag o.rowOverflowByCol)
        exact safeChunk_buildRowOverflowTag (opensWith_payloadLenM skipcidxOpen)
          (fun w => not_prefix_of_zip_any (by decide) w) (fun kv hkv c hc => ((hrk kv hkv).2 c hc).1) hne
    · intro b hb
      simp only [List.mem_cons, List.not_mem_nil, or_false] at hb
      rcases hb with rfl | rfl
      · intro hne
        show SafeChunk (payloadLenM skipridxOpen) (buildColOverflowTag o.colOverflowByRow)
        exact safeChunk_buildColOverflowTag (opensWith_payloadLenM skipridxOpen)
          (fun w => not_prefix_of_zip_any (by decide) w) _ hne
      · intro hne
        show SafeChunk (payloadLenM skipridxOpen) (buildRowOverflowTag o.rowOverflowByCol)
        exact safeChunk_buildRowOverflowTag (opensWith_payloadLenM skipridxOpen)
          (fun w => not_prefix_of_zip_any (by decide) w) (fun kv hkv c hc => ((hrk kv hkv).2 c hc).1) hne
    · intro b hb
      simp only [List.mem_cons, List.not_mem_nil, or_false] at hb
      rcases hb with rfl
      · intro hne
        show SafeChunk (payloadLenM coloverflowOpen) (buildRowOverflowTag o.rowOverflowByCol)
        exact safeChunk_buildRowOverflowTag (opensWith_payloadLenM coloverflowOpen)
          (fun w => not_prefix_of_zip_any (by decide) w) (fun kv hkv c hc => ((hrk kv hkv).2 c hc).1) hne
    · intro b hb
      exact absurd hb (by simp)
  obtain ⟨ws2, hws2, heq⟩ := stripSeq_aligned
    [(litM EPIFAI_TAG, ([] : List Char)),
      (skipLenM, buildSkipTag o.skipRows o.skipCols),
      (payloadLenM fixrefOpen, buildFixedRefTag o.fixedRef),
      (payloadLenM dynrefOpen, buildDynamicRefTag o.dynamicRef),
      (litM lastcolTag, buildLastColTag o.lastColOnly),
      (litM lastrowTag, buildLastRowTag o.lastRowOnly),
      (payloadLenM origrangeOpen, buildOrigRangeTag o.origRange),
      (litM expandrowsTag, buildExpandRowsTag o.expandRows),
      (litM expandcolsTag, buildExpandColsTag o.expandCols),
      (payloadLenM skipcidxOpen, buildSkipColIndicesTag o.skippedColIndices),
      (payloadLenM skipridxOpen, buildSkipRowIndicesTag o.skippedRowIndices),
      (payloadLenM coloverflowOpen, buildColOverflowTag o.colOverflowByRow),
      (payloadLenM rowoverflowOpen, buildRowOverflowTag o.rowOverflowByCol)]
    (by
        intro q hq
        simp only [List.mem_cons, List.not_mem_nil, or_false] at hq
        rcases hq with rfl | rfl | rfl | rfl | rfl | rfl | rfl | rfl | rfl | rfl | rfl | rfl | rfl
        · exact ⟨EPIFAI_TAG, opensWith_litM EPIFAI_TAG, by decide⟩
        · exact ⟨chars "[skip:", opensWith_skipLenM, by decide⟩
        · exact ⟨fixrefOpen, opensWith_payloadLenM fixrefOpen, by decide⟩
        · exact ⟨dynrefOpen, opensWith_payloadLenM dynrefOpen, by decide⟩
        · exact ⟨lastcolTag, opensWith_litM lastcolTag, by decide⟩
        · exact ⟨lastrowTag, opensWith_litM lastrowTag, by decide⟩
        · exact ⟨origrangeOpen, opensWith_payloadLenM origrangeOpen, by decide⟩
        · exact ⟨expandrowsTag, opensWith_litM expandrowsTag, by decide⟩
        · exact ⟨expandcolsTag, opensWith_litM expandcolsTag, by decide⟩
        · exact ⟨skipcidxOpen, opensWith_payloadLenM skipcidxOpen, by decide⟩
        · exact ⟨skipridxOpen, opensWith_payloadLenM skipridxOpen, by decide⟩
        · exact ⟨coloverflowOpen, opensWith_payloadLenM coloverflowOpen, by decide⟩
        · exact ⟨rowoverflowOpen, opensWith_payloadLenM rowoverflowOpen, by decide⟩)
    (by
        intro q hq
        simp only [List.mem_cons, List.not_mem_nil, or_false] at hq
        rcases hq with rfl | rfl | rfl | rfl | rfl | rfl | rfl | rfl | rfl | rfl | rfl | rfl | rfl
        · intro h
          exact absurd rfl h
        · intro h z
          exact skipLenM_exact o.skipRows o.skipCols h z
        · intro h z
          have hx : o.fixedRef ≠ [] := by
            intro he
            exact h (by simp [buildFixedRefTag, he])
          show payloadLenM fixrefOpen (buildFixedRefTag o.fixedRef ++ z) =
            some (buildFixedRefTag o.fixedRef).length
          unfold buildFixedRefTag
          rw [if_neg hx]
          exact payloadLenM_exact hx (fun c hc => (hfr c hc).2) z
        · intro h z
          have hx : o.dynamicRef ≠ [] := by
            intro he
            exact h (by simp [buildDynamicRefTag, he])
          show payloadLenM dynrefOpen (buildDynamicRefTag o.dynamicRef ++ z) =
            some (buildDynamicRefTag o.dynamicRef).length
          unfold buildDynamicRefTag
          rw [if_neg hx]
          exact payloadLenM_exact hx (fun c hc => (hdr c hc).2) z
        · intro h z
          cases hb : o.lastColOnly
          · rw [hb] at h
            exact absurd (by simp [buildLastColTag]) h
          · have hbt : buildLastColTag true = lastcolTag := rfl
            rw [hbt]
            exact litM_match lastcolTag z
        · intro h z
          cases hb : o.lastRowOnly
          · rw [hb] at h
            exact absurd (by simp [buildLastRowTag]) h
          · have hbt : buildLastRowTag true = lastrowTag := rfl
            rw [hbt]
            exact litM_match lastrowTag z
        · intro h z
          have hx : o.origRange ≠ [] := by
            intro he
            exact h (by simp [buildOrigRangeTag, he])
          show payloadLenM origrangeOpen (buildOrigRangeTag o.origRange ++ z) =
            some (buildOrigRangeTag o.origRange).length
          unfold buildOrigRangeTag
          rw [if_neg hx]
          exact payloadLenM_exact hx (fun c hc => (hor c hc).2) z
        · intro h z
          cases hb : o.expandRows
          · rw [hb] at h
            exact absurd (by simp [buildExpandRowsTag]) h
          · have hbt : buildExpandRowsTag true = expandrowsTag := rfl
            rw [hbt]
            exact litM_match expandrowsTag z
        · intro h z
          cases hb : o.expandCols
          · rw [hb] at h
            exact absurd (by simp [buildExpandColsTag]) h
          · have hbt : buildExpandColsTag true = expandcolsTag := rfl
            rw [hbt]
            exact litM_match expandcolsTag z
        · intro h z
          have hx : o.skippedColIndices ≠ [] := by
            intro he
            exact h (by simp [buildSkipColIndicesTag, he])
          have hpayne : joinChar ',' ((o.skippedColIndices).map natDigits) ≠ [] := by
            cases hF : o.skippedColIndices with
            | nil => exact absurd hF hx
            | cons n t =>
              rw [List.map_cons]
              exact joinChar_cons_ne_nil _ (natDigits_ne_nil n)
          show payloadLenM skipcidxOpen (buildSkipColIndicesTag o.skippedColIndices ++ z) =
            some (buildSkipColIndicesTag o.skippedColIndices).length
          unfold buildSkipColIndicesTag
          rw [if_neg hx]
          exact payloadLenM_exact hpayne (idx_payload_ne_rb (o.skippedColIndices)) z
        · intro h z
          have hx : o.skippedRowIndices ≠ [] := by
            intro he
            exact h (by simp [buildSkipRowIndicesTag, he])
          have hpayne : joinChar ',' ((o.skippedRowIndices).map natDigits) ≠ [] := by
            cases hF : o.skippedRowIndices with
            | nil => exact absurd hF hx
            | cons n t =>
              rw [List.map_cons]
              exact joinChar_cons_ne_nil _ (natDigits_ne_nil n)
          show payloadLenM skipridxOpen (buildSkipRowIndicesTag o.skippedRowIndices ++ z) =
            some (buildSkipRowIndicesTag o.skippedRowIndices).length
          unfold buildSkipRowIndicesTag
          rw [if_neg hx]
          exact payloadLenM_exact hpayne (idx_payload_ne_rb (o.skippedRowIndices)) z
        · intro h z
          have hx : o.colOverflowByRow ≠ [] := by
            intro he
            exact h (by simp [buildColOverflowTag, he])
          have hkeysE : ∀ kv ∈ o.colOverflowByRow.map
              (fun kv => (natDigits kv.1, kv.2)), ∀ c ∈ kv.1, c ≠ ']' := by
            intro kv hkv c hc
            rcases List.mem_map.mp hkv with ⟨kv0, _, hkv0⟩
            rw [← hkv0] at hc
            have hc2 : c ∈ natDigits kv0.1 := hc
            exact (natDigits_ne_delims hc2).2.1
          have hpayne : encodeOverflow (o.colOverflowByRow.map
              (fun kv => (natDigits kv.1, kv.2))) ≠ [] := by
            cases hF : o.colOverflowByRow with
            | nil => exact absurd hF hx
            | cons kv0 t =>
              rw [List.map_cons]
              exact encodeOverflow_cons_ne_nil _ _ (natDigits_ne_nil kv0.1)
          show payloadLenM coloverflowOpen
            (buildColOverflowTag o.colOverflowByRow ++ z) =
            some (buildColOverflowTag o.colOverflowByRow).length
          unfold buildColOverflowTag
          rw [if_neg hx]
          exact payloadLenM_exact hpayne (overflow_payload_ne_rb hkeysE) z
        · intro h z
          have hx : o.rowOverflowByCol ≠ [] := by
            intro he
            exact h (by simp [buildRowOverflowTag, he])
          have hpayne : encodeOverflow o.rowOverflowByCol ≠ [] := by
            cases hF : o.rowOverflowByCol with
            | nil => exact absurd hF hx
            | cons kv0 t =>
              have hmem : kv0 ∈ o.rowOverflowByCol := by
                rw [hF]
                simp
              exact encodeOverflow_cons_ne_nil _ _ (hrk kv0 hmem).1
          show payloadLenM rowoverflowOpen
            (buildRowOverflowTag o.rowOverflowByCol ++ z) =
            some (buildRowOverflowTag o.rowOverflowByCol).length
          unfold buildRowOverflowTag
          rw [if_neg hx]
          exact payloadLenM_exact hpayne (overflow_payload_ne_rb
            (fun kv hkv c hc => ((hrk kv hkv).2 c hc).2.1)) z)
    hpw [] u (by simp) (fun c hc => (hu c hc).1)
  have heq2 : stripSeq stripMatchers (encodeTags o ++ ' ' :: u) =
      ws2 ++ ' ' :: u := heq
  unfold stripMetaTags
  rw [heq2, trimList_spaces_prepend ws2 hws2 u, ht]


/-- C8 (counterexample): the inversion law fails for a user text with
trailing whitespace — `stripMetaTags` ends in `trim()`, so `"x "` comes
back as `"x"`. -/
theorem c8_counterexample :
    stripMetaTags (encodeTags defaultOptions ++ ' ' :: chars "x ") ≠
      chars "x " := by
  decide

/-- Witness: `c8_strip_inverse` at a concrete options value and user
text. -/
theorem c8_strip_inverse_witness :
    WellFormedOptions ⟨1, 0, chars "A1:B2", [], true, false, [], false,
      false, [], [], [], []⟩ ∧
    BracketFree (chars "hello world") ∧
    trimList (chars "hello world") = chars "hello world" ∧
    stripMetaTags (encodeTags ⟨1, 0, chars "A1:B2", [], true, false, [],
      false, false, [], [], [], []⟩ ++ ' ' :: chars "hello world") =
      chars "hello world" :=
  ⟨by
    unfold WellFormedOptions BracketFree KeySafe
    exact ⟨by decide, by decide, by decide, by decide, by decide, by simp⟩,
   by
    unfold BracketFree
    decide,
   by decide,
   c8_strip_inverse _ _
    (by
      unfold WellFormedOptions BracketFree KeySafe
      exact ⟨by decide, by decide, by decide, by decide, by decide, by simp⟩)
    (by
      unfold BracketFree
      decide)
    (by decide)⟩

lemma safeChunk_no_lb {m : List Char → Option Nat} {openM : List Char}
    (hop : OpensWith m openM) (hbr : openM.head? = some '[')
    {p : List Char} (hlb : ∀ c ∈ p, c ≠ '[') (hne : p ≠ []) :
    SafeChunk m p := by
  constructor
  · intro z
    cases p with
    | nil => exact absurd rfl hne
    | cons c t =>
      rw [List.cons_append]
      exact m_none_of_head hop hbr (hlb c (by simp)) _
  · intro c hc
    exact hlb c (List.drop_subset 1 p hc)

/-- C9 (amended): `updateName` preserves the `[Epifai]` origin marker —
the written comment contains the sentinel iff the prior comment did —
for every update whose *effective user comment* (the supplied comment,
or the stripped old comment when none is supplied) contains no `[` and
whose effective options are well-formed.  (An arbitrary update can forge
the marker by smuggling `[Epifai]` into the comment field — see the
counterexample.) -/
theorem c9_origin_preserved (old : List Char) (u : UpdateNameParams)
    (huc : ∀ c ∈ u.comment.getD (stripMetaTags old), c ≠ '[')
    (hwf : WellFormedOptions (effOptions old u)) :
    containsSub EPIFAI_TAG (updateNameComment old u) =
      containsSub EPIFAI_TAG old := by
  obtain ⟨hfr, hdr, hor, hrk, _hrn, _hca⟩ := hwf
  have hop := opensWith_litM EPIFAI_TAG
  have hbr : EPIFAI_TAG.head? = some '[' := by decide
  simp only [updateNameComment]
  cases hhad : containsSub EPIFAI_TAG old with
  | false =>
    rw [if_neg (by decide)]
    rw [filter_ne_cons_nil]
    have hall : ∀ p ∈ ((u.comment.getD (stripMetaTags old) ::
        optionTagParts (effOptions old u)).filter (fun p => p ≠ [])),
        SafeChunk (litM EPIFAI_TAG) p := by
      intro p hp
      have hmem := List.mem_of_mem_filter hp
      have hne : p ≠ [] := by simpa using List.of_mem_filter hp
      simp only [optionTagParts, List.mem_cons, List.not_mem_nil,
        or_false] at hmem
      rcases hmem with rfl | rfl | rfl | rfl | rfl | rfl | rfl | rfl | rfl | rfl | rfl | rfl | rfl
      · exact safeChunk_no_lb hop hbr huc hne
      · exact safeChunk_buildSkipTag hop
          (fun w => not_prefix_of_zip_any (by decide) w) _ _ hne
      · exact safeChunk_buildFixedRefTag hop
          (fun w => not_prefix_of_zip_any (by decide) w) (fun c hc => (hfr c hc).1) hne
      · exact safeChunk_buildDynamicRefTag hop
          (fun w => not_prefix_of_zip_any (by decide) w) (fun c hc => (hdr c hc).1) hne
      · exact safeChunk_buildLastColTag hop
          (fun w => not_prefix_of_zip_any (by decide) w) hne
      · exact safeChunk_buildLastRowTag hop
          (fun w => not_prefix_of_zip_any (by decide) w) hne
      · exact safeChunk_buildOrigRangeTag hop
          (fun w => not_prefix_of_zip_any (by decide) w) (fun c hc => (hor c hc).1) hne
      · exact safeChunk_buildExpandRowsTag hop
          (fun w => not_prefix_of_zip_any (by decide) w) hne
      · exact safeChunk_buildExpandColsTag hop
          (fun w => not_prefix_of_zip_any (by decide) w) hne
      · exact safeChunk_buildSkipColIndicesTag hop
          (fun w => not_prefix_of_zip_any (by decide) w) _ hne
      · exact safeChunk_buildSkipRowIndicesTag hop
          (fun w => not_prefix_of_zip_any (by decide) w) _ hne
      · exact safeChunk_buildColOverflowTag hop
          (fun w => not_prefix_of_zip_any (by decide) w) _ hne
      · exact safeChunk_buildRowOverflowTag hop
          (fun w => not_prefix_of_zip_any (by decide) w) (fun kv hkv c hc => ((hrk kv hkv).2 c hc).1) hne
    unfold containsSub
    rw [fm_joinSp_all_safe hop hbr _ hall]
    rfl
  | true =>
    rw [if_pos rfl]
    rw [filter_ne_cons _ (by decide)]
    unfold containsSub
    rw [fm_joinSp_head_some EPIFAI_TAG _ EPIFAI_TAG.length
      (fun z => litM_match EPIFAI_TAG z)]
    rfl


/-- C9 (counterexample): with an unrestricted comment field the update
*can* forge the origin marker: updating a marker-free record with the
user comment `[Epifai]` writes a comment that contains the sentinel. -/
theorem c9_counterexample :
    containsSub EPIFAI_TAG (updateNameComment []
      { emptyUpdate with comment := some (chars "[Epifai]") }) = true ∧
    containsSub EPIFAI_TAG [] = false := by
  decide

/-- Witness: `c9_origin_preserved` at a concrete tagged old comment and
the empty update. -/
theorem c9_origin_preserved_witness :
    (∀ c ∈ emptyUpdate.comment.getD
      (stripMetaTags (chars "[Epifai] note [skip:1,0]")), c ≠ '[') ∧
    WellFormedOptions
      (effOptions (chars "[Epifai] note [skip:1,0]") emptyUpdate) ∧
    containsSub EPIFAI_TAG
      (updateNameComment (chars "[Epifai] note [skip:1,0]") emptyUpdate) =
      containsSub EPIFAI_TAG (chars "[Epifai] note [skip:1,0]") :=
  ⟨by decide,
   by
    unfold WellFormedOptions BracketFree KeySafe
    refine ⟨by decide, by decide, by decide, by decide, by decide, ?_⟩
    have hco : (effOptions (chars "[Epifai] note [skip:1,0]")
        emptyUpdate).colOverflowByRow = [] := by decide
    rw [hco]
    simp,
   c9_origin_preserved _ _ (by decide)
    (by
      unfold WellFormedOptions BracketFree KeySafe
      refine ⟨by decide, by decide, by decide, by decide, by decide, ?_⟩
      have hco : (effOptions (chars "[Epifai] note [skip:1,0]")
          emptyUpdate).colOverflowByRow = [] := by decide
      rw [hco]
      simp)⟩
